import Mathlib

/-!
# bian-go: the Money value type and the transaction-history query

A shallow embedding of `models/money.go`, of
`providers/mock/provider.go` (`RetrievePaymentTransactionHistory`), of the
REST route and handlers of accounts (`rest/server.go`, `rest/handlers.go`,
`rest/errors.go`) and of the GraphQL resolver `Transactions`
(`graphql/resolver.go`), together with the parts of the libraries they call
(`shopspring/decimal`, `strconv`, `strings`, `encoding/json`, `time`) that
the verified properties depend on.

Conventions of the embedding:

* a Go `(T, error)` result is an `Except String T`; the string is the text of
  the error built by `fmt.Errorf`;
* a Go `string` is a Lean `String` (so only valid UTF-8 strings are covered);
* a `decimal.Decimal` is its pair `value * 10 ^ exp`, with `value` a big
  integer and `exp` the exponent, an `int32` in the library; a function of
  the library that panics (`Mul` and `QuoRem`, when the exponent of the
  result leaves `int32`) returns an `Option`, and `none` is the panic;
* a `time.Time` is the instant it denotes, counted in nanoseconds;
* a Go map that is ranged over is the list of its entries in the order of
  that enumeration;
* `len` of a string and a slice expression on a string work on the bytes of
  its UTF-8 encoding; the functions of `strings` work on its characters;
* a handler is a function from the request to the response it writes; the
  services behind a handler and `time.Parse` are arbitrary functions, and a
  Go `int` is a mathematical integer.
-/

set_option autoImplicit false

deriving instance DecidableEq for Except

/-! ## `github.com/shopspring/decimal` -/

namespace decimal

/-- Arbitrary-precision fixed-point decimal: the number `value * 10 ^ exp`. -/
structure Decimal where
  value : Int
  exp : Int
deriving DecidableEq, Repr

namespace Decimal

/-- The rational number a decimal denotes. -/
def toRat (d : Decimal) : ℚ := (d.value : ℚ) * (10 : ℚ) ^ d.exp

/-- Library `rescale`: the same number at exponent `exp`; going to a larger
exponent truncates toward zero (`big.Int.Quo`). -/
def rescale (d : Decimal) (exp : Int) : Decimal :=
  if d.exp = exp then d
  else
    let diff : Nat := (exp - d.exp).natAbs
    let expScale : Int := 10 ^ diff
    if exp > d.exp then ⟨Int.tdiv d.value expScale, exp⟩
    else ⟨d.value * expScale, exp⟩

/-- Library `RescalePair`: both operands at the smaller of the two exponents. -/
def RescalePair (d1 d2 : Decimal) : Decimal × Decimal :=
  if d1.exp < d2.exp then (d1, d2.rescale d1.exp)
  else if d1.exp > d2.exp then (d1.rescale d2.exp, d2)
  else (d1, d2)

/-- Library `Add`. -/
def Add (d d2 : Decimal) : Decimal :=
  let p := RescalePair d d2
  ⟨p.1.value + p.2.value, p.1.exp⟩

/-- Library `Sub`. -/
def Sub (d d2 : Decimal) : Decimal :=
  let p := RescalePair d d2
  ⟨p.1.value - p.2.value, p.1.exp⟩

/-- Library `Neg`. -/
def Neg (d : Decimal) : Decimal := ⟨-d.value, d.exp⟩

/-- Library `Abs`. -/
def Abs (d : Decimal) : Decimal := ⟨|d.value|, d.exp⟩

/-- Conversion to `int32` of the result of an operation on `int32` values: the
value modulo `2 ^ 32` in the range of `int32`. -/
def wrapInt32 (x : Int) : Int := (x + 2147483648) % 4294967296 - 2147483648

/-- Library `Mul`; `none` is the panic of the library ("exponent overflows an
int32") when the sum of the two exponents, computed in `int64`, is outside
the range of `int32`. -/
def Mul (d d2 : Decimal) : Option Decimal :=
  let expInt64 := d.exp + d2.exp
  if expInt64 > 2147483647 ∨ expInt64 < -2147483648 then none
  else some ⟨d.value * d2.value, expInt64⟩

/-- Three-way comparison of big integers (`big.Int.Cmp`): -1, 0 or 1. -/
def bigCmp (x y : Int) : Int :=
  if x < y then -1 else if x = y then 0 else 1

/-- Library `Cmp`. -/
def Cmp (d d2 : Decimal) : Int :=
  if d.exp = d2.exp then bigCmp d.value d2.value
  else
    let p := RescalePair d d2
    bigCmp p.1.value p.2.value

/-- Library `Equal`. -/
def Equal (d d2 : Decimal) : Bool := d.Cmp d2 == 0

/-- Library `GreaterThan`. -/
def GreaterThan (d d2 : Decimal) : Bool := d.Cmp d2 == 1

/-- Library `LessThan`. -/
def LessThan (d d2 : Decimal) : Bool := d.Cmp d2 == -1

/-- Library `Sign`. -/
def Sign (d : Decimal) : Int := Int.sign d.value

/-- Library `IsZero`. -/
def IsZero (d : Decimal) : Bool := d.Sign == 0

/-- Library `IsNegative`. -/
def IsNegative (d : Decimal) : Bool := decide (d.Sign < 0)

/-- Library constant `DivisionPrecision`. -/
def DivisionPrecision : Int := 16

/-- Library `QuoRem`: quotient at exponent `-precision` and the remainder;
`none` is a panic of the library: "decimal division by 0" for a divisor whose
value is zero, "overflow in decimal QuoRem" when the exponent
`d.exp - d2.exp + precision`, computed in `int64`, is outside the range of
`int32`. -/
def QuoRem (d d2 : Decimal) (precision : Int) : Option (Decimal × Decimal) :=
  if Int.sign d2.value = 0 then none
  else
    let scale := wrapInt32 (-precision)
    let e := d.exp - d2.exp - scale
    if e > 2147483647 ∨ e < -2147483648 then none
    else if e < 0 then
      let aa := d.value
      let bb := d2.value * 10 ^ (-e).toNat
      some (⟨Int.tdiv aa bb, scale⟩, ⟨Int.tmod aa bb, d.exp⟩)
    else
      let aa := d.value * 10 ^ e.toNat
      let bb := d2.value
      some (⟨Int.tdiv aa bb, scale⟩, ⟨Int.tmod aa bb, wrapInt32 (scale + d2.exp)⟩)

/-- Library `DivRound`: quotient rounded half away from zero at `precision`
digits; it panics when `QuoRem` does. -/
def DivRound (d d2 : Decimal) (precision : Int) : Option Decimal :=
  match QuoRem d d2 precision with
  | none => none
  | some (q, r) =>
    let r2 : Decimal := ⟨|r.value| * 2, wrapInt32 (r.exp + precision)⟩
    let c := r2.Cmp d2.Abs
    if c < 0 then some q
    else if Int.sign d.value * Int.sign d2.value < 0 then
      some (q.Sub ⟨1, wrapInt32 (-precision)⟩)
    else some (q.Add ⟨1, wrapInt32 (-precision)⟩)

/-- Library `Div`: `DivRound` at `DivisionPrecision` digits. -/
def Div (d d2 : Decimal) : Option Decimal := d.DivRound d2 DivisionPrecision

end Decimal

end decimal

/-! ## `strconv` and `math/big`: reading and writing integers in base 10 -/

namespace strconv

/-- Value of a decimal digit, `none` for any other character. -/
def digitVal (c : Char) : Option Nat :=
  if '0' ≤ c ∧ c ≤ '9' then some (c.toNat - 48) else none

/-- Digits read left to right onto the accumulator `acc`; `none` on the first
character that is not a digit. -/
def parseDigits : List Char → Nat → Option Nat
  | [], acc => some acc
  | c :: cs, acc =>
    match digitVal c with
    | some v => parseDigits cs (acc * 10 + v)
    | none => none

/-- Non-empty string of decimal digits. -/
def parseUnsigned (s : List Char) : Option Nat :=
  if s = [] then none else parseDigits s 0

/-- Optional sign followed by a non-empty string of decimal digits: the
grammar accepted in base 10 by `strconv.ParseInt` and by `big.Int.SetString`
alike (no underscore, no prefix, the whole string is consumed). -/
def parseSigned (s : List Char) : Option Int :=
  match s with
  | '+' :: r => (parseUnsigned r).map (fun n => (n : Int))
  | '-' :: r => (parseUnsigned r).map (fun n => -(n : Int))
  | r => (parseUnsigned r).map (fun n => (n : Int))

/-- The two errors of `strconv.ParseInt`. -/
inductive NumError where
  | ErrSyntax
  | ErrRange
deriving DecidableEq, Repr

/-- Library `strconv.ParseInt(s, 10, bitSize)`. -/
def ParseInt (s : List Char) (bitSize : Nat) : Except NumError Int :=
  match parseSigned s with
  | none => .error .ErrSyntax
  | some v =>
    if v < -(2 ^ (bitSize - 1) : Int) ∨ v > (2 ^ (bitSize - 1) : Int) - 1 then .error .ErrRange
    else .ok v

/-- Character of a digit value. -/
def digitChar (n : Nat) : Char := Char.ofNat (48 + n % 10)

/-- Decimal digits of `n`, most significant first; `fuel` bounds the number of
digits written. -/
def natStringAux : Nat → Nat → List Char
  | 0, _ => []
  | fuel + 1, n =>
    if n < 10 then [digitChar n] else natStringAux fuel (n / 10) ++ [digitChar n]

/-- Decimal text of a natural number, without leading zeros. -/
def natString (n : Nat) : List Char := natStringAux (n + 1) n

/-- A text made of decimal digits only. -/
def IsDigits (s : List Char) : Prop := ∀ c ∈ s, ∃ d, d < 10 ∧ c = digitChar d

/-- Library `big.Int.String`: decimal text with a leading `-` when negative. -/
def bigString (x : Int) : List Char :=
  if x < 0 then '-' :: natString x.natAbs else natString x.natAbs

end strconv

namespace decimal

namespace Decimal

/-- Library `NewFromString`. -/
def NewFromString (input : String) : Except String Decimal :=
  let originalInput := input
  let parts := input.data.span (fun c => !(c == 'E' || c == 'e'))
  -- the exponent after an `E` or `e`, and the text before it
  let expPart : Except String Int :=
    match parts.2 with
    | [] => .ok 0
    | _ :: expText =>
      match strconv.ParseInt expText 32 with
      | .ok e => .ok e
      | .error .ErrRange =>
        .error ("can't convert " ++ input ++ " to decimal: fractional part too long")
      | .error .ErrSyntax =>
        .error ("can't convert " ++ input ++ " to decimal: exponent is not numeric")
  match expPart with
  | .error err => .error err
  | .ok exp0 =>
    let value := parts.1
    if value.count '.' > 1 then
      .error ("can't convert " ++ String.mk value ++ " to decimal: too many .s")
    else
      let split := value.span (fun c => !(c == '.'))
      let intString := split.1 ++ split.2.drop 1
      let exp : Int := exp0 - ((split.2.drop 1).length : Int)
      let dValue : Option Int :=
        if intString.length ≤ 18 then
          match strconv.ParseInt intString 64 with
          | .ok v => some v
          | .error _ => none
        else strconv.parseSigned intString
      match dValue with
      | none => .error ("can't convert " ++ String.mk value ++ " to decimal")
      | some v =>
        if exp < -2147483648 ∨ exp > 2147483647 then
          .error ("can't convert " ++ originalInput ++ " to decimal: fractional part too long")
        else .ok ⟨v, exp⟩

/-- Library `string(trimTrailingZeros)`; `String()` is `string(true)`. -/
def string (d : Decimal) (trimTrailingZeros : Bool) : String :=
  if d.exp ≥ 0 then String.mk (strconv.bigString (d.rescale 0).value)
  else
    let str := strconv.bigString |d.value|
    let dExpInt : Int := d.exp
    let intPart : List Char :=
      if (str.length : Int) > -dExpInt then str.take ((str.length : Int) + dExpInt).toNat
      else ['0']
    let fractionalPart : List Char :=
      if (str.length : Int) > -dExpInt then str.drop ((str.length : Int) + dExpInt).toNat
      else List.replicate (-dExpInt - (str.length : Int)).toNat '0' ++ str
    let fractionalPart :=
      if trimTrailingZeros then fractionalPart.rdropWhile (fun c => c == '0')
      else fractionalPart
    let number :=
      if fractionalPart.length > 0 then intPart ++ '.' :: fractionalPart else intPart
    if d.Sign < 0 then String.mk ('-' :: number) else String.mk number

end Decimal

end decimal

/-! ## `strings.ToUpper` -/

namespace strings

/-- Upper-case mapping of one rune: the ASCII letters, and the two non-ASCII
runes whose upper case is an ASCII letter (U+0131 and U+017F); the upper case
of every other rune is outside ASCII and is kept as the rune itself. -/
def toUpperRune (c : Char) : Char :=
  if 'a' ≤ c ∧ c ≤ 'z' then Char.ofNat (c.toNat - 32)
  else if c = Char.ofNat 0x131 then 'I'
  else if c = Char.ofNat 0x17F then 'S'
  else c

/-- Library `strings.ToUpper`. -/
def ToUpper (s : String) : String := String.mk (s.data.map toUpperRune)

end strings

/-! ## `models/money.go` -/

namespace models

open decimal

/-- Monetary amount with its currency. -/
structure Money where
  Amount : Decimal
  Currency : String
deriving DecidableEq, Repr

/-- The map literal `validCurrencies` of `validateCurrency`. -/
def validCurrencies : List (String × Bool) :=
  [("AUD", true), ("USD", true), ("GBP", true), ("EUR", true), ("CAD", true),
   ("JPY", true), ("CHF", true), ("CNY", true), ("SEK", true), ("NZD", true)]

/-- The ten codes of the allow-list, as the specification names them. -/
def allowList : List String :=
  ["AUD", "USD", "GBP", "EUR", "CAD", "JPY", "CHF", "CNY", "SEK", "NZD"]

/-- Source `validateCurrency`: `none` is the nil error. -/
def validateCurrency (currency : String) : Option String :=
  let currency := strings.ToUpper currency
  if !((validCurrencies.lookup currency).getD false) then
    some ("invalid currency code: " ++ currency)
  else none

/-- Source `NewMoney`. -/
def NewMoney (amount : Decimal) (currency : String) : Except String Money :=
  match validateCurrency currency with
  | some err => .error err
  | none => .ok { Amount := amount, Currency := strings.ToUpper currency }

namespace Money

/-- Text of the error built on a currency mismatch. -/
def mismatch (m other : Money) : String :=
  "currency mismatch: " ++ m.Currency ++ " != " ++ other.Currency

/-- Source `Money.Add`. -/
def Add (m other : Money) : Except String Money :=
  if m.Currency ≠ other.Currency then .error (mismatch m other)
  else .ok { Amount := m.Amount.Add other.Amount, Currency := m.Currency }

/-- Source `Money.Subtract`. -/
def Subtract (m other : Money) : Except String Money :=
  if m.Currency ≠ other.Currency then .error (mismatch m other)
  else .ok { Amount := m.Amount.Sub other.Amount, Currency := m.Currency }

/-- Source `Money.Multiply`; `none` when `Mul` panics, the panic leaving
`Multiply` as it is not recovered. -/
def Multiply (m : Money) (factor : Decimal) : Option Money :=
  match m.Amount.Mul factor with
  | none => none
  | some amount => some { Amount := amount, Currency := m.Currency }

/-- Source `Money.Divide`; `none` when `Div` panics, the panic leaving
`Divide` as it is not recovered. -/
def Divide (m : Money) (divisor : Decimal) : Option (Except String Money) :=
  if divisor.IsZero then some (.error "division by zero")
  else
    match m.Amount.Div divisor with
    | none => none
    | some amount => some (.ok { Amount := amount, Currency := m.Currency })

/-- Source `Money.Equal`. -/
def Equal (m other : Money) : Bool :=
  m.Currency == other.Currency && m.Amount.Equal other.Amount

/-- Source `Money.GreaterThan`. -/
def GreaterThan (m other : Money) : Except String Bool :=
  if m.Currency ≠ other.Currency then .error (mismatch m other)
  else .ok (m.Amount.GreaterThan other.Amount)

/-- Source `Money.LessThan`. -/
def LessThan (m other : Money) : Except String Bool :=
  if m.Currency ≠ other.Currency then .error (mismatch m other)
  else .ok (m.Amount.LessThan other.Amount)

/-- Source `Money.IsZero`. -/
def IsZero (m : Money) : Bool := m.Amount.IsZero

/-- Source `Money.IsNegative`. -/
def IsNegative (m : Money) : Bool := m.Amount.IsNegative

end Money

end models

/-! ## `encoding/json`, for the struct of two strings that Money is encoded as

The decoder first checks that the whole input is one JSON value surrounded by
optional white space, then stores the members of an object into the fields
they name. The nesting limit of the library (10000 levels) and the wording of
its error texts are not modelled. -/

namespace json

/-- JSON value as the decoder reads it; a number keeps its text. -/
inductive Value where
  | null
  | bool (b : Bool)
  | number (text : List Char)
  | str (s : List Char)
  | array (elems : List Value)
  | object (members : List (List Char × Value))

/-- White space of JSON. -/
def isSpace (c : Char) : Bool := c == ' ' || c == '\t' || c == '\r' || c == '\n'

/-- Input after its leading white space. -/
def skipSpace : List Char → List Char
  | [] => []
  | c :: cs => if isSpace c then skipSpace cs else c :: cs

/-- Value of a hexadecimal digit. -/
def hexVal (c : Char) : Option Nat :=
  if '0' ≤ c ∧ c ≤ '9' then some (c.toNat - 48)
  else if 'a' ≤ c ∧ c ≤ 'f' then some (c.toNat - 87)
  else if 'A' ≤ c ∧ c ≤ 'F' then some (c.toNat - 55)
  else none

/-- Library `getu4` on the four characters after a backslash and a `u`. -/
def getu4 (a b c d : Char) : Option Nat :=
  match hexVal a, hexVal b, hexVal c, hexVal d with
  | some x, some y, some z, some w => some (((x * 16 + y) * 16 + z) * 16 + w)
  | _, _, _, _ => none

/-- Rune of a code unit read by `getu4`, the replacement character for a
surrogate that is not part of a valid pair. -/
def runeOfUnit (u : Nat) : Char :=
  if 0xD800 ≤ u ∧ u < 0xE000 then Char.ofNat 0xFFFD else Char.ofNat u

/-- Piece of a string literal: a character written as such or through a short
escape, or the code unit of an escape `\uXXXX`. -/
inductive Piece where
  | rune (c : Char)
  | unit (u : Nat)
deriving DecidableEq, Repr

/-- Body of a string literal, read after its opening quote: its pieces and
the input after the closing quote. A control character or an unknown escape
makes the literal invalid. -/
def scanPieces : List Char → Option (List Piece × List Char)
  | [] => none
  | '"' :: r => some ([], r)
  | '\\' :: 'u' :: a :: b :: c :: d :: r =>
    match getu4 a b c d with
    | none => none
    | some u => (scanPieces r).map (fun p => (Piece.unit u :: p.1, p.2))
  | '\\' :: e :: r =>
    let out : Option Char :=
      if e = '"' ∨ e = '\\' ∨ e = '/' then some e
      else if e = 'b' then some (Char.ofNat 8)
      else if e = 'f' then some (Char.ofNat 12)
      else if e = 'n' then some '\n'
      else if e = 'r' then some '\r'
      else if e = 't' then some '\t'
      else none
    match out with
    | none => none
    | some c => (scanPieces r).map (fun p => (Piece.rune c :: p.1, p.2))
  | c :: r =>
    if c.toNat < 0x20 then none
    else (scanPieces r).map (fun p => (Piece.rune c :: p.1, p.2))

/-- Text of the pieces of a literal (library `unquote`): two escapes that form
a surrogate pair give one rune, any other surrogate gives the replacement
character. -/
def joinPieces : List Piece → List Char
  | [] => []
  | Piece.rune c :: rest => c :: joinPieces rest
  | Piece.unit u :: Piece.unit u2 :: rest =>
    if 0xD800 ≤ u ∧ u < 0xDC00 ∧ 0xDC00 ≤ u2 ∧ u2 < 0xE000 then
      Char.ofNat ((u - 0xD800) * 1024 + (u2 - 0xDC00) + 0x10000) :: joinPieces rest
    else runeOfUnit u :: joinPieces (Piece.unit u2 :: rest)
  | Piece.unit u :: rest => runeOfUnit u :: joinPieces rest

/-- String literal read after its opening quote: the text it denotes and the
input after the closing quote. -/
def scanString (cs : List Char) : Option (List Char × List Char) :=
  (scanPieces cs).map (fun p => (joinPieces p.1, p.2))

/-- Longest prefix of decimal digits and the input after it. -/
def scanDigits (cs : List Char) : List Char × List Char :=
  cs.span (fun c => decide ('0' ≤ c ∧ c ≤ '9'))

/-- Number literal `-? (0 | [1-9][0-9]*) (. [0-9]+)? ([eE] [+-]? [0-9]+)?`:
its text and the input after it. -/
def scanNumber (cs : List Char) : Option (List Char × List Char) :=
  let sign : List Char := if cs.head? = some '-' then ['-'] else []
  let r0 := if cs.head? = some '-' then cs.drop 1 else cs
  let ip := scanDigits r0
  if ip.1 = [] ∨ (ip.1.head? = some '0' ∧ ip.1.length > 1) then none
  else
    let frac : Option (List Char × List Char) :=
      match ip.2 with
      | '.' :: r1 =>
        let fp := scanDigits r1
        if fp.1 = [] then none else some ('.' :: fp.1, fp.2)
      | r1 => some ([], r1)
    match frac with
    | none => none
    | some (ftext, r2) =>
      let ex : Option (List Char × List Char) :=
        match r2 with
        | e :: r3 =>
          if e = 'e' ∨ e = 'E' then
            let sg : List Char :=
              if r3.head? = some '+' ∨ r3.head? = some '-' then r3.take 1 else []
            let r4 := if r3.head? = some '+' ∨ r3.head? = some '-' then r3.drop 1 else r3
            let ep := scanDigits r4
            if ep.1 = [] then none else some (e :: sg ++ ep.1, ep.2)
          else some ([], r2)
        | [] => some ([], r2)
      match ex with
      | none => none
      | some (etext, r5) => some (sign ++ ip.1 ++ ftext ++ etext, r5)

/-- Elements of an array read from the first element on, `pv` reading one
value; `n` bounds the number of elements. -/
def parseElems (pv : List Char → Option (Value × List Char)) :
    Nat → List Char → Option (List Value × List Char)
  | 0, _ => none
  | n + 1, cs =>
    match pv cs with
    | none => none
    | some (v, r) =>
      match skipSpace r with
      | [] => none
      | c :: r1 =>
        if c = ',' then (parseElems pv n (skipSpace r1)).map (fun p => (v :: p.1, p.2))
        else if c = ']' then some ([v], r1)
        else none

/-- Members of an object read from the first key on, `pv` reading one value;
`n` bounds the number of members. -/
def parseMembers (pv : List Char → Option (Value × List Char)) :
    Nat → List Char → Option (List (List Char × Value) × List Char)
  | 0, _ => none
  | _ + 1, [] => none
  | n + 1, q :: r =>
    if q ≠ '"' then none
    else
      match scanString r with
      | none => none
      | some (k, r1) =>
        match skipSpace r1 with
        | [] => none
        | c :: r2 =>
          if c ≠ ':' then none
          else
            match pv (skipSpace r2) with
            | none => none
            | some (v, r3) =>
              match skipSpace r3 with
              | [] => none
              | d :: r4 =>
                if d = ',' then
                  (parseMembers pv n (skipSpace r4)).map (fun p => ((k, v) :: p.1, p.2))
                else if d = '}' then some ([(k, v)], r4)
                else none

/-- One JSON value at the head of the input, and the input after it; `fuel`
bounds the nesting and the number of members of each level. -/
def parseValue : Nat → List Char → Option (Value × List Char)
  | 0, _ => none
  | _ + 1, [] => none
  | fuel + 1, c :: r =>
    if c = '"' then (scanString r).map (fun p => (Value.str p.1, p.2))
    else if c = '{' then
      match skipSpace r with
      | [] => none
      | d :: r1 =>
        if d = '}' then some (Value.object [], r1)
        else
          (parseMembers (parseValue fuel) fuel (d :: r1)).map (fun p => (Value.object p.1, p.2))
    else if c = '[' then
      match skipSpace r with
      | [] => none
      | d :: r1 =>
        if d = ']' then some (Value.array [], r1)
        else
          (parseElems (parseValue fuel) fuel (d :: r1)).map (fun p => (Value.array p.1, p.2))
    else if c = 't' then
      if r.take 3 = ['r', 'u', 'e'] then some (Value.bool true, r.drop 3) else none
    else if c = 'f' then
      if r.take 4 = ['a', 'l', 's', 'e'] then some (Value.bool false, r.drop 4) else none
    else if c = 'n' then
      if r.take 3 = ['u', 'l', 'l'] then some (Value.null, r.drop 3) else none
    else (scanNumber (c :: r)).map (fun p => (Value.number p.1, p.2))

/-- The whole input as one JSON value between optional white space (the
check `checkValid` and the value it accepts); the length of the input is
fuel enough, every level and every member taking at least one character. -/
def parse (data : List Char) : Option Value :=
  match parseValue (data.length + 1) (skipSpace data) with
  | none => none
  | some (v, r) => if skipSpace r = [] then some v else none

/-- The anonymous struct of `MarshalJSON` and `UnmarshalJSON`, the fields
tagged `amount` and `currency`. -/
structure MoneyFields where
  Amount : String
  Currency : String
deriving DecidableEq, Repr

/-- Library `foldRune` on the runes that matter for names in ASCII: lower-case
ASCII letters, and the two runes outside ASCII that fold to an ASCII letter
(the Kelvin sign and the long s); every other rune folds outside ASCII and is
kept. -/
def foldRune (c : Char) : Char :=
  if 'a' ≤ c ∧ c ≤ 'z' then Char.ofNat (c.toNat - 32)
  else if c = Char.ofNat 0x212A then 'K'
  else if c = Char.ofNat 0x17F then 'S'
  else c

/-- Library `foldName`. -/
def foldName (s : List Char) : List Char := s.map foldRune

/-- Field lookup of the decoder: the exact name, else the name up to case
folding. -/
def matchesField (key : List Char) (name : String) : Bool :=
  key == name.data || foldName key == foldName name.data

/-- Store of one value into a string field: the new content of the field and
whether the value is of a type a string cannot hold. A string is stored,
`null` leaves the field as it is. -/
def storeString (v : Value) (field : String) : String × Bool :=
  match v with
  | .str s => (String.mk s, false)
  | .null => (field, false)
  | _ => (field, true)

/-- Decoding of one object member into the struct; `err` is the saved error,
of which the first is kept while decoding goes on. -/
def decodeMember (st : MoneyFields × Option String) (kv : List Char × Value) :
    MoneyFields × Option String :=
  if matchesField kv.1 "amount" then
    let r := storeString kv.2 st.1.Amount
    ({ st.1 with Amount := r.1 },
      if r.2 ∧ st.2 = none then some "json: cannot unmarshal into Go struct field amount of type string"
      else st.2)
  else if matchesField kv.1 "currency" then
    let r := storeString kv.2 st.1.Currency
    ({ st.1 with Currency := r.1 },
      if r.2 ∧ st.2 = none then some "json: cannot unmarshal into Go struct field currency of type string"
      else st.2)
  else st

/-- Library `json.Unmarshal(data, &temp)`: the struct after the call and the
error returned (`none` for nil). -/
def Unmarshal (data : String) (temp : MoneyFields) : MoneyFields × Option String :=
  match parse data.data with
  | none => (temp, some "json: syntax error")
  | some Value.null => (temp, none)
  | some (Value.object members) => members.foldl decodeMember (temp, none)
  | some _ => (temp, some "json: cannot unmarshal into Go value of type struct")

/-- Hexadecimal digit of the encoder (lower case). -/
def hexDigit (n : Nat) : Char :=
  if n % 16 < 10 then Char.ofNat (48 + n % 16) else Char.ofNat (87 + n % 16)

/-- Membership in the table `htmlSafeSet` of the encoder: the ASCII characters
from the space on, except the quote, the backslash and `&`, `<`, `>`. -/
def htmlSafe (c : Char) : Bool :=
  decide (0x20 ≤ c.toNat ∧ c.toNat < 0x80) &&
    !(c == '"' || c == '\\' || c == '&' || c == '<' || c == '>')

/-- Text the encoder writes for one character of a string. -/
def encodeChar (c : Char) : List Char :=
  if c.toNat < 0x80 then
    if htmlSafe c then [c]
    else if c = '\\' ∨ c = '"' then ['\\', c]
    else if c = Char.ofNat 8 then ['\\', 'b']
    else if c = Char.ofNat 12 then ['\\', 'f']
    else if c = '\n' then ['\\', 'n']
    else if c = '\r' then ['\\', 'r']
    else if c = '\t' then ['\\', 't']
    else ['\\', 'u', '0', '0', hexDigit (c.toNat / 16), hexDigit c.toNat]
  else if c = Char.ofNat 0x2028 ∨ c = Char.ofNat 0x2029 then
    ['\\', 'u', '2', '0', '2', hexDigit c.toNat]
  else [c]

/-- String literal the encoder writes for a string. -/
def encodeString (s : String) : List Char :=
  '"' :: (s.data.flatMap encodeChar ++ ['"'])

/-- Library `json.Marshal` of the struct: the object of its two fields, in the
order of their declaration, without white space. -/
def Marshal (v : MoneyFields) : String :=
  String.mk (['{'] ++ encodeString "amount" ++ [':'] ++ encodeString v.Amount ++ [','] ++
    encodeString "currency" ++ [':'] ++ encodeString v.Currency ++ ['}'])

end json

/-! ## `models/money.go`: serialization -/

namespace models

open decimal

/-- Source `Money.MarshalJSON`; `json.Marshal` of this struct has no error. -/
def Money.MarshalJSON (m : Money) : Except String String :=
  .ok (json.Marshal { Amount := m.Amount.string true, Currency := m.Currency })

/-- Source `Money.UnmarshalJSON`: the receiver after the call and the error
returned (`none` for nil). -/
def Money.UnmarshalJSON (m : Money) (data : String) : Money × Option String :=
  let r := json.Unmarshal data { Amount := "", Currency := "" }
  match r.2 with
  | some err => (m, some err)
  | none =>
    let temp := r.1
    match Decimal.NewFromString temp.Amount with
    | .error err => (m, some ("invalid amount: " ++ err))
    | .ok amount =>
      match validateCurrency temp.Currency with
      | some err => (m, some err)
      | none => ({ Amount := amount, Currency := strings.ToUpper temp.Currency }, none)

end models

/-! ## `time` -/

namespace time

/-- Instant of a `time.Time`, in nanoseconds. The values compared here carry
no monotonic clock reading (`AddDate` strips it), so `Before` and `After`
compare instants. -/
abbrev Time := Int

/-- Library `Time.Before`. -/
def Time.Before (t u : Time) : Bool := decide (t < u)

/-- Library `Time.After`. -/
def Time.After (t u : Time) : Bool := decide (t > u)

/-- Nanoseconds in a day of 24 hours. -/
def day : Int := 86400 * 1000000000

/-- Library `Time.AddDate(0, 0, days)` where a calendar day lasts 24 hours. -/
def Time.AddDays (t : Time) (days : Int) : Time := t + days * day

end time

/-! ## `models/transaction.go`, `models/account.go`, `domains/transaction.go` -/

namespace models

open decimal

/-- Source `Transaction`; the enumeration `TransactionType` is a string type. -/
structure Transaction where
  ID : String
  Reference : String
  TransactionType : String
  Amount : Money
  Description : String
  MerchantName : String
  PostingDate : time.Time
  ValueDate : time.Time
  RunningBalance : Option Money
  AccountID : String
deriving DecidableEq, Repr

/-- Source `Account`; `AccountType` and `AccountStatus` are string types. -/
structure Account where
  ID : String
  AccountNumber : String
  AccountType : String
  ProductName : String
  Nickname : String
  Status : String
  OpenDate : time.Time
  CloseDate : Option time.Time
  Currency : String
deriving DecidableEq, Repr

/-- Source `NewMoneyFromString`. -/
def NewMoneyFromString (amount currency : String) : Except String Money :=
  match Decimal.NewFromString amount with
  | .error err => .error ("invalid amount: " ++ err)
  | .ok dec => NewMoney dec currency

end models

namespace domains

/-- Source `HistoryOptions`; `Limit` and `Offset` are Go `int`s. -/
structure HistoryOptions where
  FromDate : Option time.Time
  ToDate : Option time.Time
  Limit : Int
  Offset : Int
deriving DecidableEq, Repr

end domains

/-! ## `providers/mock/provider.go` -/

namespace mock

open models domains

/-- Go slice value as far as the program observes it: `none` is the nil slice,
`some l` a non-nil slice holding `l`. -/
abbrev Slice (α : Type) := Option (List α)

/-- Elements of a slice (none for the nil slice). -/
def Slice.toList {α : Type} (s : Slice α) : List α := s.getD []

/-- Built-in `len`. -/
def Slice.len {α : Type} (s : Slice α) : Int := (s.toList.length : Int)

/-- Built-in `append(s, x)`: the result is never nil. -/
def Slice.append {α : Type} (s : Slice α) (x : α) : Slice α := some (s.toList ++ [x])

/-- Slice expression `s[lo:]`. -/
def Slice.sliceFrom {α : Type} (s : Slice α) (lo : Int) : Slice α :=
  s.map (fun l => l.drop lo.toNat)

/-- Slice expression `s[:hi]`. -/
def Slice.sliceTo {α : Type} (s : Slice α) (hi : Int) : Slice α :=
  s.map (fun l => l.take hi.toNat)

/-- Source `Provider`: the maps `accounts` and `transactions` as the lists of
their entries, `transactions` in the order in which `range` enumerates it. -/
structure Provider where
  accounts : List (String × Account)
  transactions : List (String × Transaction)
deriving Repr

/-- Body of the filtering loop of `RetrievePaymentTransactionHistory` for one
map entry `tx`, `transactions` being the slice collected so far. -/
def filterStep (accountID : String) (opts : HistoryOptions)
    (transactions : Slice Transaction) (tx : Transaction) : Slice Transaction :=
  if tx.AccountID = accountID then
    if opts.FromDate.any (fun fromDate => tx.PostingDate.Before fromDate) then transactions
    else if opts.ToDate.any (fun toDate => tx.PostingDate.After toDate) then transactions
    else transactions.append tx
  else transactions

/-- Body of the inner sorting loop: exchange the elements at `i` and `j` when
the one at `i` was posted before the one at `j`. -/
def swapIfBefore (l : List Transaction) (i j : Nat) : List Transaction :=
  match l[i]?, l[j]? with
  | some a, some b =>
    if a.PostingDate.Before b.PostingDate then (l.set i b).set j a else l
  | _, _ => l

/-- Inner sorting loop `for j := i + 1; j < len(transactions); j++`. -/
def sortInner (l : List Transaction) (i : Nat) : List Transaction :=
  (List.range' (i + 1) (l.length - (i + 1))).foldl (fun acc j => swapIfBefore acc i j) l

/-- Outer sorting loop `for i := 0; i < len(transactions)-1; i++`. -/
def sortByPostingDate (l : List Transaction) : List Transaction :=
  (List.range' 0 (l.length - 1)).foldl (fun acc i => sortInner acc i) l

/-- Filtering loop of `RetrievePaymentTransactionHistory` over the entries of
the transaction map, starting from the nil slice `var transactions`. -/
def filterTransactions (entries : List (String × Transaction)) (accountID : String)
    (opts : HistoryOptions) : Slice Transaction :=
  entries.foldl (fun acc kv => filterStep accountID opts acc kv.2) none

/-- Pagination block of `RetrievePaymentTransactionHistory`: the slice it
returns for the sorted slice `transactions`. -/
def paginate (transactions : Slice Transaction) (opts : HistoryOptions) : Slice Transaction :=
  if opts.Offset > 0 ∧ opts.Offset ≥ transactions.len then some []
  else
    let transactions :=
      if opts.Offset > 0 then transactions.sliceFrom opts.Offset else transactions
    if opts.Limit > 0 ∧ opts.Limit < transactions.len then transactions.sliceTo opts.Limit
    else transactions

/-- Source `Provider.RetrievePaymentTransactionHistory`: the account check,
then the filtering loop, the in-place sort and the pagination. -/
def Provider.RetrievePaymentTransactionHistory (p : Provider) (accountID : String)
    (opts : HistoryOptions) : Except String (Slice Transaction) :=
  if (p.accounts.lookup accountID).isNone then
    .error ("account not found: " ++ accountID)
  else
    let transactions := filterTransactions p.transactions accountID opts
    let transactions := transactions.map sortByPostingDate
    .ok (paginate transactions opts)

/-- Posting date of the element at index `k`, and 0 past the end: the view of
a slice on which the sorting loops are analysed. -/
def dateAt (l : List Transaction) (k : Nat) : Int :=
  match l[k]? with
  | some t => t.PostingDate
  | none => 0

/-- Selection predicate in the words of the specification: the account
matches, and the posting date lies within the bounds that are present, both
bounds included. -/
def specKeep (accountID : String) (fromDate toDate : Option time.Time) (tx : Transaction) : Bool :=
  decide (tx.AccountID = accountID) &&
  (match fromDate with
   | none => true
   | some f => decide (tx.PostingDate ≥ f)) &&
  (match toDate with
   | none => true
   | some t => decide (tx.PostingDate ≤ t))

/-- The literal table of `loadSampleTransactions`:
id, account, type, amount, currency, description, merchant, days ago. -/
def sampleRows : List (String × String × String × String × String × String × String × Int) :=
  [("tx-001", "acc-001", "DEBIT", "-45.50", "AUD", "Grocery Shopping", "Woolworths", 1),
   ("tx-002", "acc-001", "CREDIT", "2500.00", "AUD", "Salary Payment", "ACME Corp", 3),
   ("tx-003", "acc-001", "DEBIT", "-12.80", "AUD", "Coffee", "Local Cafe", 5),
   ("tx-004", "acc-001", "DEBIT", "-89.99", "AUD", "Utilities", "Energy Australia", 7),
   ("tx-005", "acc-001", "DEBIT", "-25.00", "AUD", "ATM Withdrawal", "ANZ ATM", 10),
   ("tx-006", "acc-002", "CREDIT", "500.00", "AUD", "Transfer from Checking", "Internal Transfer", 2),
   ("tx-007", "acc-002", "CREDIT", "15.25", "AUD", "Interest Payment", "Bank Interest", 30),
   ("tx-008", "acc-002", "CREDIT", "1000.00", "AUD", "Bonus Payment", "ACME Corp", 45),
   ("tx-009", "acc-003", "DEBIT", "-125.00", "USD", "Online Shopping", "Amazon", 2),
   ("tx-010", "acc-003", "DEBIT", "-89.50", "USD", "Restaurant", "Fine Dining Co", 5),
   ("tx-011", "acc-003", "CREDIT", "-25.00", "USD", "Payment Received", "Credit Payment", 15)]

/-- Source `loadSampleTransactions`: the entries written to the map, in the
order of the table. Every amount of the table parses, so the dereference of
the result of `NewMoneyFromString` never meets nil; the fallback value stands
for that unreachable case. -/
def loadSampleTransactions (now : time.Time) : List (String × Transaction) :=
  sampleRows.map (fun row =>
    match row with
    | (id, accountID, txType, amount, currency, description, merchant, daysAgo) =>
      let amount : Money :=
        match NewMoneyFromString amount currency with
        | .ok m => m
        | .error _ => ⟨⟨0, 0⟩, ""⟩
      let postingDate := time.Time.AddDays now (-daysAgo)
      (id, { ID := id,
             Reference := "REF-" ++ id,
             TransactionType := txType,
             Amount := amount,
             Description := description,
             MerchantName := merchant,
             PostingDate := postingDate,
             ValueDate := postingDate,
             RunningBalance := none,
             AccountID := accountID }))

/-- Account entries written by `loadSampleData`; `AddDate` by years and
months is calendar arithmetic the properties do not depend on, so the opening
dates are counted in days of 24 hours (365 a year, 30 a month). -/
def loadSampleAccounts (now : time.Time) : List (String × Account) :=
  [("acc-001", { ID := "acc-001", AccountNumber := "123456789", AccountType := "CHECKING",
                 ProductName := "Everyday Checking", Nickname := "Main Account",
                 Status := "OPEN", OpenDate := time.Time.AddDays now (-730),
                 CloseDate := none, Currency := "AUD" }),
   ("acc-002", { ID := "acc-002", AccountNumber := "987654321", AccountType := "SAVINGS",
                 ProductName := "High Interest Savings", Nickname := "",
                 Status := "OPEN", OpenDate := time.Time.AddDays now (-545),
                 CloseDate := none, Currency := "AUD" }),
   ("acc-003", { ID := "acc-003", AccountNumber := "555666777", AccountType := "CREDIT_CARD",
                 ProductName := "Platinum Credit Card", Nickname := "",
                 Status := "OPEN", OpenDate := time.Time.AddDays now (-1095),
                 CloseDate := none, Currency := "USD" })]

/-- Source `NewProvider` at the instant `now`, the transaction map being
enumerated in the order in which it was filled. -/
def NewProvider (now : time.Time) : Provider :=
  { accounts := loadSampleAccounts now, transactions := loadSampleTransactions now }

/-- Transaction with the given id, account and posting date, its other fields
left empty: the entries of the small stores the query is evaluated on. -/
def txAt (id accountID : String) (date : time.Time) : Transaction :=
  { ID := id, Reference := "", TransactionType := "DEBIT", Amount := ⟨⟨0, 0⟩, "AUD"⟩,
    Description := "", MerchantName := "", PostingDate := date, ValueDate := date,
    RunningBalance := none, AccountID := accountID }

/-- Store with the single account "acc" whose transaction map is enumerated
in the order of the list `txs`, each transaction under its id. -/
def storeOf (txs : List Transaction) : Provider :=
  { accounts := [("acc", { ID := "acc", AccountNumber := "1", AccountType := "CHECKING",
                           ProductName := "", Nickname := "", Status := "OPEN", OpenDate := 0,
                           CloseDate := none, Currency := "AUD" })],
    transactions := txs.map (fun tx => (tx.ID, tx)) }

/-- The transactions numbered `0` to `n - 1` of the account "acc", the
transaction `i` posted at instant `i`. -/
def manyTx (n : Nat) : List Transaction :=
  (List.range n).map (fun i => txAt (String.mk (strconv.natString i)) "acc" (i : Int))

/-- Posting dates of the elements of a slice, nil for the nil slice. -/
def Slice.dates (s : Slice Transaction) : Slice time.Time :=
  s.map (fun l => l.map (fun tx => tx.PostingDate))

end mock

/-! ## `strings`, `strconv`, `net/url`: what the handlers use -/

namespace strings

/-- Bytes of the UTF-8 encoding of one character. -/
def utf8Bytes (c : Char) : List Nat :=
  if c.toNat < 0x80 then [c.toNat]
  else if c.toNat < 0x800 then [0xC0 + c.toNat / 64, 0x80 + c.toNat % 64]
  else if c.toNat < 0x10000 then
    [0xE0 + c.toNat / 4096, 0x80 + c.toNat / 64 % 64, 0x80 + c.toNat % 64]
  else
    [0xF0 + c.toNat / 262144, 0x80 + c.toNat / 4096 % 64, 0x80 + c.toNat / 64 % 64,
      0x80 + c.toNat % 64]

/-- Bytes of a string: what `len` counts and what a slice expression cuts. -/
def bytes (s : String) : List Nat := s.data.flatMap utf8Bytes

/-- Built-in `len(s)` of a string: its number of bytes. -/
def len (s : String) : Nat := (bytes s).length

/-- The comparison `s[lo:] == lit` of the bytes of `s` from index `lo` on with
a string. -/
def sliceFromEq (s : String) (lo : Nat) (lit : String) : Bool :=
  decide ((bytes s).drop lo = bytes lit)

/-- Library `strings.HasPrefix`. -/
def HasPrefix (s pre : String) : Bool := pre.data.isPrefixOf s.data

/-- Library `strings.TrimPrefix`. -/
def TrimPrefix (s pre : String) : String :=
  if HasPrefix s pre then String.mk (s.data.drop pre.data.length) else s

/-- Pieces of a text around each occurrence of the character `sep`. -/
def splitChars (sep : Char) : List Char → List (List Char)
  | [] => [[]]
  | c :: cs =>
    if c = sep then [] :: splitChars sep cs
    else
      match splitChars sep cs with
      | [] => [[c]]
      | piece :: pieces => (c :: piece) :: pieces

/-- Library `strings.Split(s, sep)` for a separator of one character. -/
def Split (s : String) (sep : Char) : List String := (splitChars sep s.data).map String.mk

/-- Library `strings.Contains`. -/
def Contains (s substr : String) : Bool := decide (substr.data <:+: s.data)

end strings

namespace strconv

/-- Library `strconv.Atoi` where `int` has 64 bits. -/
def Atoi (s : String) : Except NumError Int := ParseInt s.data 64

end strconv

/-! ## `rest/errors.go`, `rest/handlers.go`, `rest/server.go` -/

namespace rest

open models domains mock

/-- Source `ErrorDetail`. -/
structure ErrorDetail where
  Code : String
  Message : String
  Details : String
deriving DecidableEq, Repr

/-- What a handler writes: an error response with its status code, or the
value it encodes with status 200. `B` and `BS` are the types the balance
services return. -/
inductive Response (B BS : Type) where
  | error (statusCode : Nat) (detail : ErrorDetail)
  | account (a : Account)
  | balance (b : B)
  | balances (bs : BS)
  | transactions (ts : Slice Transaction)
deriving DecidableEq

/-- Source `WriteErrorResponse`. -/
def WriteErrorResponse {B BS : Type} (code message details : String) (statusCode : Nat) :
    Response B BS :=
  .error statusCode { Code := code, Message := message, Details := details }

/-- Source `WriteNotFoundError`. -/
def WriteNotFoundError {B BS : Type} (resource id : String) : Response B BS :=
  WriteErrorResponse "NOT_FOUND" (resource ++ " not found")
    ("No " ++ resource ++ " exists with ID " ++ id) 404

/-- Source `WriteInvalidInputError`. -/
def WriteInvalidInputError {B BS : Type} (message : String) : Response B BS :=
  WriteErrorResponse "INVALID_INPUT" "Invalid input" message 400

/-- Source `WriteInternalError`. -/
def WriteInternalError {B BS : Type} (err : String) : Response B BS :=
  WriteErrorResponse "INTERNAL_ERROR" "Internal server error" err 500

/-- The part of `http.Request` the handlers read: the method, `URL.Path`, and
the query as the pairs of key and value in the order of the URL. -/
structure Request where
  Method : String
  Path : String
  Query : List (String × String)
deriving DecidableEq, Repr

/-- Library `r.URL.Query().Get(key)`: the first value of the key, the empty
string when the key is absent. -/
def Request.QueryGet (r : Request) (key : String) : String :=
  match r.Query.find? (fun kv => kv.1 == key) with
  | some kv => kv.2
  | none => ""

/-- Source `Handlers`: the services behind the handlers, each an arbitrary
function (the interfaces of `domains`), and `time.Parse("2006-01-02", s)`. -/
structure Handlers (B BS : Type) where
  RetrieveCurrentAccount : String → Except String Account
  RetrieveCurrentAccountBalance : String → Except String B
  RetrievePaymentTransactionHistory :
    String → HistoryOptions → Except String (Slice Transaction)
  RetrieveAccountBalance : String → Except String BS
  parseDate : String → Except String time.Time

/-- Source `Handlers.GetAccount`. -/
def Handlers.GetAccount {B BS : Type} (h : Handlers B BS) (r : Request) : Response B BS :=
  let accountID := strings.TrimPrefix r.Path "/accounts/"
  if accountID = "" ∨ accountID = "/accounts/" then
    WriteInvalidInputError "Account ID is required"
  else
    match h.RetrieveCurrentAccount accountID with
    | .error err =>
      if strings.Contains err "not found" then WriteNotFoundError "account" accountID
      else WriteInternalError err
    | .ok account => .account account

/-- Source `Handlers.GetAccountBalance`. -/
def Handlers.GetAccountBalance {B BS : Type} (h : Handlers B BS) (r : Request) :
    Response B BS :=
  let parts := strings.Split (strings.TrimPrefix r.Path "/accounts/") '/'
  if parts.length < 2 ∨ parts.head? = some "" then
    WriteInvalidInputError "Account ID is required"
  else
    let accountID := parts.headD ""
    match h.RetrieveCurrentAccountBalance accountID with
    | .error err =>
      if strings.Contains err "not found" then WriteNotFoundError "account" accountID
      else WriteInternalError err
    | .ok balance => .balance balance

/-- Source `Handlers.GetBalances`. -/
def Handlers.GetBalances {B BS : Type} (h : Handlers B BS) (r : Request) : Response B BS :=
  let parts := strings.Split (strings.TrimPrefix r.Path "/accounts/") '/'
  if parts.length < 2 ∨ parts.head? = some "" then
    WriteInvalidInputError "Account ID is required"
  else
    let accountID := parts.headD ""
    match h.RetrieveAccountBalance accountID with
    | .error err =>
      if strings.Contains err "not found" then WriteNotFoundError "account" accountID
      else WriteInternalError err
    | .ok balances => .balances balances

/-- The block of `GetAccountTransactions` that reads a date of the query
(`fromDate`, `toDate`): no bound when the text is empty, an error when the
text does not parse. -/
def dateParam (parseDate : String → Except String time.Time) (text : String) :
    Except Unit (Option time.Time) :=
  if text ≠ "" then
    match parseDate text with
    | .error _ => .error ()
    | .ok t => .ok (some t)
  else .ok none

/-- The block of `GetAccountTransactions` that reads `limit`: the value of
`opts.Limit`, or the message of the rejection. -/
def limitParam (limitStr : String) : Except String Int :=
  if limitStr ≠ "" then
    match strconv.Atoi limitStr with
    | .error _ => .error "Invalid limit, must be a positive integer"
    | .ok limit =>
      if limit ≤ 0 then .error "Invalid limit, must be a positive integer"
      else if limit > 500 then .error "Limit cannot exceed 500"
      else .ok limit
  else .ok 0

/-- The block of `GetAccountTransactions` that reads `offset`: the value of
`opts.Offset`, or the message of the rejection. -/
def offsetParam (offsetStr : String) : Except String Int :=
  if offsetStr ≠ "" then
    match strconv.Atoi offsetStr with
    | .error _ => .error "Invalid offset, must be a non-negative integer"
    | .ok offset =>
      if offset < 0 then .error "Invalid offset, must be a non-negative integer"
      else .ok offset
  else .ok 0

/-- The end of `GetAccountTransactions`: what is written for the outcome of
the query of the service. -/
def writeHistory {B BS : Type} (accountID : String)
    (outcome : Except String (Slice Transaction)) : Response B BS :=
  match outcome with
  | .error err =>
    if strings.Contains err "not found" then WriteNotFoundError "account" accountID
    else WriteInternalError err
  | .ok transactions => .transactions transactions

/-- Source `Handlers.GetAccountTransactions`: the account id from the path,
then the options from the query, each block rejecting on its own, then the
query of the service. -/
def Handlers.GetAccountTransactions {B BS : Type} (h : Handlers B BS) (r : Request) :
    Response B BS :=
  let parts := strings.Split (strings.TrimPrefix r.Path "/accounts/") '/'
  if parts.length < 2 ∨ parts.head? = some "" then
    WriteInvalidInputError "Account ID is required"
  else
    let accountID := parts.headD ""
    match dateParam h.parseDate (r.QueryGet "fromDate") with
    | .error _ => WriteInvalidInputError "Invalid fromDate format, use YYYY-MM-DD"
    | .ok optsFromDate =>
      match dateParam h.parseDate (r.QueryGet "toDate") with
      | .error _ => WriteInvalidInputError "Invalid toDate format, use YYYY-MM-DD"
      | .ok optsToDate =>
        match limitParam (r.QueryGet "limit") with
        | .error msg => WriteInvalidInputError msg
        | .ok optsLimit =>
          match offsetParam (r.QueryGet "offset") with
          | .error msg => WriteInvalidInputError msg
          | .ok optsOffset =>
            writeHistory accountID (h.RetrievePaymentTransactionHistory accountID
              ⟨optsFromDate, optsToDate, optsLimit, optsOffset⟩)

/-- Source `Server.routeAccountRequests`, the handler of the pattern
`/accounts/`. -/
def routeAccountRequests {B BS : Type} (h : Handlers B BS) (r : Request) : Response B BS :=
  if r.Method ≠ "GET" then
    WriteErrorResponse "INVALID_INPUT" "Method not allowed" "Only GET requests are supported" 405
  else if strings.len r.Path > 10 ∧
      strings.sliceFromEq r.Path (strings.len r.Path - 8) "/balance" = true then
    h.GetAccountBalance r
  else if strings.len r.Path > 11 ∧
      strings.sliceFromEq r.Path (strings.len r.Path - 9) "/balances" = true then
    h.GetBalances r
  else if strings.len r.Path > 15 ∧
      strings.sliceFromEq r.Path (strings.len r.Path - 13) "/transactions" = true then
    h.GetAccountTransactions r
  else h.GetAccount r

end rest

/-! ## `graphql/resolver.go` -/

namespace graphql

open models domains mock

/-- Modelled from the spec: the input type `generated.TransactionHistoryInput`
of generated code that the repository does not hold; its fields are the
optional `fromDate`, `toDate`, `limit` and `offset` of the history options,
each a pointer that is nil when the field is not provided. -/
structure TransactionHistoryInput where
  FromDate : Option String
  ToDate : Option String
  Limit : Option Int
  Offset : Option Int
deriving DecidableEq, Repr

/-- The block of `Transactions` that reads a date of the input (`fromDate`,
`toDate`): no bound for a nil pointer, an error that wraps the error of the
parser under `label` when the text does not parse. -/
def dateInput (parseDate : String → Except String time.Time) (label : String)
    (text : Option String) : Except String (Option time.Time) :=
  match text with
  | some text =>
    match parseDate text with
    | .error err => .error ("invalid " ++ label ++ " format: " ++ err)
    | .ok t => .ok (some t)
  | none => .ok none

/-- The block of `Transactions` that reads `input.Limit`: the value of
`opts.Limit`, or the error returned. -/
def limitInput (limit : Option Int) : Except String Int :=
  match limit with
  | some limit =>
    if limit ≤ 0 ∨ limit > 500 then .error "limit must be between 1 and 500"
    else .ok limit
  | none => .ok 0

/-- The block of `Transactions` that reads `input.Offset`: the value of
`opts.Offset`, or the error returned. -/
def offsetInput (offset : Option Int) : Except String Int :=
  match offset with
  | some offset =>
    if offset < 0 then .error "offset must be non-negative"
    else .ok offset
  | none => .ok 0

/-- The options `Transactions` builds from its input, or the error with which
it returns before the query; a nil input leaves the options at their zero
values. -/
def optionsOfInput (parseDate : String → Except String time.Time)
    (input : Option TransactionHistoryInput) : Except String HistoryOptions :=
  match input with
  | none => .ok ⟨none, none, 0, 0⟩
  | some input =>
    match dateInput parseDate "fromDate" input.FromDate with
    | .error err => .error err
    | .ok optsFromDate =>
      match dateInput parseDate "toDate" input.ToDate with
      | .error err => .error err
      | .ok optsToDate =>
        match limitInput input.Limit with
        | .error err => .error err
        | .ok optsLimit =>
          match offsetInput input.Offset with
          | .error err => .error err
          | .ok optsOffset => .ok ⟨optsFromDate, optsToDate, optsLimit, optsOffset⟩

/-- The end of `Transactions`: what is returned for the outcome of the query
of the service, the transactions mapped one by one onto a slice that starts
nil. -/
def mapHistory {T : Type} (mapTransaction : Transaction → T) (accountID : String)
    (outcome : Except String (Slice Transaction)) : Except String (Slice T) :=
  match outcome with
  | .error err =>
    if strings.Contains err "not found" then .error ("account not found: " ++ accountID)
    else .error err
  | .ok transactions =>
    .ok (transactions.toList.foldl (fun result tx => Slice.append result (mapTransaction tx))
      none)

/-- Source `queryResolver.Transactions`. The transaction service, the mapping
`mapTransaction` to the generated type `T` and `time.Parse("2006-01-02", s)`
are arbitrary functions; `input` is `none` for a nil pointer. -/
def Transactions {T : Type}
    (parseDate : String → Except String time.Time)
    (RetrievePaymentTransactionHistory :
      String → HistoryOptions → Except String (Slice Transaction))
    (mapTransaction : Transaction → T)
    (accountID : String) (input : Option TransactionHistoryInput) :
    Except String (Slice T) :=
  match optionsOfInput parseDate input with
  | .error err => .error err
  | .ok opts => mapHistory mapTransaction accountID (RetrievePaymentTransactionHistory accountID opts)

end graphql

/-! ## The handlers over the mock provider -/

namespace mock

open models

/-- Source `Provider.RetrieveCurrentAccount`. -/
def Provider.RetrieveCurrentAccount (p : Provider) (accountID : String) :
    Except String Account :=
  match p.accounts.lookup accountID with
  | none => .error ("account not found: " ++ accountID)
  | some account => .ok account

end mock

namespace rest

open models domains mock

/-- The handlers over a mock provider that holds no balances (its balance
services answer as the source does for an account without balances) and with
a date parser that accepts no text: the handlers on which requests without
dates are evaluated. -/
def handlersOf (p : Provider) : Handlers Unit Unit :=
  { RetrieveCurrentAccount := p.RetrieveCurrentAccount,
    RetrieveCurrentAccountBalance := fun accountID => .error ("account not found: " ++ accountID),
    RetrievePaymentTransactionHistory := p.RetrievePaymentTransactionHistory,
    RetrieveAccountBalance := fun accountID => .error ("account not found: " ++ accountID),
    parseDate := fun _ => .error "parsing time: cannot parse" }

/-- Number of transactions a response carries, `none` for an error response. -/
def Response.count {B BS : Type} : Response B BS → Option Nat
  | .transactions ts => some ts.toList.length
  | _ => none

/-- Status code of a response, 200 when a value is encoded. -/
def Response.status {B BS : Type} : Response B BS → Nat
  | .error statusCode _ => statusCode
  | _ => 200

end rest

/-! ## Lemmas on decimals -/

namespace decimal

namespace Decimal

theorem ten_ne_zero_rat : (10 : ℚ) ≠ 0 := by norm_num

/-- Rescaling to a smaller or equal exponent keeps the number. -/
theorem rescale_toRat_of_le (d : Decimal) (exp : Int) (h : exp ≤ d.exp) :
    (d.rescale exp).toRat = d.toRat := by
  unfold rescale
  by_cases he : d.exp = exp
  · simp [he]
  · have hlt : exp < d.exp := lt_of_le_of_ne h (Ne.symm he)
    have hn : ((exp - d.exp).natAbs : Int) = d.exp - exp := by omega
    simp only [he, if_false, not_lt.mpr h, gt_iff_lt, toRat]
    push_cast
    rw [mul_assoc, ← zpow_natCast, hn, ← zpow_add₀ ten_ne_zero_rat]
    congr 2
    ring

theorem rescale_exp (d : Decimal) (exp : Int) : (d.rescale exp).exp = exp := by
  unfold rescale
  by_cases he : d.exp = exp
  · simp [he]
  · by_cases hgt : exp > d.exp <;> simp [he, hgt]

/-- Both components of `RescalePair` stand at the same exponent and denote
the numbers they were built from. -/
theorem RescalePair_spec (d1 d2 : Decimal) :
    (RescalePair d1 d2).1.exp = (RescalePair d1 d2).2.exp ∧
    (RescalePair d1 d2).1.toRat = d1.toRat ∧ (RescalePair d1 d2).2.toRat = d2.toRat := by
  unfold RescalePair
  by_cases h1 : d1.exp < d2.exp
  · simp [h1, rescale_exp, rescale_toRat_of_le d2 d1.exp (le_of_lt h1)]
  · by_cases h2 : d1.exp > d2.exp
    · simp [h1, h2, rescale_exp, rescale_toRat_of_le d1 d2.exp (le_of_lt h2)]
    · simp only [h1, h2, if_false, and_self, and_true]
      omega

theorem Add_toRat (d d2 : Decimal) : (d.Add d2).toRat = d.toRat + d2.toRat := by
  obtain ⟨he, h1, h2⟩ := RescalePair_spec d d2
  rw [← h1, ← h2]
  simp only [Add, toRat, he]
  push_cast
  ring

theorem Sub_toRat (d d2 : Decimal) : (d.Sub d2).toRat = d.toRat - d2.toRat := by
  obtain ⟨he, h1, h2⟩ := RescalePair_spec d d2
  rw [← h1, ← h2]
  simp only [Sub, toRat, he]
  push_cast
  ring

/-- `Mul` returns when the sum of the exponents is in the range of `int32`. -/
theorem Mul_of_inRange (d d2 : Decimal) (hlo : -2147483648 ≤ d.exp + d2.exp)
    (hhi : d.exp + d2.exp ≤ 2147483647) :
    d.Mul d2 = some ⟨d.value * d2.value, d.exp + d2.exp⟩ := by
  have h : ¬(d.exp + d2.exp > 2147483647 ∨ d.exp + d2.exp < -2147483648) := by omega
  simp only [Mul, h, if_false]

/-- `Mul` panics when the sum of the exponents is outside the range of
`int32`. -/
theorem Mul_of_overflow (d d2 : Decimal)
    (h : d.exp + d2.exp < -2147483648 ∨ 2147483647 < d.exp + d2.exp) : d.Mul d2 = none := by
  have h2 : d.exp + d2.exp > 2147483647 ∨ d.exp + d2.exp < -2147483648 := by omega
  simp only [Mul, h2, if_true]

/-- The decimal `Mul` returns denotes the exact product. -/
theorem Mul_toRat (d d2 r : Decimal) (h : d.Mul d2 = some r) : r.toRat = d.toRat * d2.toRat := by
  simp only [Mul] at h
  split_ifs at h
  simp only [Option.some.injEq] at h
  rw [← h]
  simp only [toRat]
  push_cast
  rw [zpow_add₀ ten_ne_zero_rat]
  ring

/-- `DivRound` returns exactly when `QuoRem` does. -/
theorem DivRound_isSome (d d2 : Decimal) (precision : Int) :
    (d.DivRound d2 precision).isSome = (d.QuoRem d2 precision).isSome := by
  unfold DivRound
  cases hq : d.QuoRem d2 precision with
  | none => rfl
  | some qr =>
    obtain ⟨q, r⟩ := qr
    dsimp only
    split_ifs <;> rfl

/-- For a divisor whose value is not zero, `Div` returns exactly when the
exponent `d.exp - d2.exp + 16` is in the range of `int32`, and panics
otherwise. -/
theorem Div_isSome_iff (d d2 : Decimal) (hz : Int.sign d2.value ≠ 0) :
    (d.Div d2).isSome = true ↔
      -2147483648 ≤ d.exp - d2.exp + 16 ∧ d.exp - d2.exp + 16 ≤ 2147483647 := by
  have hw : wrapInt32 (-16) = -16 := by decide
  unfold Div DivisionPrecision
  rw [DivRound_isSome]
  by_cases he : d.exp - d2.exp - -16 > 2147483647 ∨ d.exp - d2.exp - -16 < -2147483648
  · have hq : d.QuoRem d2 16 = none := by
      simp only [QuoRem, hz, if_false, hw, he, if_true]
    simp only [hq, Option.isSome_none, Bool.false_eq_true, false_iff, not_and, not_le]
    omega
  · have hr : -2147483648 ≤ d.exp - d2.exp + 16 ∧ d.exp - d2.exp + 16 ≤ 2147483647 := by omega
    simp only [hr, and_self, iff_true]
    simp only [QuoRem, hz, if_false, hw, he]
    split_ifs <;> rfl

/-- At equal exponents the order of the numbers is the order of the values. -/
theorem toRat_lt_iff_of_exp_eq (a b : Decimal) (h : a.exp = b.exp) :
    a.toRat < b.toRat ↔ a.value < b.value := by
  have hpos : (0 : ℚ) < (10 : ℚ) ^ b.exp := zpow_pos (by norm_num) _
  simp only [toRat, h]
  rw [mul_lt_mul_right hpos]
  exact Int.cast_lt

theorem toRat_eq_iff_of_exp_eq (a b : Decimal) (h : a.exp = b.exp) :
    a.toRat = b.toRat ↔ a.value = b.value := by
  have hpos : (10 : ℚ) ^ b.exp ≠ 0 := zpow_ne_zero _ ten_ne_zero_rat
  simp only [toRat, h]
  rw [mul_left_inj' hpos]
  exact Int.cast_inj

/-- The value compared by `Cmp` is the three-way comparison of the two numbers. -/
theorem Cmp_eq (d d2 : Decimal) :
    d.Cmp d2 = if d.toRat < d2.toRat then -1 else if d.toRat = d2.toRat then 0 else 1 := by
  obtain ⟨he, h1, h2⟩ := RescalePair_spec d d2
  have key : d.Cmp d2 = bigCmp (RescalePair d d2).1.value (RescalePair d d2).2.value := by
    unfold Cmp
    by_cases h : d.exp = d2.exp
    · have : RescalePair d d2 = (d, d2) := by
        unfold RescalePair
        simp [h]
      simp [h, this]
    · simp [h]
  rw [key, ← h1, ← h2]
  simp only [bigCmp, toRat_lt_iff_of_exp_eq _ _ he, toRat_eq_iff_of_exp_eq _ _ he]

theorem Equal_iff (d d2 : Decimal) : d.Equal d2 = true ↔ d.toRat = d2.toRat := by
  unfold Equal
  rw [Cmp_eq]
  by_cases h1 : d.toRat < d2.toRat
  · simp [h1, ne_of_lt h1]
  · by_cases h2 : d.toRat = d2.toRat <;> simp [h1, h2]

theorem GreaterThan_iff (d d2 : Decimal) : d.GreaterThan d2 = true ↔ d2.toRat < d.toRat := by
  unfold GreaterThan
  rw [Cmp_eq]
  by_cases h1 : d.toRat < d2.toRat
  · simp [h1, not_lt.mpr (le_of_lt h1)]
  · by_cases h2 : d.toRat = d2.toRat
    · simp [h1, h2]
    · have : d2.toRat < d.toRat := lt_of_le_of_ne (not_lt.mp h1) (Ne.symm h2)
      simp [h1, h2, this]

theorem LessThan_iff (d d2 : Decimal) : d.LessThan d2 = true ↔ d.toRat < d2.toRat := by
  unfold LessThan
  rw [Cmp_eq]
  by_cases h1 : d.toRat < d2.toRat
  · simp [h1]
  · by_cases h2 : d.toRat = d2.toRat <;> simp [h1, h2]

theorem IsZero_iff (d : Decimal) : d.IsZero = true ↔ d.toRat = 0 := by
  have hpos : (10 : ℚ) ^ d.exp ≠ 0 := zpow_ne_zero _ ten_ne_zero_rat
  simp [IsZero, Sign, toRat, Int.sign_eq_zero_iff_zero, hpos]

end Decimal

end decimal

/-! ## Money: construction, arithmetic and comparison -/

namespace models

open decimal

/-- The allow-list of `validateCurrency` holds exactly the ten codes. -/
theorem validCurrencies_lookup (s : String) :
    (validCurrencies.lookup s).getD false = true ↔
      s ∈ ["AUD", "USD", "GBP", "EUR", "CAD", "JPY", "CHF", "CNY", "SEK", "NZD"] := by
  simp only [validCurrencies, List.lookup, List.mem_cons, List.mem_singleton]
  by_cases h1 : s = "AUD"
  · subst h1; decide
  by_cases h2 : s = "USD"
  · subst h2; decide
  by_cases h3 : s = "GBP"
  · subst h3; decide
  by_cases h4 : s = "EUR"
  · subst h4; decide
  by_cases h5 : s = "CAD"
  · subst h5; decide
  by_cases h6 : s = "JPY"
  · subst h6; decide
  by_cases h7 : s = "CHF"
  · subst h7; decide
  by_cases h8 : s = "CNY"
  · subst h8; decide
  by_cases h9 : s = "SEK"
  · subst h9; decide
  by_cases h10 : s = "NZD"
  · subst h10; decide
  have e1 : (s == "AUD") = false := by simpa using h1
  have e2 : (s == "USD") = false := by simpa using h2
  have e3 : (s == "GBP") = false := by simpa using h3
  have e4 : (s == "EUR") = false := by simpa using h4
  have e5 : (s == "CAD") = false := by simpa using h5
  have e6 : (s == "JPY") = false := by simpa using h6
  have e7 : (s == "CHF") = false := by simpa using h7
  have e8 : (s == "CNY") = false := by simpa using h8
  have e9 : (s == "SEK") = false := by simpa using h9
  have e10 : (s == "NZD") = false := by simpa using h10
  simp [e1, e2, e3, e4, e5, e6, e7, e8, e9, e10, h1, h2, h3, h4, h5, h6, h7, h8, h9, h10]

/-- The check `validateCurrency` passes exactly on the codes whose upper case
is allow-listed. -/
theorem validateCurrency_eq_none_iff (c : String) :
    validateCurrency c = none ↔
      strings.ToUpper c ∈ ["AUD", "USD", "GBP", "EUR", "CAD", "JPY", "CHF", "CNY", "SEK", "NZD"] := by
  rw [← validCurrencies_lookup]
  unfold validateCurrency
  cases h : (validCurrencies.lookup (strings.ToUpper c)).getD false <;> simp [h]

/-- On a currency whose upper case is allow-listed `NewMoney` returns the
amount with the upper-cased currency. -/
theorem NewMoney_of_allowListed (amount : Decimal) (c : String)
    (h : strings.ToUpper c ∈
      ["AUD", "USD", "GBP", "EUR", "CAD", "JPY", "CHF", "CNY", "SEK", "NZD"]) :
    NewMoney amount c = .ok ⟨amount, strings.ToUpper c⟩ := by
  unfold NewMoney
  rw [(validateCurrency_eq_none_iff c).mpr h]

/-- C1. `Money.Add` fails exactly when the two currencies differ; otherwise it
returns a Money with the currency of the receiver whose amount denotes the
exact sum of the two amounts. -/
theorem Money_Add_contract (a b : Money) :
    ((∃ e, a.Add b = .error e) ↔ a.Currency ≠ b.Currency) ∧
    (a.Currency = b.Currency →
      ∃ r, a.Add b = .ok r ∧ r.Currency = a.Currency ∧
        r.Amount.toRat = a.Amount.toRat + b.Amount.toRat) := by
  by_cases h : a.Currency = b.Currency
  · simp [Money.Add, h, Decimal.Add_toRat]
  · simp [Money.Add, h]

/-- Witness of C1: 100.50 AUD + 50.25 AUD is 150.75 AUD, and adding
100.00 USD to 100.50 AUD is an error. -/
theorem Money_Add_contract_witness :
    (∃ r, Money.Add ⟨⟨1005, -1⟩, "AUD"⟩ ⟨⟨5025, -2⟩, "AUD"⟩ = .ok r ∧ r.Currency = "AUD" ∧
      r.Amount.toRat = (Decimal.mk 1005 (-1)).toRat + (Decimal.mk 5025 (-2)).toRat) ∧
    Money.Add ⟨⟨1005, -1⟩, "AUD"⟩ ⟨⟨5025, -2⟩, "AUD"⟩ = .ok ⟨⟨15075, -2⟩, "AUD"⟩ ∧
    (∃ e, Money.Add ⟨⟨1005, -1⟩, "AUD"⟩ ⟨⟨100, 0⟩, "USD"⟩ = .error e) :=
  ⟨(Money_Add_contract ⟨⟨1005, -1⟩, "AUD"⟩ ⟨⟨5025, -2⟩, "AUD"⟩).2 rfl, by decide,
   (Money_Add_contract ⟨⟨1005, -1⟩, "AUD"⟩ ⟨⟨100, 0⟩, "USD"⟩).1.2 (by decide)⟩

/-- C2. `NewMoney` fails exactly when the upper-cased currency is not one of
the ten allow-listed codes; otherwise it returns the Money holding the given
amount and the upper-cased currency. -/
theorem NewMoney_contract (amount : Decimal) (c : String) :
    ((∃ e, NewMoney amount c = .error e) ↔
      strings.ToUpper c ∉ ["AUD", "USD", "GBP", "EUR", "CAD", "JPY", "CHF", "CNY", "SEK", "NZD"]) ∧
    (strings.ToUpper c ∈ ["AUD", "USD", "GBP", "EUR", "CAD", "JPY", "CHF", "CNY", "SEK", "NZD"] →
      NewMoney amount c = .ok ⟨amount, strings.ToUpper c⟩) := by
  rw [← validateCurrency_eq_none_iff]
  unfold NewMoney
  cases h : validateCurrency c <;> simp

/-- Witness of C2: "aud" gives the currency "AUD", and "XXX" is rejected. -/
theorem NewMoney_contract_witness :
    NewMoney ⟨100, 0⟩ "aud" = .ok ⟨⟨100, 0⟩, "AUD"⟩ ∧
    (∃ e, NewMoney ⟨100, 0⟩ "XXX" = .error e) :=
  ⟨(NewMoney_contract ⟨100, 0⟩ "aud").2 (by decide),
   (NewMoney_contract ⟨100, 0⟩ "XXX").1.2 (by decide)⟩

/-- Counterexample to C8 as stated: the divisor 1e-2000000000 is not zero,
and `Divide` of 1e2000000000 AUD by it returns neither an error nor a Money:
the exponent 2000000000 + 2000000000 + 16 of the scaled dividend is outside
`int32` and the decimal library panics. -/
theorem Money_Divide_panics :
    Decimal.IsZero ⟨1, -2000000000⟩ = false ∧
    Money.Divide ⟨⟨1, 2000000000⟩, "AUD"⟩ ⟨1, -2000000000⟩ = none ∧
    (¬∃ e, Money.Divide ⟨⟨1, 2000000000⟩, "AUD"⟩ ⟨1, -2000000000⟩ = some (.error e)) ∧
    (¬∃ r, Money.Divide ⟨⟨1, 2000000000⟩, "AUD"⟩ ⟨1, -2000000000⟩ = some (.ok r)) := by
  have h : Money.Divide ⟨⟨1, 2000000000⟩, "AUD"⟩ ⟨1, -2000000000⟩ = none := by decide
  refine ⟨by decide, h, ?_, ?_⟩
  · rintro ⟨e, he⟩
    rw [h] at he
    cases he
  · rintro ⟨r, hr⟩
    rw [h] at hr
    cases hr

/-- C8 as amended. `Money.Divide` returns an error exactly when the divisor is
zero; for a non-zero divisor it returns a Money with the currency of the
receiver when the exponent `m.Amount.exp - divisor.exp + 16` is in the range
of `int32`, and panics (in the decimal library) when it is not. -/
theorem Money_Divide_contract (m : Money) (divisor : Decimal) :
    ((∃ e, m.Divide divisor = some (.error e)) ↔ divisor.toRat = 0) ∧
    (divisor.toRat ≠ 0 →
      (-2147483648 ≤ m.Amount.exp - divisor.exp + 16 ∧
          m.Amount.exp - divisor.exp + 16 ≤ 2147483647 →
        ∃ r, m.Divide divisor = some (.ok r) ∧ r.Currency = m.Currency) ∧
      (¬(-2147483648 ≤ m.Amount.exp - divisor.exp + 16 ∧
          m.Amount.exp - divisor.exp + 16 ≤ 2147483647) →
        m.Divide divisor = none)) := by
  rw [ne_eq, ← Decimal.IsZero_iff]
  unfold Money.Divide
  cases h : divisor.IsZero with
  | true => simp
  | false =>
    have hz : Int.sign divisor.value ≠ 0 := by
      intro hs
      simp [Decimal.IsZero, Decimal.Sign, hs] at h
    have hiff := Decimal.Div_isSome_iff m.Amount divisor hz
    refine ⟨by cases hd : m.Amount.Div divisor <;> simp, fun _ => ⟨fun hr => ?_, fun hr => ?_⟩⟩
    · obtain ⟨q, hq⟩ := Option.isSome_iff_exists.mp (hiff.mpr hr)
      exact ⟨⟨q, m.Currency⟩, by simp [hq], rfl⟩
    · cases hd : m.Amount.Div divisor with
      | none => simp
      | some q =>
        exfalso
        apply hr
        apply hiff.mp
        rw [hd]
        rfl

/-- Witness of C8 as amended: 100.00 AUD / 2.0 is a Money in AUD equal to
50.00, and dividing by the decimal zero is an error. -/
theorem Money_Divide_contract_witness :
    (∃ r, Money.Divide ⟨⟨100, 0⟩, "AUD"⟩ ⟨2, 0⟩ = some (.ok r) ∧ r.Currency = "AUD") ∧
    (∃ r, Money.Divide ⟨⟨100, 0⟩, "AUD"⟩ ⟨2, 0⟩ = some (.ok r) ∧
      r.Equal ⟨⟨50, 0⟩, "AUD"⟩ = true) ∧
    (∃ e, Money.Divide ⟨⟨100, 0⟩, "AUD"⟩ ⟨0, 0⟩ = some (.error e)) :=
  ⟨((Money_Divide_contract ⟨⟨100, 0⟩, "AUD"⟩ ⟨2, 0⟩).2 (by norm_num [Decimal.toRat])).1
      (by decide),
   ⟨_, rfl, by decide⟩,
   (Money_Divide_contract ⟨⟨100, 0⟩, "AUD"⟩ ⟨0, 0⟩).1.2 (by norm_num [Decimal.toRat])⟩

/-- C9. `Money.Subtract` fails exactly when the two currencies differ;
otherwise it returns a Money with the currency of the receiver whose amount
denotes the exact difference of the two amounts. -/
theorem Money_Subtract_contract (a b : Money) :
    ((∃ e, a.Subtract b = .error e) ↔ a.Currency ≠ b.Currency) ∧
    (a.Currency = b.Currency →
      ∃ r, a.Subtract b = .ok r ∧ r.Currency = a.Currency ∧
        r.Amount.toRat = a.Amount.toRat - b.Amount.toRat) := by
  by_cases h : a.Currency = b.Currency
  · simp [Money.Subtract, h, Decimal.Sub_toRat]
  · simp [Money.Subtract, h]

/-- Witness of C9: 100.50 AUD - 50.25 AUD is 50.25 AUD. -/
theorem Money_Subtract_contract_witness :
    (∃ r, Money.Subtract ⟨⟨1005, -1⟩, "AUD"⟩ ⟨⟨5025, -2⟩, "AUD"⟩ = .ok r ∧ r.Currency = "AUD" ∧
      r.Amount.toRat = (Decimal.mk 1005 (-1)).toRat - (Decimal.mk 5025 (-2)).toRat) ∧
    Money.Subtract ⟨⟨1005, -1⟩, "AUD"⟩ ⟨⟨5025, -2⟩, "AUD"⟩ = .ok ⟨⟨5025, -2⟩, "AUD"⟩ :=
  ⟨(Money_Subtract_contract ⟨⟨1005, -1⟩, "AUD"⟩ ⟨⟨5025, -2⟩, "AUD"⟩).2 rfl, by decide⟩

/-- C10. `Money.GreaterThan` and `Money.LessThan` fail exactly when the two
currencies differ; otherwise they return the strict comparison of the numbers
the two amounts denote, so both are false on equal amounts. -/
theorem Money_comparison_contract (a b : Money) :
    ((∃ e, a.GreaterThan b = .error e) ↔ a.Currency ≠ b.Currency) ∧
    ((∃ e, a.LessThan b = .error e) ↔ a.Currency ≠ b.Currency) ∧
    (a.Currency = b.Currency →
      (∃ g, a.GreaterThan b = .ok g ∧ (g = true ↔ b.Amount.toRat < a.Amount.toRat)) ∧
      (∃ l, a.LessThan b = .ok l ∧ (l = true ↔ a.Amount.toRat < b.Amount.toRat)) ∧
      (a.Amount.toRat = b.Amount.toRat →
        a.GreaterThan b = .ok false ∧ a.LessThan b = .ok false)) := by
  by_cases h : a.Currency = b.Currency
  · simp only [Money.GreaterThan, Money.LessThan, h, ne_eq, not_true_eq_false, if_false,
      exists_false, forall_true_left, Except.ok.injEq, exists_eq_left', true_and,
      Decimal.GreaterThan_iff, Decimal.LessThan_iff, Bool.eq_false_iff]
    refine ⟨by simp, by simp, ?_⟩
    intro heq
    rw [heq]
    exact ⟨lt_irrefl _, lt_irrefl _⟩
  · simp [Money.GreaterThan, Money.LessThan, h]

/-- Witness of C10: 150.00 AUD is greater than 100.00 AUD, 100.00 AUD is less
than 150.00 AUD, and 100.00 AUD is neither greater nor less than itself. -/
theorem Money_comparison_contract_witness :
    Money.GreaterThan ⟨⟨150, 0⟩, "AUD"⟩ ⟨⟨100, 0⟩, "AUD"⟩ = .ok true ∧
    Money.LessThan ⟨⟨100, 0⟩, "AUD"⟩ ⟨⟨150, 0⟩, "AUD"⟩ = .ok true ∧
    (Money.GreaterThan ⟨⟨100, 0⟩, "AUD"⟩ ⟨⟨100, 0⟩, "AUD"⟩ = .ok false ∧
      Money.LessThan ⟨⟨100, 0⟩, "AUD"⟩ ⟨⟨100, 0⟩, "AUD"⟩ = .ok false) :=
  ⟨by decide, by decide,
   ((Money_comparison_contract ⟨⟨100, 0⟩, "AUD"⟩ ⟨⟨100, 0⟩, "AUD"⟩).2.2 rfl).2.2 rfl⟩

end models

/-! ## The transaction-history query: filtering -/

namespace mock

open models domains

/-- One step of the filtering loop appends the entry when the specification
keeps it and leaves the slice as it is otherwise. -/
theorem filterStep_toList (accountID : String) (opts : HistoryOptions)
    (acc : Slice Transaction) (tx : Transaction) :
    (filterStep accountID opts acc tx).toList =
      acc.toList ++ (if specKeep accountID opts.FromDate opts.ToDate tx then [tx] else []) := by
  unfold filterStep specKeep
  by_cases ha : tx.AccountID = accountID
  · cases hf : opts.FromDate <;> cases ht : opts.ToDate <;>
      simp only [ha, Option.any, time.Time.Before, time.Time.After, Slice.append, Slice.toList,
        if_true, decide_True, Bool.true_and, Bool.and_true, Bool.false_eq_true, if_false,
        Option.getD_some, decide_eq_true_eq, Bool.and_eq_true, ge_iff_le, gt_iff_lt] <;>
      (try split_ifs) <;>
      first
      | rfl
      | (exfalso; dsimp only [time.Time] at *; omega)
      | simp
  · simp [ha]

/-- The filtering loop, started from any slice, appends the kept entries in
the order of the enumeration. -/
theorem filter_foldl_toList (accountID : String) (opts : HistoryOptions) :
    ∀ (entries : List (String × Transaction)) (acc : Slice Transaction),
      (entries.foldl (fun acc kv => filterStep accountID opts acc kv.2) acc).toList =
        acc.toList ++
          (entries.map Prod.snd).filter (specKeep accountID opts.FromDate opts.ToDate) := by
  intro entries
  induction entries with
  | nil => intro acc; simp
  | cons kv rest ih =>
    intro acc
    rw [List.foldl_cons, ih, filterStep_toList]
    by_cases h : specKeep accountID opts.FromDate opts.ToDate kv.2 <;>
      simp [h, List.filter_cons]

/-- The slice collected by the filtering loop holds exactly the entries the
specification keeps, in the order of the enumeration. -/
theorem filterTransactions_toList (entries : List (String × Transaction)) (accountID : String)
    (opts : HistoryOptions) :
    (filterTransactions entries accountID opts).toList =
      (entries.map Prod.snd).filter (specKeep accountID opts.FromDate opts.ToDate) := by
  unfold filterTransactions
  rw [filter_foldl_toList]
  simp [Slice.toList]

/-! ## The transaction-history query: the exchange sort -/

theorem swapIfBefore_length (l : List Transaction) (i j : Nat) :
    (swapIfBefore l i j).length = l.length := by
  unfold swapIfBefore
  split
  · split <;> simp
  · rfl

/-- An exchange keeps the elements of the slice. -/
theorem swapIfBefore_perm (l : List Transaction) (i j : Nat) :
    (swapIfBefore l i j).Perm l := by
  unfold swapIfBefore
  split
  · rename_i a b ha hb
    split
    · rename_i hlt
      obtain ⟨hi, hai⟩ := List.getElem?_eq_some.mp ha
      obtain ⟨hj, hbj⟩ := List.getElem?_eq_some.mp hb
      have hne : i ≠ j := by
        rintro rfl
        rw [ha] at hb
        cases hb
        simp [time.Time.Before] at hlt
      rw [List.perm_iff_count]
      intro x
      have hj2 : j < (l.set i b).length := by simpa using hj
      rw [List.count_set a x (l.set i b) j hj2, List.count_set b x l i hi,
        List.getElem_set_ne hne, hai, hbj]
      have hca : (if (a == x) = true then 1 else 0) ≤ l.count x := by
        by_cases hax : a = x
        · subst hax
          have hmem : a ∈ l := hai ▸ List.getElem_mem hi
          have := List.count_pos_iff.mpr hmem
          simp only [beq_self_eq_true, if_true]
          omega
        · simp [hax]
      omega
    · exact List.Perm.refl _
  · exact List.Perm.refl _

/-- Posting dates after one step of the inner loop. -/
theorem dateAt_swapIfBefore (l : List Transaction) (i j k : Nat) (hij : i < j)
    (hj : j < l.length) :
    dateAt (swapIfBefore l i j) k =
      if dateAt l i < dateAt l j then
        (if k = j then dateAt l i else if k = i then dateAt l j else dateAt l k)
      else dateAt l k := by
  have hi : i < l.length := lt_trans hij hj
  have hne : i ≠ j := ne_of_lt hij
  unfold swapIfBefore dateAt
  simp only [List.getElem?_eq_getElem hi, List.getElem?_eq_getElem hj, time.Time.Before,
    decide_eq_true_eq]
  by_cases hlt : (l[i]).PostingDate < (l[j]).PostingDate
  · simp only [hlt, if_true, List.getElem?_set, List.length_set]
    by_cases hkj : k = j
    · subst hkj
      simp [hj]
    · by_cases hki : k = i
      · subst hki
        simp [hne, hi, Ne.symm hkj]
      · simp [hkj, hki, Ne.symm hkj, Ne.symm hki]
  · simp only [hlt, if_false]

/-- A loop whose every step permutes the slice permutes it as a whole. -/
theorem foldl_perm_of_step (f : List Transaction → Nat → List Transaction)
    (hf : ∀ l k, (f l k).Perm l) :
    ∀ (ks : List Nat) (l : List Transaction), (ks.foldl f l).Perm l := by
  intro ks
  induction ks with
  | nil => intro l; exact List.Perm.refl _
  | cons k rest ih => intro l; exact (ih (f l k)).trans (hf l k)

theorem sortInner_perm (l : List Transaction) (i : Nat) : (sortInner l i).Perm l :=
  foldl_perm_of_step (fun acc j => swapIfBefore acc i j) (fun l k => swapIfBefore_perm l i k) _ l

/-- The sort returns a permutation of the slice it is given. -/
theorem sortByPostingDate_perm (l : List Transaction) : (sortByPostingDate l).Perm l :=
  foldl_perm_of_step (fun acc i => sortInner acc i) sortInner_perm _ l

/-- Invariant of the inner loop. Before the iteration at `j`, with `m`
iterations left: every position before `i` dominates all later positions, and
position `i` dominates the positions between `i` and `j`. At the end position
`i` dominates every later position. -/
theorem sortInner_loop_inv (i : Nat) :
    ∀ (m j : Nat) (l : List Transaction), i < j → j + m = l.length →
      (∀ p q, p < i → p < q → q < l.length → dateAt l q ≤ dateAt l p) →
      (∀ k, i < k → k < j → dateAt l k ≤ dateAt l i) →
      ((List.range' j m).foldl (fun acc j => swapIfBefore acc i j) l).length = l.length ∧
      (∀ p q, p < i → p < q → q < l.length →
        dateAt ((List.range' j m).foldl (fun acc j => swapIfBefore acc i j) l) q ≤
          dateAt ((List.range' j m).foldl (fun acc j => swapIfBefore acc i j) l) p) ∧
      (∀ k, i < k → k < l.length →
        dateAt ((List.range' j m).foldl (fun acc j => swapIfBefore acc i j) l) k ≤
          dateAt ((List.range' j m).foldl (fun acc j => swapIfBefore acc i j) l) i) := by
  intro m
  induction m with
  | zero =>
    intro j l _ hjm hpre hinn
    refine ⟨rfl, hpre, ?_⟩
    intro k hk hkl
    exact hinn k hk (by omega)
  | succ m ih =>
    intro j l hij hjm hpre hinn
    have hj : j < l.length := by omega
    have hlen : (swapIfBefore l i j).length = l.length := swapIfBefore_length l i j
    have hd := fun k => dateAt_swapIfBefore l i j k hij hj
    rw [List.range'_succ, List.foldl_cons]
    have step := ih (j + 1) (swapIfBefore l i j) (by omega) (by omega)
      (by
        intro p q hp hpq hq
        rw [hlen] at hq
        rw [hd q, hd p]
        have hpj : p ≠ j := by omega
        have hpi : p ≠ i := by omega
        simp only [hpj, hpi, if_false, ite_self]
        split_ifs with h1 h2 h3
        · exact hpre p i hp (by omega) (by omega)
        · exact hpre p j hp (by omega) (by omega)
        · exact hpre p q hp hpq hq
        · exact hpre p q hp hpq hq)
      (by
        intro k hk hkj
        rw [hd k, hd i]
        have hij2 : i ≠ j := by omega
        have hki : k ≠ i := by omega
        simp only [hij2, hki, if_false, if_true]
        split_ifs with h1 h2
        · exact le_of_lt h1
        · have := hinn k hk (by omega)
          exact le_trans this (le_of_lt h1)
        · by_cases h2 : k = j
          · subst h2
            exact not_lt.mp h1
          · exact hinn k hk (by omega))
    rw [hlen] at step
    exact step

/-- After the inner loop at `i` the slice has its length, and every position
up to `i` dominates all later positions. -/
theorem sortInner_inv (l : List Transaction) (i : Nat) (hi : i + 1 ≤ l.length)
    (hpre : ∀ p q, p < i → p < q → q < l.length → dateAt l q ≤ dateAt l p) :
    (sortInner l i).length = l.length ∧
    (∀ p q, p < i + 1 → p < q → q < l.length →
      dateAt (sortInner l i) q ≤ dateAt (sortInner l i) p) := by
  obtain ⟨h1, h2, h3⟩ := sortInner_loop_inv i (l.length - (i + 1)) (i + 1) l (by omega)
    (by omega) hpre (by intro k hk hk2; omega)
  refine ⟨h1, ?_⟩
  intro p q hp hpq hq
  by_cases hpi : p < i
  · exact h2 p q hpi hpq hq
  · have : p = i := by omega
    subst this
    exact h3 q hpq hq

theorem sortInner_length (l : List Transaction) (i : Nat) :
    (sortInner l i).length = l.length :=
  (sortInner_perm l i).length_eq

/-- Invariant of the outer loop, with `m` iterations left before index
`len - 1`. -/
theorem sortOuter_loop_inv :
    ∀ (m i : Nat) (l : List Transaction), i + m = l.length - 1 →
      (∀ p q, p < i → p < q → q < l.length → dateAt l q ≤ dateAt l p) →
      (∀ p q, p < l.length - 1 → p < q → q < l.length →
        dateAt ((List.range' i m).foldl (fun acc i => sortInner acc i) l) q ≤
          dateAt ((List.range' i m).foldl (fun acc i => sortInner acc i) l) p) := by
  intro m
  induction m with
  | zero =>
    intro i l him hpre p q hp hpq hq
    exact hpre p q (by omega) hpq hq
  | succ m ih =>
    intro i l him hpre
    rw [List.range'_succ, List.foldl_cons]
    obtain ⟨hlen, hpre2⟩ := sortInner_inv l i (by omega) hpre
    have step := ih (i + 1) (sortInner l i) (by omega) (by rw [hlen]; exact hpre2)
    rw [hlen] at step
    exact step

/-- Posting date at an index within the slice. -/
theorem dateAt_eq_getElem (l : List Transaction) (k : Nat) (hk : k < l.length) :
    dateAt l k = (l[k]).PostingDate := by
  simp [dateAt, List.getElem?_eq_getElem hk]

/-- The sort leaves the slice in descending order of posting date. -/
theorem sortByPostingDate_sorted (l : List Transaction) :
    (sortByPostingDate l).Pairwise (fun a b => b.PostingDate ≤ a.PostingDate) := by
  have hlen : (sortByPostingDate l).length = l.length := (sortByPostingDate_perm l).length_eq
  have inv := sortOuter_loop_inv (l.length - 1) 0 l (by omega) (by intro p q hp; omega)
  rw [List.pairwise_iff_getElem]
  intro p q hp hq hpq
  have h := inv p q (by omega) hpq (by omega)
  unfold sortByPostingDate
  unfold sortByPostingDate at hp hq
  rw [dateAt_eq_getElem _ q hq, dateAt_eq_getElem _ p hp] at h
  exact h

/-! ## The transaction-history query: account check and pagination -/

/-- The account check fails exactly on the ids that are no key of the map. -/
theorem lookup_isNone_iff (accounts : List (String × Account)) (accountID : String) :
    (accounts.lookup accountID).isNone = true ↔ accountID ∉ accounts.map Prod.fst := by
  rw [Option.isNone_iff_eq_none, List.lookup_eq_none_iff]
  simp only [List.mem_map, not_exists, not_and, bne_iff_ne, ne_eq]
  constructor
  · intro h kv hkv heq
    exact h kv hkv heq.symm
  · intro h kv hkv heq
    exact h kv hkv heq.symm

/-- For a known account the query returns the paginated, sorted, filtered
slice. -/
theorem history_of_known (p : Provider) (accountID : String) (opts : HistoryOptions)
    (h : accountID ∈ p.accounts.map Prod.fst) :
    p.RetrievePaymentTransactionHistory accountID opts =
      .ok (paginate ((filterTransactions p.transactions accountID opts).map sortByPostingDate)
        opts) := by
  have hn : (p.accounts.lookup accountID).isNone = false := by
    rw [Bool.eq_false_iff, ne_eq, lookup_isNone_iff]
    exact not_not.mpr h
  simp [Provider.RetrievePaymentTransactionHistory, hn]

/-- For an unknown account the query returns the error. -/
theorem history_of_unknown (p : Provider) (accountID : String) (opts : HistoryOptions)
    (h : accountID ∉ p.accounts.map Prod.fst) :
    p.RetrievePaymentTransactionHistory accountID opts =
      .error ("account not found: " ++ accountID) := by
  have hn : (p.accounts.lookup accountID).isNone = true := (lookup_isNone_iff _ _).mpr h
  simp [Provider.RetrievePaymentTransactionHistory, hn]

/-- Elements of the slice after the in-place sort. -/
theorem sorted_slice_toList (s : Slice Transaction) :
    Slice.toList (s.map sortByPostingDate) = sortByPostingDate (Slice.toList s) := by
  cases s with
  | none => rfl
  | some l => rfl

/-- Pagination returns a contiguous part of the slice it is given. -/
theorem paginate_sublist (s : Slice Transaction) (opts : HistoryOptions) :
    (Slice.toList (paginate s opts)).Sublist (Slice.toList s) := by
  cases s with
  | none =>
    simp only [paginate, Slice.sliceFrom, Slice.sliceTo, Option.map_none', ite_self]
    split_ifs <;> exact List.nil_sublist _
  | some l =>
    simp only [paginate, Slice.sliceFrom, Slice.sliceTo, Option.map_some', Slice.toList,
      Option.getD_some]
    split_ifs
    · exact List.nil_sublist _
    · exact (List.take_sublist _ _).trans (List.drop_sublist _ _)
    · exact List.drop_sublist _ _
    · exact List.take_sublist _ _
    · exact List.Sublist.refl _

/-- Pagination with a non-negative offset and limit returns the window of the
slice from index `offset` to index `min (offset + limit) length`, or to the
end when the limit is 0. -/
theorem paginate_window (s : Slice Transaction) (fromDate toDate : Option time.Time)
    (limit offset : Nat) :
    (paginate s ⟨fromDate, toDate, (limit : Int), (offset : Int)⟩).toList =
      (s.toList.take
        (if limit > 0 then min (offset + limit) s.toList.length else s.toList.length)).drop
        offset := by
  cases s with
  | none =>
    simp only [paginate, Slice.toList, Slice.len, Slice.sliceFrom, Slice.sliceTo,
      Option.map_none', ite_self, Option.getD_none, List.take_nil, List.drop_nil]
    split_ifs <;> rfl
  | some l =>
    simp only [paginate, Slice.toList, Slice.len, Slice.sliceFrom, Slice.sliceTo,
      Option.getD_some, Option.map_some', Int.toNat_ofNat, Nat.cast_pos, Nat.cast_lt,
      ge_iff_le, Nat.cast_le, gt_iff_lt]
    by_cases ho : 0 < offset
    · by_cases hol : l.length ≤ offset
      · simp only [ho, hol, and_self, if_true, Option.getD_some]
        symm
        apply List.drop_eq_nil_of_le
        rw [List.length_take]
        omega
      · simp only [ho, hol, and_false, if_false, if_true, Option.getD_some, Option.map_some',
          List.length_drop]
        by_cases hl : 0 < limit
        · by_cases hll : limit < l.length - offset
          · simp only [hl, hll, and_self, if_true, Option.getD_some, List.drop_take]
            congr 1
            omega
          · simp only [hl, hll, and_false, if_false, if_true, Option.getD_some]
            rw [List.take_of_length_le (by omega)]
        · simp only [hl, false_and, if_false, Option.getD_some, List.take_length]
    · have ho0 : offset = 0 := by omega
      subst ho0
      simp only [lt_self_iff_false, false_and, if_false, List.drop_zero, Option.getD_some,
        zero_add]
      by_cases hl : 0 < limit
      · by_cases hll : limit < l.length
        · simp only [hl, hll, and_self, if_true, Option.getD_some, Option.map_some',
            min_eq_left (le_of_lt hll)]
        · simp only [hl, hll, and_false, if_false, if_true, Option.getD_some]
          rw [List.take_of_length_le (by omega)]
      · simp only [hl, false_and, if_false, Option.getD_some, List.take_length]

/-! ## The transaction-history query: the contract -/

/-- For one enumeration of the store, a known account and a non-negative
offset and limit, the result is the contiguous window of the full result (the
same query with offset 0 and limit 0) from index `offset` to index
`min (offset + limit) length` when the limit is positive, and to the end of
the list when the limit is 0. -/
theorem history_window (p : Provider) (accountID : String) (opts : HistoryOptions)
    (hacc : accountID ∈ p.accounts.map Prod.fst) (hoff : 0 ≤ opts.Offset)
    (hlim : 0 ≤ opts.Limit) :
    ∃ full r,
      p.RetrievePaymentTransactionHistory accountID { opts with Offset := 0, Limit := 0 } =
        .ok full ∧
      p.RetrievePaymentTransactionHistory accountID opts = .ok r ∧
      Slice.toList r =
        ((Slice.toList full).take
          (if opts.Limit > 0 then min (opts.Offset + opts.Limit).toNat (Slice.toList full).length
           else (Slice.toList full).length)).drop opts.Offset.toNat := by
  obtain ⟨fromDate, toDate, limit, offset⟩ := opts
  obtain ⟨lim, rfl⟩ := Int.eq_ofNat_of_zero_le hlim
  obtain ⟨off, rfl⟩ := Int.eq_ofNat_of_zero_le hoff
  refine ⟨_, _, history_of_known p accountID _ hacc, history_of_known p accountID _ hacc, ?_⟩
  have hfull : paginate
      ((filterTransactions p.transactions accountID
        ⟨fromDate, toDate, 0, 0⟩).map sortByPostingDate) ⟨fromDate, toDate, 0, 0⟩ =
      (filterTransactions p.transactions accountID
        ⟨fromDate, toDate, (lim : Int), (off : Int)⟩).map sortByPostingDate := by
    simp only [paginate, lt_self_iff_false, false_and, if_false]
    rfl
  simp only [hfull]
  rw [paginate_window]
  have e1 : ((off : Int) + (lim : Int)).toNat = off + lim := by omega
  have e2 : ((lim : Int) > 0) ↔ lim > 0 := by omega
  simp only [e1, e2, Int.toNat_ofNat]

/-- C4. For a known account and any options, the returned sequence is in
descending order of posting date: no element is posted before the element
that follows it (and, more strongly, before any later element). -/
theorem RetrieveHistory_sorted (p : Provider) (accountID : String) (opts : HistoryOptions)
    (hacc : accountID ∈ p.accounts.map Prod.fst) :
    ∃ r, p.RetrievePaymentTransactionHistory accountID opts = .ok r ∧
      (∀ (i : Nat) (h : i + 1 < (Slice.toList r).length),
        ((Slice.toList r)[i]).PostingDate.Before ((Slice.toList r)[i + 1]).PostingDate = false) ∧
      (Slice.toList r).Pairwise (fun a b => a.PostingDate ≥ b.PostingDate) := by
  refine ⟨_, history_of_known p accountID opts hacc, ?_⟩
  have hs : (Slice.toList (paginate
      ((filterTransactions p.transactions accountID opts).map sortByPostingDate) opts)).Pairwise
      (fun a b => a.PostingDate ≥ b.PostingDate) := by
    apply List.Pairwise.sublist (paginate_sublist _ opts)
    rw [sorted_slice_toList]
    exact sortByPostingDate_sorted _
  refine ⟨?_, hs⟩
  intro i h
  have := (List.pairwise_iff_getElem.mp hs) i (i + 1) (by omega) h (by omega)
  simp only [time.Time.Before, decide_eq_false_iff_not, not_lt]
  exact this

/-- Witness of C4: the sample history of acc-001, read from the map in the
reverse of the order in which it was filled, comes out newest first. -/
theorem RetrieveHistory_sorted_witness :
    ∃ r, (Provider.mk (loadSampleAccounts 1700000000000000000)
        (loadSampleTransactions 1700000000000000000).reverse).RetrievePaymentTransactionHistory
          "acc-001" ⟨none, none, 0, 0⟩ = .ok r ∧
      (∀ (i : Nat) (h : i + 1 < (Slice.toList r).length),
        ((Slice.toList r)[i]).PostingDate.Before ((Slice.toList r)[i + 1]).PostingDate = false) ∧
      (Slice.toList r).Pairwise (fun a b => a.PostingDate ≥ b.PostingDate) :=
  RetrieveHistory_sorted _ "acc-001" ⟨none, none, 0, 0⟩ (by decide)

/-- C5. For a known account and any pair of optional date bounds, the result
with offset 0 and limit 0 is a permutation of the stored transactions that
the specification keeps: those of the requested account whose posting date
is not before `FromDate` and not after `ToDate`, for the bounds that are
present. A transaction dated exactly on a bound is kept, and the permutation
loses and duplicates nothing. -/
theorem RetrieveHistory_filtering (p : Provider) (accountID : String)
    (fromDate toDate : Option time.Time) (hacc : accountID ∈ p.accounts.map Prod.fst) :
    ∃ r, p.RetrievePaymentTransactionHistory accountID ⟨fromDate, toDate, 0, 0⟩ = .ok r ∧
      (Slice.toList r).Perm
        ((p.transactions.map Prod.snd).filter (specKeep accountID fromDate toDate)) ∧
      (∀ tx, tx ∈ Slice.toList r ↔
        tx ∈ p.transactions.map Prod.snd ∧ tx.AccountID = accountID ∧
        (∀ f, fromDate = some f → tx.PostingDate ≥ f) ∧
        (∀ t, toDate = some t → tx.PostingDate ≤ t)) := by
  refine ⟨_, history_of_known p accountID _ hacc, ?_⟩
  have hp : (Slice.toList (paginate
      ((filterTransactions p.transactions accountID ⟨fromDate, toDate, 0, 0⟩).map
        sortByPostingDate) ⟨fromDate, toDate, 0, 0⟩)).Perm
      ((p.transactions.map Prod.snd).filter (specKeep accountID fromDate toDate)) := by
    have e : paginate
        ((filterTransactions p.transactions accountID ⟨fromDate, toDate, 0, 0⟩).map
          sortByPostingDate) ⟨fromDate, toDate, 0, 0⟩ =
        (filterTransactions p.transactions accountID ⟨fromDate, toDate, 0, 0⟩).map
          sortByPostingDate := by
      simp only [paginate, lt_self_iff_false, false_and, if_false]
    rw [e, sorted_slice_toList, filterTransactions_toList]
    exact sortByPostingDate_perm _
  refine ⟨hp, ?_⟩
  intro tx
  rw [hp.mem_iff, List.mem_filter]
  cases fromDate <;> cases toDate <;> simp [specKeep, and_assoc]

/-- Witness of C5: with both bounds set to the posting dates of tx-004 and
tx-002, the sample history of acc-001 is tx-002, tx-003, tx-004, the two
transactions dated on the bounds included. -/
theorem RetrieveHistory_filtering_witness :
    (∃ r, (NewProvider 1700000000000000000).RetrievePaymentTransactionHistory "acc-001"
        ⟨some (1700000000000000000 - 7 * time.day), some (1700000000000000000 - 3 * time.day),
          0, 0⟩ = .ok r ∧
      (Slice.toList r).Perm
        (((NewProvider 1700000000000000000).transactions.map Prod.snd).filter
          (specKeep "acc-001" (some (1700000000000000000 - 7 * time.day))
            (some (1700000000000000000 - 3 * time.day)))) ∧
      (∀ tx, tx ∈ Slice.toList r ↔
        tx ∈ (NewProvider 1700000000000000000).transactions.map Prod.snd ∧
        tx.AccountID = "acc-001" ∧
        (∀ f, some (1700000000000000000 - 7 * time.day) = some f → tx.PostingDate ≥ f) ∧
        (∀ t, some (1700000000000000000 - 3 * time.day) = some t → tx.PostingDate ≤ t))) ∧
    (((NewProvider 1700000000000000000).RetrievePaymentTransactionHistory "acc-001"
        ⟨some (1700000000000000000 - 7 * time.day), some (1700000000000000000 - 3 * time.day),
          0, 0⟩).toOption.map (fun r => (Slice.toList r).map (fun tx => tx.ID))) =
      some ["tx-002", "tx-003", "tx-004"] :=
  ⟨RetrieveHistory_filtering (NewProvider 1700000000000000000) "acc-001" _ _ (by decide),
   by decide⟩

/-- C6. The query returns an error exactly when the account id is not a key
of the account map, and an error result carries no transactions; for a known
account it returns a slice, whatever the options. -/
theorem RetrieveHistory_account_check (p : Provider) (accountID : String)
    (opts : HistoryOptions) :
    ((∃ e, p.RetrievePaymentTransactionHistory accountID opts = .error e) ↔
      accountID ∉ p.accounts.map Prod.fst) ∧
    (accountID ∉ p.accounts.map Prod.fst →
      ∀ r, p.RetrievePaymentTransactionHistory accountID opts ≠ .ok r) ∧
    (accountID ∈ p.accounts.map Prod.fst →
      ∃ r, p.RetrievePaymentTransactionHistory accountID opts = .ok r) := by
  by_cases h : accountID ∈ p.accounts.map Prod.fst
  · rw [history_of_known p accountID opts h]
    simp [h]
  · rw [history_of_unknown p accountID opts h]
    simp [h]

/-- Witness of C6: on the sample data "unknown-account" fails, and acc-001
does not. -/
theorem RetrieveHistory_account_check_witness :
    (∃ e, (NewProvider 1700000000000000000).RetrievePaymentTransactionHistory "unknown-account"
        ⟨none, none, 0, 0⟩ = .error e) ∧
    (∃ r, (NewProvider 1700000000000000000).RetrievePaymentTransactionHistory "acc-001"
        ⟨none, none, 0, 0⟩ = .ok r) :=
  ⟨(RetrieveHistory_account_check (NewProvider 1700000000000000000) "unknown-account"
      ⟨none, none, 0, 0⟩).1.2 (by decide),
   (RetrieveHistory_account_check (NewProvider 1700000000000000000) "acc-001"
      ⟨none, none, 0, 0⟩).2.2 (by decide)⟩

end mock

/-! ## Reading back the decimal text of an integer -/

namespace strconv

theorem digitVal_digitChar (d : Nat) (h : d < 10) : digitVal (digitChar d) = some d := by
  interval_cases d <;> rfl

theorem digitChar_mod (n : Nat) : digitChar (n % 10) = digitChar n := by
  simp [digitChar]

/-- Reading a text of digits onto an accumulator shifts the accumulator by
the length of the text and adds the value of the text, which is below the
power of ten of its length. -/
theorem parseDigits_of_isDigits (s : List Char) (hs : IsDigits s) :
    ∃ v, v < 10 ^ s.length ∧ ∀ acc, parseDigits s acc = some (acc * 10 ^ s.length + v) := by
  induction s with
  | nil => exact ⟨0, by simp, by intro acc; simp [parseDigits]⟩
  | cons c s ih =>
    obtain ⟨d, hd, rfl⟩ := hs c (List.mem_cons_self _ _)
    obtain ⟨v, hv, hp⟩ := ih (fun x hx => hs x (List.mem_cons_of_mem _ hx))
    refine ⟨d * 10 ^ s.length + v, ?_, ?_⟩
    · rw [List.length_cons, pow_succ]
      have : d * 10 ^ s.length ≤ 9 * 10 ^ s.length := Nat.mul_le_mul_right _ (by omega)
      omega
    · intro acc
      simp only [parseDigits, digitVal_digitChar d hd, hp, List.length_cons, pow_succ]
      congr 1
      ring

theorem isDigits_append (s t : List Char) (hs : IsDigits s) (ht : IsDigits t) :
    IsDigits (s ++ t) := by
  intro c hc
  rcases List.mem_append.mp hc with h | h
  · exact hs c h
  · exact ht c h

theorem isDigits_replicate_zero (k : Nat) : IsDigits (List.replicate k '0') := by
  intro c hc
  rw [List.eq_of_mem_replicate hc]
  exact ⟨0, by omega, rfl⟩

/-- Value of a text of digits followed by another one. -/
theorem parseDigits_append (s t : List Char) (a b : Nat) (hs : IsDigits s) (ht : IsDigits t)
    (ha : parseDigits s 0 = some a) (hb : parseDigits t 0 = some b) :
    parseDigits (s ++ t) 0 = some (a * 10 ^ t.length + b) := by
  obtain ⟨v, _, hv⟩ := parseDigits_of_isDigits s hs
  obtain ⟨w, _, hw⟩ := parseDigits_of_isDigits t ht
  obtain ⟨u, _, hu⟩ := parseDigits_of_isDigits (s ++ t) (isDigits_append s t hs ht)
  have e1 : a = v := by
    have := hv 0
    rw [ha] at this
    simpa using this
  have e2 : b = w := by
    have := hw 0
    rw [hb] at this
    simpa using this
  subst e1 e2
  have key : ∀ (s : List Char) (acc : Nat), IsDigits s →
      parseDigits (s ++ t) acc = (parseDigits s acc).bind (fun x => parseDigits t x) := by
    intro s
    induction s with
    | nil => intro acc _; simp [parseDigits]
    | cons c s ih =>
      intro acc hcs
      obtain ⟨d, hd, rfl⟩ := hcs c (List.mem_cons_self _ _)
      simp only [List.cons_append, parseDigits, digitVal_digitChar d hd]
      exact ih _ (fun x hx => hcs x (List.mem_cons_of_mem _ hx))
  rw [key s 0 hs, ha]
  simp [hw]

theorem parseDigits_replicate_zero (k : Nat) : parseDigits (List.replicate k '0') 0 = some 0 := by
  induction k with
  | zero => rfl
  | succ k ih =>
    rw [List.replicate_succ]
    simpa [parseDigits, digitVal] using ih

/-- The digits written for `n`, whatever fuel above `n` is given. -/
theorem natStringAux_spec : ∀ (fuel n : Nat), n < fuel →
    IsDigits (natStringAux fuel n) ∧ natStringAux fuel n ≠ [] ∧
      parseDigits (natStringAux fuel n) 0 = some n := by
  intro fuel
  induction fuel with
  | zero => intro n h; omega
  | succ fuel ih =>
    intro n hn
    unfold natStringAux
    by_cases h10 : n < 10
    · simp only [h10, if_true]
      refine ⟨?_, by simp, ?_⟩
      · intro c hc
        rw [List.mem_singleton] at hc
        exact ⟨n, h10, hc⟩
      · simp [parseDigits, digitVal_digitChar n h10]
    · simp only [h10, if_false]
      obtain ⟨h1, h2, h3⟩ := ih (n / 10) (by omega)
      have hlast : IsDigits [digitChar n] := by
        intro c hc
        rw [List.mem_singleton] at hc
        exact ⟨n % 10, Nat.mod_lt _ (by omega), by rw [hc, digitChar_mod]⟩
      refine ⟨isDigits_append _ _ h1 hlast, by simp, ?_⟩
      have hv : parseDigits [digitChar n] 0 = some (n % 10) := by
        rw [← digitChar_mod]
        simp [parseDigits, digitVal_digitChar (n % 10) (Nat.mod_lt _ (by omega))]
      rw [parseDigits_append _ _ _ _ h1 hlast h3 hv]
      simp only [List.length_singleton, pow_one, Option.some.injEq]
      omega

theorem natString_spec (n : Nat) :
    IsDigits (natString n) ∧ natString n ≠ [] ∧ parseDigits (natString n) 0 = some n :=
  natStringAux_spec (n + 1) n (by omega)

end strconv

/-! ## `NewFromString` on the text of a plain decimal -/

namespace decimal

namespace Decimal

open strconv

theorem span_of_all {α : Type} (p : α → Bool) (l : List α) (h : ∀ x ∈ l, p x = true) :
    l.span p = (l, []) := by
  rw [List.span_eq_take_drop, List.takeWhile_eq_self_iff.mpr h, List.dropWhile_eq_nil_iff.mpr h]

theorem span_of_stop {α : Type} (p : α → Bool) (l r : List α) (y : α)
    (h : ∀ x ∈ l, p x = true) (hy : p y = false) :
    (l ++ y :: r).span p = (l, y :: r) := by
  rw [List.span_eq_take_drop, List.takeWhile_append_of_pos h, List.dropWhile_append_of_pos h]
  simp [List.takeWhile_cons, List.dropWhile_cons, hy]

/-- A digit is none of the characters that structure a decimal literal. -/
theorem digitChar_plain (d : Nat) (h : d < 10) :
    digitChar d ≠ 'E' ∧ digitChar d ≠ 'e' ∧ digitChar d ≠ '.' ∧ digitChar d ≠ '-' ∧
      digitChar d ≠ '+' := by
  interval_cases d <;> decide

/-- Sign written in front of a negative number. -/
theorem parseSigned_text (neg : Bool) (ds : List Char) (v : Nat) (hds : IsDigits ds)
    (hne : ds ≠ []) (hv : parseDigits ds 0 = some v) :
    parseSigned ((if neg then ['-'] else []) ++ ds) =
      some (if neg then -(v : Int) else (v : Int)) := by
  cases neg with
  | true => simp [parseSigned, parseUnsigned, hne, hv]
  | false =>
    cases ds with
    | nil => exact absurd rfl hne
    | cons c cs =>
      obtain ⟨d, hd, rfl⟩ := hds c (List.mem_cons_self _ _)
      obtain ⟨-, -, -, h4, h5⟩ := digitChar_plain d hd
      have h : parseSigned (digitChar d :: cs) =
          (parseUnsigned (digitChar d :: cs)).map (fun n => (n : Int)) := by
        unfold parseSigned
        split
        · rename_i heq
          exact absurd (List.cons.inj heq).1 h5
        · rename_i heq
          exact absurd (List.cons.inj heq).1 h4
        · rfl
      simp only [Bool.false_eq_true, if_false, List.nil_append]
      rw [h]
      simp [parseUnsigned, hv]

/-- On the text of a plain decimal (an optional minus sign, a non-empty
integer part, and a fractional part after a point when there is one)
`NewFromString` returns the signed digits at the exponent that counts the
fractional digits. -/
theorem NewFromString_plain (neg : Bool) (ip fp : List Char) (v : Nat)
    (hip : IsDigits ip) (hne : ip ≠ []) (hfp : IsDigits fp)
    (hlen : (fp.length : Int) ≤ 2147483648)
    (hv : parseDigits (ip ++ fp) 0 = some v) :
    NewFromString (String.mk ((if neg then ['-'] else []) ++ ip ++
        (if fp.length > 0 then '.' :: fp else []))) =
      .ok ⟨if neg then -(v : Int) else (v : Int), -(fp.length : Int)⟩ := by
  have hsign : ∀ c ∈ (if neg then ['-'] else []), c = '-' := by
    intro c hc
    cases neg <;> simp at hc
    exact hc
  have hdig : ∀ c, (∃ d, d < 10 ∧ c = digitChar d) →
      c ≠ 'E' ∧ c ≠ 'e' ∧ c ≠ '.' ∧ c ≠ '-' ∧ c ≠ '+' := by
    rintro c ⟨d, hd, rfl⟩
    exact digitChar_plain d hd
  -- no exponent marker in the text
  have hE : ∀ c ∈ ((if neg then ['-'] else []) ++ ip ++ (if fp.length > 0 then '.' :: fp else [])),
      (fun c => !(c == 'E' || c == 'e')) c = true := by
    intro c hc
    simp only [List.mem_append] at hc
    rcases hc with (hc | hc) | hc
    · rw [hsign c hc]; decide
    · obtain ⟨h1, h2, -⟩ := hdig c (hip c hc)
      simp [h1, h2]
    · split_ifs at hc
      · rcases List.mem_cons.mp hc with hc | hc
        · rw [hc]; decide
        · obtain ⟨h1, h2, -⟩ := hdig c (hfp c hc)
          simp [h1, h2]
      · simp at hc
  -- the text splits at its only point
  have hpre : ∀ c ∈ ((if neg then ['-'] else []) ++ ip), (fun c => !(c == '.')) c = true := by
    intro c hc
    rcases List.mem_append.mp hc with hc | hc
    · rw [hsign c hc]; decide
    · obtain ⟨-, -, h3, -⟩ := hdig c (hip c hc)
      simp [h3]
  have hfpdot : ∀ c ∈ fp, (fun c => !(c == '.')) c = true := by
    intro c hc
    obtain ⟨-, -, h3, -⟩ := hdig c (hfp c hc)
    simp [h3]
  have hcount0 : ∀ l : List Char, (∀ c ∈ l, (fun c => !(c == '.')) c = true) →
      l.count '.' = 0 := by
    intro l hl
    rw [List.count_eq_zero]
    intro hmem
    have := hl '.' hmem
    simp at this
  have hsplit : (((if neg then ['-'] else []) ++ ip ++
      (if fp.length > 0 then '.' :: fp else [])).span (fun c => !(c == '.'))) =
      ((if neg then ['-'] else []) ++ ip, if fp.length > 0 then '.' :: fp else []) := by
    by_cases hpos : fp.length > 0
    · rw [if_pos hpos]
      exact span_of_stop _ _ _ _ hpre (by decide)
    · rw [if_neg hpos, List.append_nil]
      exact span_of_all _ _ hpre
  have hcount : ((if neg then ['-'] else []) ++ ip ++
      (if fp.length > 0 then '.' :: fp else [])).count '.' ≤ 1 := by
    rw [List.count_append, hcount0 _ hpre]
    by_cases hpos : fp.length > 0
    · rw [if_pos hpos, List.count_cons_self, hcount0 _ hfpdot]
    · rw [if_neg hpos]
      simp
  have hdrop : (if fp.length > 0 then '.' :: fp else []).drop 1 = fp := by
    by_cases hpos : fp.length > 0
    · rw [if_pos hpos]
      rfl
    · have : fp = [] := List.length_eq_zero.mp (by omega)
      simp [this]
  obtain ⟨w, hw, hpw⟩ := parseDigits_of_isDigits (ip ++ fp) (isDigits_append _ _ hip hfp)
  have hvw : v = w := by
    have := hpw 0
    rw [hv] at this
    simpa using this
  have hparse : parseSigned ((if neg then ['-'] else []) ++ ip ++ fp) =
      some (if neg then -(v : Int) else (v : Int)) := by
    rw [List.append_assoc]
    exact parseSigned_text neg (ip ++ fp) v (isDigits_append _ _ hip hfp) (by simp [hne]) hv
  have hdv : (if ((if neg then ['-'] else []) ++ ip ++ fp).length ≤ 18 then
        (match ParseInt ((if neg then ['-'] else []) ++ ip ++ fp) 64 with
          | .ok x => some x
          | .error _ => none)
        else parseSigned ((if neg then ['-'] else []) ++ ip ++ fp)) =
      some (if neg then -(v : Int) else (v : Int)) := by
    by_cases h18 : ((if neg then ['-'] else []) ++ ip ++ fp).length ≤ 18
    · rw [if_pos h18]
      have hl : (ip ++ fp).length ≤ 18 := by
        simp only [List.length_append] at h18 ⊢
        omega
      have hb : w < 10 ^ 18 := lt_of_lt_of_le hw (Nat.pow_le_pow_right (by omega) hl)
      norm_num at hb
      have hr : ¬((if neg then -(v : Int) else (v : Int)) < -(2 ^ (64 - 1) : Int) ∨
          (if neg then -(v : Int) else (v : Int)) > (2 ^ (64 - 1) : Int) - 1) := by
        subst hvw
        norm_num
        cases neg
        · simp only [Bool.false_eq_true, if_false]
          omega
        · simp only [if_true]
          omega
      simp only [ParseInt, hparse, hr, if_false]
    · rw [if_neg h18]
      exact hparse
  unfold NewFromString
  simp only [span_of_all _ _ hE, hsplit, hdrop]
  have hc2 : ¬((if neg then ['-'] else []) ++ ip ++
      (if fp.length > 0 then '.' :: fp else [])).count '.' > 1 := by omega
  simp only [hc2, if_false, hdv]
  have hrange : ¬(-(fp.length : Int) < -2147483648 ∨ -(fp.length : Int) > 2147483647) := by
    omega
  simp only [zero_sub, hrange, if_false]

end Decimal

end decimal

/-! ## The text written by `String()` -/

namespace decimal

namespace Decimal

open strconv

/-- Trimming the trailing zeros removes a run of zeros and nothing else. -/
theorem rdropWhile_zero_decomp (l : List Char) :
    ∃ t, l = l.rdropWhile (fun c => c == '0') ++ List.replicate t '0' := by
  induction l using List.reverseRecOn with
  | nil => exact ⟨0, by simp⟩
  | append_singleton l a ih =>
    by_cases ha : a = '0'
    · obtain ⟨t, ht⟩ := ih
      refine ⟨t + 1, ?_⟩
      rw [List.rdropWhile_concat_pos _ _ _ (by simp [ha]), List.replicate_succ', ← List.append_assoc,
        ← ht, ha]
    · refine ⟨0, ?_⟩
      rw [List.rdropWhile_concat_neg _ _ _ (by simp [ha])]
      simp

theorem isDigits_of_sublist (l l2 : List Char) (h : l2.Sublist l) (hl : IsDigits l) :
    IsDigits l2 :=
  fun c hc => hl c (h.subset hc)

theorem sign_neg_iff (d : Decimal) : d.Sign < 0 ↔ d.value < 0 := by
  unfold Sign
  rw [← not_le, Int.sign_nonneg, not_le]

/-- The text written for a negative exponent, from its integer part and its
untrimmed fractional part. -/
theorem string_of_neg_exp (d : Decimal) (h : d.exp < 0) :
    d.string true =
      String.mk ((if decide (d.value < 0) then ['-'] else []) ++
        (if ((bigString |d.value|).length : Int) > -d.exp then
          (bigString |d.value|).take (((bigString |d.value|).length : Int) + d.exp).toNat
         else ['0']) ++
        (if ((if ((bigString |d.value|).length : Int) > -d.exp then
              (bigString |d.value|).drop (((bigString |d.value|).length : Int) + d.exp).toNat
            else List.replicate (-d.exp - ((bigString |d.value|).length : Int)).toNat '0' ++
              bigString |d.value|).rdropWhile (fun c => c == '0')).length > 0 then
          '.' :: (if ((bigString |d.value|).length : Int) > -d.exp then
              (bigString |d.value|).drop (((bigString |d.value|).length : Int) + d.exp).toNat
            else List.replicate (-d.exp - ((bigString |d.value|).length : Int)).toNat '0' ++
              bigString |d.value|).rdropWhile (fun c => c == '0')
         else [])) := by
  unfold string
  simp only [ge_iff_le, not_le.mpr h, if_false, if_true, sign_neg_iff]
  by_cases hs : d.value < 0
  · simp only [hs, if_true, decide_True, List.singleton_append, List.cons_append]
    split_ifs <;> simp
  · simp only [hs, if_false, decide_False, List.nil_append, Bool.false_eq_true]
    split_ifs <;> simp

/-- The text written for a non-negative exponent. -/
theorem string_of_nonneg_exp (d : Decimal) (h : 0 ≤ d.exp) :
    d.string true =
      String.mk ((if decide (d.value < 0) then ['-'] else []) ++
        natString (d.value * 10 ^ d.exp.toNat).natAbs) := by
  have hv : (d.rescale 0).value = d.value * 10 ^ d.exp.toNat := by
    unfold rescale
    by_cases h0 : d.exp = 0
    · simp [h0]
    · have hn : (0 - d.exp).natAbs = d.exp.toNat := by omega
      simp only [h0, if_false, gt_iff_lt, not_lt.mpr h, hn]
  have hneg : d.value * 10 ^ d.exp.toNat < 0 ↔ d.value < 0 := by
    have hp : (0 : Int) < 10 ^ d.exp.toNat := by positivity
    constructor
    · intro hlt
      by_contra hge
      exact absurd hlt (not_lt.mpr (mul_nonneg (not_lt.mp hge) (le_of_lt hp)))
    · intro hlt
      exact mul_neg_of_neg_of_pos hlt hp
  unfold string
  simp only [ge_iff_le, h, if_true, hv, bigString, hneg]
  by_cases hs : d.value < 0 <;> simp [hs]

/-- Moving `t` zeros from the exponent into the value keeps the number. -/
theorem toRat_scaled (v : Int) (t : Nat) (e : Int) :
    (Decimal.mk (v * 10 ^ t) (e - t)).toRat = (Decimal.mk v e).toRat := by
  simp only [toRat]
  push_cast
  rw [zpow_sub₀ ten_ne_zero_rat, zpow_natCast]
  field_simp
  ring

theorem bigString_abs (x : Int) : bigString |x| = natString x.natAbs := by
  unfold bigString
  simp [not_lt.mpr (abs_nonneg x), Int.natAbs_abs]

/-- Shape of the text `String()` writes: an optional minus sign, a non-empty
integer part and a fractional part, whose digits, read at the exponent that
counts the fractional digits, give back the number. -/
theorem string_shape (d : Decimal) :
    ∃ (ip fp : List Char) (v : Nat),
      d.string true = String.mk ((if decide (d.value < 0) then ['-'] else []) ++ ip ++
        (if fp.length > 0 then '.' :: fp else [])) ∧
      IsDigits ip ∧ ip ≠ [] ∧ IsDigits fp ∧ (fp.length : Int) ≤ max (-d.exp) 0 ∧
      parseDigits (ip ++ fp) 0 = some v ∧
      (Decimal.mk (if decide (d.value < 0) then -(v : Int) else (v : Int))
        (-(fp.length : Int))).toRat = d.toRat := by
  have hsigned : ∀ (x : Int), (if decide (x < 0) then -(x.natAbs : Int) else (x.natAbs : Int)) = x := by
    intro x
    by_cases hx : x < 0
    · simp only [hx, decide_True, if_true]
      omega
    · simp only [hx, decide_False, Bool.false_eq_true, if_false]
      omega
  by_cases h : 0 ≤ d.exp
  · obtain ⟨h1, h2, h3⟩ := natString_spec (d.value * 10 ^ d.exp.toNat).natAbs
    have hneg : d.value * 10 ^ d.exp.toNat < 0 ↔ d.value < 0 := by
      have hp : (0 : Int) < 10 ^ d.exp.toNat := by positivity
      constructor
      · intro hlt
        by_contra hge
        exact absurd hlt (not_lt.mpr (mul_nonneg (not_lt.mp hge) (le_of_lt hp)))
      · intro hlt
        exact mul_neg_of_neg_of_pos hlt hp
    refine ⟨natString (d.value * 10 ^ d.exp.toNat).natAbs, [],
      (d.value * 10 ^ d.exp.toNat).natAbs, ?_, h1, h2, ?_, ?_, ?_, ?_⟩
    · rw [string_of_nonneg_exp d h]
      simp
    · intro c hc
      simp at hc
    · simp
    · simpa using h3
    · have hs := hsigned (d.value * 10 ^ d.exp.toNat)
      simp only [hneg] at hs
      rw [hs]
      have := toRat_scaled d.value d.exp.toNat d.exp
      have he : d.exp - (d.exp.toNat : Int) = 0 := by omega
      rw [he] at this
      simpa using this
  · have hlt : d.exp < 0 := not_le.mp h
    obtain ⟨h1, h2, h3⟩ := natString_spec d.value.natAbs
    -- the integer part and the untrimmed fractional part
    have hparts : ∃ ip frac : List Char,
        ip = (if ((natString d.value.natAbs).length : Int) > -d.exp then
            (natString d.value.natAbs).take
              (((natString d.value.natAbs).length : Int) + d.exp).toNat
          else ['0']) ∧
        frac = (if ((natString d.value.natAbs).length : Int) > -d.exp then
            (natString d.value.natAbs).drop
              (((natString d.value.natAbs).length : Int) + d.exp).toNat
          else List.replicate (-d.exp - ((natString d.value.natAbs).length : Int)).toNat '0' ++
            natString d.value.natAbs) ∧
        IsDigits ip ∧ ip ≠ [] ∧ IsDigits frac ∧ (frac.length : Int) = -d.exp ∧
        parseDigits (ip ++ frac) 0 = some d.value.natAbs := by
      refine ⟨_, _, rfl, rfl, ?_⟩
      by_cases hL : ((natString d.value.natAbs).length : Int) > -d.exp
      · simp only [hL, if_true]
        refine ⟨isDigits_of_sublist _ _ (List.take_sublist _ _) h1, ?_,
          isDigits_of_sublist _ _ (List.drop_sublist _ _) h1, ?_, ?_⟩
        · intro hnil
          have := congrArg List.length hnil
          rw [List.length_take, List.length_nil] at this
          omega
        · rw [List.length_drop]
          omega
        · rw [List.take_append_drop]
          exact h3
      · simp only [hL, if_false]
        have hz : IsDigits ['0'] := isDigits_replicate_zero 1
        have hfrac : IsDigits (List.replicate
            (-d.exp - ((natString d.value.natAbs).length : Int)).toNat '0' ++
              natString d.value.natAbs) :=
          isDigits_append _ _ (isDigits_replicate_zero _) h1
        refine ⟨hz, by simp, hfrac, ?_, ?_⟩
        · rw [List.length_append, List.length_replicate]
          omega
        · have hzeros := parseDigits_append _ _ 0 _ (isDigits_replicate_zero
            (-d.exp - ((natString d.value.natAbs).length : Int)).toNat) h1
            (parseDigits_replicate_zero _) h3
          have h0 : parseDigits ['0'] 0 = some 0 := parseDigits_replicate_zero 1
          have := parseDigits_append _ _ 0 _ hz hfrac h0 hzeros
          simpa using this
    obtain ⟨ip, frac, hipdef, hfracdef, hip, hipne, hfrac, hfraclen, hval⟩ := hparts
    obtain ⟨t, ht⟩ := rdropWhile_zero_decomp frac
    have hfp : IsDigits (frac.rdropWhile (fun c => c == '0')) :=
      isDigits_of_sublist _ _ (List.rdropWhile_prefix _ frac).sublist hfrac
    obtain ⟨v, -, hv⟩ := parseDigits_of_isDigits (ip ++ frac.rdropWhile (fun c => c == '0'))
      (isDigits_append _ _ hip hfp)
    have hv0 : parseDigits (ip ++ frac.rdropWhile (fun c => c == '0')) 0 = some v := by
      simpa using hv 0
    have hAv : d.value.natAbs = v * 10 ^ t := by
      have := parseDigits_append _ _ v 0 (isDigits_append _ _ hip hfp)
        (isDigits_replicate_zero t) hv0 (parseDigits_replicate_zero t)
      rw [List.append_assoc, ← ht, hval] at this
      simpa using this
    have hlen : ((frac.rdropWhile (fun c => c == '0')).length : Int) + t = -d.exp := by
      rw [← hfraclen]
      conv_rhs => rw [ht]
      simp
    refine ⟨ip, frac.rdropWhile (fun c => c == '0'), v, ?_, hip, hipne, hfp, ?_, hv0, ?_⟩
    · rw [string_of_neg_exp d hlt, bigString_abs, ← hipdef, ← hfracdef]
    · omega
    · have e1 : d = Decimal.mk d.value d.exp := rfl
      have e2 : d.exp = -((frac.rdropWhile (fun c => c == '0')).length : Int) - (t : Int) := by
        omega
      have e3 : d.value =
          (if decide (d.value < 0) then -(v : Int) else (v : Int)) * 10 ^ t := by
        have hA : (d.value.natAbs : Int) = (v : Int) * 10 ^ t := by exact_mod_cast hAv
        by_cases hx : d.value < 0
        · have hneg : d.value = -(d.value.natAbs : Int) := by omega
          simp only [hx, decide_True, if_true]
          rw [neg_mul, ← hA]
          exact hneg
        · have hpos : d.value = (d.value.natAbs : Int) := by omega
          simp only [hx, decide_False, Bool.false_eq_true, if_false]
          rw [← hA]
          exact hpos
      conv_rhs => rw [e1, e2, e3]
      rw [toRat_scaled]

end Decimal

end decimal

/-! ## JSON: strings the encoder writes as they are -/

namespace json

/-- What the table `htmlSafeSet` excludes. -/
theorem htmlSafe_spec (c : Char) (h : htmlSafe c = true) :
    0x20 ≤ c.toNat ∧ c.toNat < 0x80 ∧ c ≠ '"' ∧ c ≠ '\\' := by
  simp only [htmlSafe, Bool.and_eq_true, decide_eq_true_eq, Bool.not_eq_true',
    Bool.or_eq_false_iff, beq_eq_false_iff_ne, ne_eq] at h
  exact ⟨h.1.1, h.1.2, h.2.1.1.1.1, h.2.1.1.1.2⟩

theorem encodeChar_safe (c : Char) (h : htmlSafe c = true) : encodeChar c = [c] := by
  obtain ⟨-, h2, -, -⟩ := htmlSafe_spec c h
  simp [encodeChar, h2, h]

/-- A string of safe characters is written between quotes as it is. -/
theorem encodeString_safe (s : String) (h : ∀ c ∈ s.data, htmlSafe c = true) :
    encodeString s = '"' :: (s.data ++ ['"']) := by
  have key : ∀ l : List Char, (∀ c ∈ l, htmlSafe c = true) → l.flatMap encodeChar = l := by
    intro l
    induction l with
    | nil => intro _; rfl
    | cons c l ih =>
      intro hl
      rw [List.flatMap_cons, encodeChar_safe c (hl c (List.mem_cons_self _ _)),
        ih (fun x hx => hl x (List.mem_cons_of_mem _ hx))]
      rfl
  unfold encodeString
  rw [key _ h]

theorem joinPieces_rune (s : List Char) : joinPieces (s.map Piece.rune) = s := by
  induction s with
  | nil => rfl
  | cons c s ih => simp [joinPieces, ih]

/-- A literal of safe characters is read back as the string it was written
from. -/
theorem scanString_safe (s rest : List Char) (h : ∀ c ∈ s, htmlSafe c = true) :
    scanString (s ++ '"' :: rest) = some (s, rest) := by
  have key : ∀ l : List Char, (∀ c ∈ l, htmlSafe c = true) →
      scanPieces (l ++ '"' :: rest) = some (l.map Piece.rune, rest) := by
    intro l
    induction l with
    | nil => intro _; rfl
    | cons c l ih =>
      intro hl
      obtain ⟨h1, -, h3, h4⟩ := htmlSafe_spec c (hl c (List.mem_cons_self _ _))
      have hrec := ih (fun x hx => hl x (List.mem_cons_of_mem _ hx))
      rw [List.cons_append]
      unfold scanPieces
      split
      · rename_i heq
        cases heq
      · rename_i heq
        exact absurd (List.cons.inj heq).1 h3
      · rename_i heq
        exact absurd (List.cons.inj heq).1 h4
      · rename_i heq
        exact absurd (List.cons.inj heq).1 h4
      · rename_i c2 r2 _ _ _ heq
        obtain ⟨hc, hr⟩ := List.cons.inj heq
        subst hc hr
        have : ¬ c.toNat < 0x20 := by omega
        simp only [this, if_false, hrec, Option.map_some', List.map_cons]
  unfold scanString
  rw [key s h, Option.map_some', joinPieces_rune]

theorem skipSpace_of_not_space (c : Char) (cs : List Char) (h : isSpace c = false) :
    skipSpace (c :: cs) = c :: cs := by
  simp [skipSpace, h]

/-- A string literal of safe characters read as a value. -/
theorem parseValue_string (f : Nat) (s rest : List Char) (hs : ∀ c ∈ s, htmlSafe c = true) :
    parseValue (f + 1) ('"' :: (s ++ '"' :: rest)) = some (Value.str s, rest) := by
  simp only [parseValue, if_true, scanString_safe s rest hs, Option.map_some']

/-- A member of safe strings that is followed by a comma. -/
theorem parseMembers_more (pv : List Char → Option (Value × List Char)) (n : Nat)
    (k v rest : List Char) (hk : ∀ c ∈ k, htmlSafe c = true)
    (hpv : pv ('"' :: (v ++ '"' :: ',' :: '"' :: rest)) =
      some (Value.str v, ',' :: '"' :: rest)) :
    parseMembers pv (n + 1) ('"' :: (k ++ '"' :: ':' :: '"' :: (v ++ '"' :: ',' :: '"' :: rest))) =
      (parseMembers pv n ('"' :: rest)).map (fun p => ((k, Value.str v) :: p.1, p.2)) := by
  simp only [parseMembers, ne_eq, not_true_eq_false, if_false, scanString_safe k _ hk,
    skipSpace_of_not_space ':' _ (by decide), skipSpace_of_not_space '"' _ (by decide),
    skipSpace_of_not_space ',' _ (by decide), hpv, if_true]

/-- A member of safe strings that closes the object. -/
theorem parseMembers_last (pv : List Char → Option (Value × List Char)) (n : Nat)
    (k v rest : List Char) (hk : ∀ c ∈ k, htmlSafe c = true)
    (hpv : pv ('"' :: (v ++ '"' :: '}' :: rest)) = some (Value.str v, '}' :: rest)) :
    parseMembers pv (n + 1) ('"' :: (k ++ '"' :: ':' :: '"' :: (v ++ '"' :: '}' :: rest))) =
      some ([(k, Value.str v)], rest) := by
  have hne : ¬('}' = ',') := by decide
  simp only [parseMembers, ne_eq, not_true_eq_false, if_false, scanString_safe k _ hk,
    skipSpace_of_not_space ':' _ (by decide), skipSpace_of_not_space '"' _ (by decide),
    skipSpace_of_not_space '}' _ (by decide), hpv, hne, if_true]

/-- An object of two members of safe strings read as a value, with fuel for
its two levels and two members. -/
theorem parseValue_object_of_two_strings (f : Nat) (k1 v1 k2 v2 : List Char)
    (hk1 : ∀ c ∈ k1, htmlSafe c = true) (hv1 : ∀ c ∈ v1, htmlSafe c = true)
    (hk2 : ∀ c ∈ k2, htmlSafe c = true) (hv2 : ∀ c ∈ v2, htmlSafe c = true) :
    parseValue (f + 1 + 1 + 1) ('{' :: '"' :: (k1 ++ '"' :: ':' :: '"' :: (v1 ++ '"' :: ',' :: '"' ::
        (k2 ++ '"' :: ':' :: '"' :: (v2 ++ ['"', '}']))))) =
      some (Value.object [(k1, Value.str v1), (k2, Value.str v2)], []) := by
  have hmem : parseMembers (parseValue (f + 1 + 1)) (f + 1 + 1)
      ('"' :: (k1 ++ '"' :: ':' :: '"' :: (v1 ++ '"' :: ',' :: '"' ::
        (k2 ++ '"' :: ':' :: '"' :: (v2 ++ ['"', '}']))))) =
      some ([(k1, Value.str v1), (k2, Value.str v2)], []) := by
    rw [parseMembers_more _ _ k1 v1 _ hk1 (parseValue_string (f + 1) v1 _ hv1),
      parseMembers_last _ _ k2 v2 [] hk2 (parseValue_string (f + 1) v2 _ hv2)]
    rfl
  have h1 : ¬('{' = '"') := by decide
  have h2 : ¬('"' = '}') := by decide
  simp only [parseValue, h1, h2, if_false, if_true, skipSpace_of_not_space '"' _ (by decide),
    hmem, Option.map_some']

/-- The text of an object of two members whose keys and values are strings of
safe characters is read as that object. -/
theorem parse_object_of_two_strings (k1 v1 k2 v2 : List Char)
    (hk1 : ∀ c ∈ k1, htmlSafe c = true) (hv1 : ∀ c ∈ v1, htmlSafe c = true)
    (hk2 : ∀ c ∈ k2, htmlSafe c = true) (hv2 : ∀ c ∈ v2, htmlSafe c = true) :
    parse (['{'] ++ ('"' :: (k1 ++ ['"'])) ++ [':'] ++ ('"' :: (v1 ++ ['"'])) ++ [','] ++
        ('"' :: (k2 ++ ['"'])) ++ [':'] ++ ('"' :: (v2 ++ ['"'])) ++ ['}']) =
      some (Value.object [(k1, Value.str v1), (k2, Value.str v2)]) := by
  simp only [List.append_assoc, List.cons_append, List.nil_append, List.singleton_append]
  unfold parse
  rw [skipSpace_of_not_space '{' _ (by decide), List.length_cons, List.length_cons,
    parseValue_object_of_two_strings _ k1 v1 k2 v2 hk1 hv1 hk2 hv2]
  rfl

/-- Decoding what the encoder wrote for two strings of safe characters gives
the two strings back, whatever the struct held. -/
theorem Unmarshal_Marshal_safe (v temp : MoneyFields)
    (ha : ∀ c ∈ v.Amount.data, htmlSafe c = true)
    (hc : ∀ c ∈ v.Currency.data, htmlSafe c = true) :
    Unmarshal (Marshal v) temp = (v, none) := by
  have hka : ∀ c ∈ ("amount" : String).data, htmlSafe c = true := by decide
  have hkc : ∀ c ∈ ("currency" : String).data, htmlSafe c = true := by decide
  unfold Unmarshal Marshal
  simp only [encodeString_safe _ ha, encodeString_safe _ hc, encodeString_safe _ hka,
    encodeString_safe _ hkc]
  rw [parse_object_of_two_strings _ _ _ _ hka ha hkc hc]
  have m1 : matchesField ("amount" : String).data "amount" = true := by decide
  have m2 : matchesField ("currency" : String).data "amount" = false := by decide
  have m3 : matchesField ("currency" : String).data "currency" = true := by decide
  simp only [List.foldl_cons, List.foldl_nil, decodeMember, m1, m2, m3, if_true, storeString,
    Bool.false_eq_true, if_false, false_and]

end json

/-! ## Money: the JSON round trip -/

namespace decimal

namespace Decimal

open strconv

theorem digitChar_htmlSafe (d : Nat) (h : d < 10) : json.htmlSafe (digitChar d) = true := by
  interval_cases d <;> decide

/-- The text `String()` writes is read back by `NewFromString` as a decimal
that denotes the same number, and it holds only characters that the JSON
encoder writes as they are. -/
theorem NewFromString_string (d : Decimal) (hlo : -2147483648 ≤ d.exp) :
    (∃ d2, NewFromString (d.string true) = .ok d2 ∧ d2.toRat = d.toRat) ∧
    (∀ c ∈ (d.string true).data, json.htmlSafe c = true) := by
  obtain ⟨ip, fp, v, hstr, hip, hne, hfp, hlen, hv, hrat⟩ := string_shape d
  constructor
  · refine ⟨_, ?_, hrat⟩
    rw [hstr]
    refine NewFromString_plain _ ip fp v hip hne hfp ?_ hv
    rcases le_max_iff.mp hlen with h | h <;> omega
  · rw [hstr]
    intro c hc
    simp only [List.mem_append] at hc
    rcases hc with (hc | hc) | hc
    · by_cases hs : d.value < 0
      · simp only [hs, decide_True, if_true, List.mem_singleton] at hc
        rw [hc]
        decide
      · simp [hs] at hc
    · obtain ⟨k, hk, rfl⟩ := hip c hc
      exact digitChar_htmlSafe k hk
    · by_cases hpos : fp.length > 0
      · rw [if_pos hpos] at hc
        rcases List.mem_cons.mp hc with hc | hc
        · rw [hc]
          decide
        · obtain ⟨k, hk, rfl⟩ := hfp c hc
          exact digitChar_htmlSafe k hk
      · rw [if_neg hpos] at hc
        simp at hc

end Decimal

end decimal

namespace models

open decimal

/-- An allow-listed code is written by the JSON encoder as it is, and is its
own upper case. -/
theorem allowListed_code (u : String)
    (hu : u ∈ ["AUD", "USD", "GBP", "EUR", "CAD", "JPY", "CHF", "CNY", "SEK", "NZD"]) :
    (∀ c ∈ u.data, json.htmlSafe c = true) ∧ strings.ToUpper u = u := by
  simp only [List.mem_cons, List.mem_singleton, List.not_mem_nil, or_false] at hu
  rcases hu with h | h | h | h | h | h | h | h | h | h <;> subst h <;> decide

/-- C7. For every decimal amount (its exponent not below the least int32, as
every exponent of the library is) and every currency that `NewMoney` accepts,
taking `m = NewMoney(amount, currency)`, the call `UnmarshalJSON` on
`MarshalJSON(m)` succeeds, whatever the receiver held, and leaves in it a
Money that is `Equal` to `m`: the same currency and an amount that denotes
exactly the same number. -/
theorem Money_JSON_round_trip (amount : Decimal) (currency : String) (m0 : Money)
    (hlo : -2147483648 ≤ amount.exp)
    (hcur : strings.ToUpper currency ∈
      ["AUD", "USD", "GBP", "EUR", "CAD", "JPY", "CHF", "CNY", "SEK", "NZD"]) :
    ∃ m data, NewMoney amount currency = .ok m ∧ m.MarshalJSON = .ok data ∧
      (m0.UnmarshalJSON data).2 = none ∧
      (m0.UnmarshalJSON data).1.Equal m = true ∧
      (m0.UnmarshalJSON data).1.Currency = m.Currency ∧
      (m0.UnmarshalJSON data).1.Amount.toRat = m.Amount.toRat := by
  obtain ⟨⟨d2, hparse, hrat⟩, hsafe⟩ := Decimal.NewFromString_string amount hlo
  obtain ⟨hcsafe, hupper⟩ := allowListed_code _ hcur
  have hvalid : validateCurrency (strings.ToUpper currency) = none := by
    rw [validateCurrency_eq_none_iff, hupper]
    exact hcur
  have hun : Money.UnmarshalJSON m0 (json.Marshal
      { Amount := amount.string true, Currency := strings.ToUpper currency }) =
      (⟨d2, strings.ToUpper currency⟩, none) := by
    unfold Money.UnmarshalJSON
    rw [json.Unmarshal_Marshal_safe _ _ hsafe hcsafe]
    simp only [hparse, hvalid, hupper]
  refine ⟨⟨amount, strings.ToUpper currency⟩, _, NewMoney_of_allowListed amount currency hcur,
    rfl, ?_⟩
  rw [hun]
  refine ⟨rfl, ?_, rfl, hrat⟩
  simp only [Money.Equal, beq_self_eq_true, Bool.true_and]
  exact (Decimal.Equal_iff _ _).mpr hrat

/-- Witness of C7: 123.45 AUD, built from the currency "aud", is written as
the object of the test of the repository and read back as 123.45 AUD. -/
theorem Money_JSON_round_trip_witness :
    (∃ m data, NewMoney ⟨12345, -2⟩ "aud" = .ok m ∧ m.MarshalJSON = .ok data ∧
      (Money.UnmarshalJSON ⟨⟨0, 0⟩, ""⟩ data).2 = none ∧
      (Money.UnmarshalJSON ⟨⟨0, 0⟩, ""⟩ data).1.Equal m = true ∧
      (Money.UnmarshalJSON ⟨⟨0, 0⟩, ""⟩ data).1.Currency = m.Currency ∧
      (Money.UnmarshalJSON ⟨⟨0, 0⟩, ""⟩ data).1.Amount.toRat = m.Amount.toRat) ∧
    Money.MarshalJSON ⟨⟨12345, -2⟩, "AUD"⟩ =
      .ok "\x7b\"amount\":\"123.45\",\"currency\":\"AUD\"\x7d" ∧
    Money.UnmarshalJSON ⟨⟨0, 0⟩, ""⟩ "\x7b\"amount\":\"123.45\",\"currency\":\"AUD\"\x7d" =
      (⟨⟨12345, -2⟩, "AUD"⟩, none) ∧
    Money.UnmarshalJSON ⟨⟨0, 0⟩, ""⟩ "\x7b\"amount\":\"123.4500\",\"currency\":\"AUD\"\x7d" =
      (⟨⟨1234500, -4⟩, "AUD"⟩, none) :=
  ⟨Money_JSON_round_trip ⟨12345, -2⟩ "aud" ⟨⟨0, 0⟩, ""⟩ (by decide) (by decide),
   by decide, by decide, by decide⟩

end models

/-! ## Money: equality, construction from text, and the currency invariant -/

namespace models

open decimal

/-- C11. `Money.Equal` is true exactly when the two currencies are the same
string and the two amounts denote the same number, whatever their
representation; on differing currencies it returns false (it has no error). -/
theorem Money_Equal_contract (a b : Money) :
    (a.Equal b = true ↔ a.Currency = b.Currency ∧ a.Amount.toRat = b.Amount.toRat) ∧
    (a.Currency ≠ b.Currency → a.Equal b = false) := by
  have h : a.Equal b = true ↔ a.Currency = b.Currency ∧ a.Amount.toRat = b.Amount.toRat := by
    simp only [Money.Equal, Bool.and_eq_true, beq_iff_eq, Decimal.Equal_iff]
  refine ⟨h, ?_⟩
  intro hne
  rw [Bool.eq_false_iff, ne_eq, h]
  exact fun hc => hne hc.1

/-- Witness of C11: 100.00 AUD equals 100.00 AUD, also when one amount is held
as 1000 tenths; it equals neither 100.00 USD nor an amount that differs by
one unit in the thirtieth decimal. -/
theorem Money_Equal_contract_witness :
    Money.Equal ⟨⟨100, 0⟩, "AUD"⟩ ⟨⟨100, 0⟩, "AUD"⟩ = true ∧
    Money.Equal ⟨⟨1000, -1⟩, "AUD"⟩ ⟨⟨100, 0⟩, "AUD"⟩ = true ∧
    Money.Equal ⟨⟨100, 0⟩, "AUD"⟩ ⟨⟨100, 0⟩, "USD"⟩ = false ∧
    Money.Equal ⟨⟨100, 0⟩, "AUD"⟩ ⟨⟨100000000000000000000000000000001, -30⟩, "AUD"⟩ = false :=
  ⟨(Money_Equal_contract ⟨⟨100, 0⟩, "AUD"⟩ ⟨⟨100, 0⟩, "AUD"⟩).1.mpr ⟨rfl, rfl⟩, by decide,
   (Money_Equal_contract ⟨⟨100, 0⟩, "AUD"⟩ ⟨⟨100, 0⟩, "USD"⟩).2 (by decide), by decide⟩

/-- C12. `NewMoneyFromString` parses the amount first: when the text is no
decimal literal it fails with the invalid-amount error, whatever the
currency; when the text parses it returns what `NewMoney` returns on the
parsed amount, its invalid-currency error included. -/
theorem NewMoneyFromString_contract (s c : String) :
    (∀ e, Decimal.NewFromString s = .error e →
      NewMoneyFromString s c = .error ("invalid amount: " ++ e)) ∧
    (∀ d, Decimal.NewFromString s = .ok d → NewMoneyFromString s c = NewMoney d c) := by
  constructor
  · intro e he
    simp only [NewMoneyFromString, he]
  · intro d hd
    simp only [NewMoneyFromString, hd]

/-- Witness of C12: "abc" is an invalid amount with a valid and with an
invalid currency alike; "-45.50" parses, and then the currency decides. -/
theorem NewMoneyFromString_contract_witness :
    NewMoneyFromString "abc" "AUD" = .error "invalid amount: can't convert abc to decimal" ∧
    NewMoneyFromString "abc" "XXX" = .error "invalid amount: can't convert abc to decimal" ∧
    NewMoneyFromString "-45.50" "aud" = NewMoney ⟨-4550, -2⟩ "aud" ∧
    NewMoneyFromString "-45.50" "aud" = .ok ⟨⟨-4550, -2⟩, "AUD"⟩ ∧
    NewMoneyFromString "-45.50" "XXX" = .error "invalid currency code: XXX" ∧
    NewMoneyFromString "" "AUD" = .error "invalid amount: can't convert  to decimal" ∧
    NewMoneyFromString "1.2.3" "AUD" =
      .error "invalid amount: can't convert 1.2.3 to decimal: too many .s" :=
  ⟨(NewMoneyFromString_contract "abc" "AUD").1 _ (by decide),
   (NewMoneyFromString_contract "abc" "XXX").1 _ (by decide),
   (NewMoneyFromString_contract "-45.50" "aud").2 _ (by decide),
   by decide, by decide, by decide, by decide⟩

/-- What `UnmarshalJSON` does once the document has been decoded into the
fields `s` and `c`. -/
theorem UnmarshalJSON_of_fields (m0 : Money) (data s c : String)
    (h : json.Unmarshal data { Amount := "", Currency := "" } = (⟨s, c⟩, none)) :
    m0.UnmarshalJSON data =
      match NewMoneyFromString s c with
      | .ok m => (m, none)
      | .error e => (m0, some e) := by
  unfold Money.UnmarshalJSON NewMoneyFromString NewMoney
  rw [h]
  dsimp only
  cases hp : Decimal.NewFromString s with
  | error e => rfl
  | ok d =>
    dsimp only
    cases hv : validateCurrency c with
    | none => rfl
    | some e => rfl

/-- C13. For every document that decodes into the amount field `s` and the
currency field `c`, `UnmarshalJSON` succeeds exactly when
`NewMoneyFromString(s, c)` does; on success the receiver holds the Money that
`NewMoneyFromString` returns (same amount, same upper-cased currency), and on
failure the receiver is left as it was and the error is the error of
`NewMoneyFromString` (invalid amount, else invalid currency). -/
theorem UnmarshalJSON_revalidates (m0 : Money) (data s c : String)
    (h : json.Unmarshal data { Amount := "", Currency := "" } = (⟨s, c⟩, none)) :
    ((m0.UnmarshalJSON data).2 = none ↔ ∃ m, NewMoneyFromString s c = .ok m) ∧
    (∀ m, NewMoneyFromString s c = .ok m → m0.UnmarshalJSON data = (m, none)) ∧
    (∀ e, NewMoneyFromString s c = .error e → m0.UnmarshalJSON data = (m0, some e)) := by
  rw [UnmarshalJSON_of_fields m0 data s c h]
  cases hn : NewMoneyFromString s c with
  | error e => simp
  | ok m => simp

/-- Witness of C13: the object with amount "1e2" and currency "usd", written
with white space, another member and upper-case keys, gives 1e2 USD as
`NewMoneyFromString` does; with amount "abc" both fail on the amount, and with
currency "XXX" both fail on the currency. -/
theorem UnmarshalJSON_revalidates_witness :
    (((Money.UnmarshalJSON ⟨⟨7, 0⟩, "GBP"⟩
        " \x7b\"x\": [1, null], \"Amount\" : \"1e2\" ,\"CURRENCY\":\"usd\"\x7d ").2 = none ↔
      ∃ m, NewMoneyFromString "1e2" "usd" = .ok m) ∧
     (∀ m, NewMoneyFromString "1e2" "usd" = .ok m →
       Money.UnmarshalJSON ⟨⟨7, 0⟩, "GBP"⟩
        " \x7b\"x\": [1, null], \"Amount\" : \"1e2\" ,\"CURRENCY\":\"usd\"\x7d " = (m, none)) ∧
     (∀ e, NewMoneyFromString "1e2" "usd" = .error e →
       Money.UnmarshalJSON ⟨⟨7, 0⟩, "GBP"⟩
        " \x7b\"x\": [1, null], \"Amount\" : \"1e2\" ,\"CURRENCY\":\"usd\"\x7d " =
          (⟨⟨7, 0⟩, "GBP"⟩, some e))) ∧
    Money.UnmarshalJSON ⟨⟨7, 0⟩, "GBP"⟩
      " \x7b\"x\": [1, null], \"Amount\" : \"1e2\" ,\"CURRENCY\":\"usd\"\x7d " =
        (⟨⟨1, 2⟩, "USD"⟩, none) ∧
    Money.UnmarshalJSON ⟨⟨7, 0⟩, "GBP"⟩ "\x7b\"amount\":\"abc\",\"currency\":\"XXX\"\x7d" =
      (⟨⟨7, 0⟩, "GBP"⟩, some "invalid amount: can't convert abc to decimal") ∧
    NewMoneyFromString "abc" "XXX" = .error "invalid amount: can't convert abc to decimal" ∧
    Money.UnmarshalJSON ⟨⟨7, 0⟩, "GBP"⟩ "\x7b\"amount\":\"1\",\"currency\":\"XXX\"\x7d" =
      (⟨⟨7, 0⟩, "GBP"⟩, some "invalid currency code: XXX") ∧
    NewMoneyFromString "1" "XXX" = .error "invalid currency code: XXX" :=
  ⟨UnmarshalJSON_revalidates ⟨⟨7, 0⟩, "GBP"⟩ _ "1e2" "usd" (by decide),
   by decide, by decide, by decide, by decide, by decide⟩

/-- The currency `NewMoney` stores is allow-listed. -/
theorem NewMoney_currency (amount : Decimal) (c : String) (m : Money)
    (h : NewMoney amount c = .ok m) : m.Currency ∈ allowList := by
  unfold NewMoney at h
  cases hv : validateCurrency c with
  | some e => simp [hv] at h
  | none =>
    simp only [hv, Except.ok.injEq] at h
    rw [← h]
    exact (validateCurrency_eq_none_iff c).mp hv

/-- C19. The currency of every Money returned by `NewMoney` or
`NewMoneyFromString`, or left in the receiver by an `UnmarshalJSON` that
returns no error, is one of the ten allow-listed codes; and `Add`, `Subtract`,
`Multiply` and `Divide`, applied to Money values whose currency is
allow-listed, return (when they return a Money) a Money whose currency is
allow-listed. -/
theorem Money_currency_invariant :
    (∀ amount c m, NewMoney amount c = .ok m → m.Currency ∈ allowList) ∧
    (∀ s c m, NewMoneyFromString s c = .ok m → m.Currency ∈ allowList) ∧
    (∀ (m0 : Money) data, (m0.UnmarshalJSON data).2 = none →
      (m0.UnmarshalJSON data).1.Currency ∈ allowList) ∧
    (∀ (a b r : Money), a.Currency ∈ allowList → b.Currency ∈ allowList →
      a.Add b = .ok r → r.Currency ∈ allowList) ∧
    (∀ (a b r : Money), a.Currency ∈ allowList → b.Currency ∈ allowList →
      a.Subtract b = .ok r → r.Currency ∈ allowList) ∧
    (∀ (a r : Money) factor, a.Currency ∈ allowList →
      a.Multiply factor = some r → r.Currency ∈ allowList) ∧
    (∀ (a r : Money) divisor, a.Currency ∈ allowList →
      a.Divide divisor = some (.ok r) → r.Currency ∈ allowList) := by
  refine ⟨NewMoney_currency, ?_, ?_, ?_, ?_, ?_, ?_⟩
  · intro s c m h
    unfold NewMoneyFromString at h
    cases hp : Decimal.NewFromString s with
    | error e => simp [hp] at h
    | ok d =>
      simp only [hp] at h
      exact NewMoney_currency d c m h
  · intro m0 data h
    unfold Money.UnmarshalJSON at h ⊢
    cases hu : (json.Unmarshal data { Amount := "", Currency := "" }).2 with
    | some e => simp [hu] at h
    | none =>
      simp only [hu] at h ⊢
      cases hp : Decimal.NewFromString
          (json.Unmarshal data { Amount := "", Currency := "" }).1.Amount with
      | error e => simp [hp] at h
      | ok d =>
        simp only [hp] at h ⊢
        cases hv : validateCurrency
            (json.Unmarshal data { Amount := "", Currency := "" }).1.Currency with
        | some e => simp [hv] at h
        | none =>
          simp only [hv]
          exact (validateCurrency_eq_none_iff _).mp hv
  · intro a b r ha _ h
    unfold Money.Add at h
    by_cases hc : a.Currency = b.Currency
    · simp only [hc, ne_eq, not_true_eq_false, if_false, Except.ok.injEq] at h
      rw [← h, ← hc]
      exact ha
    · simp [hc] at h
  · intro a b r ha _ h
    unfold Money.Subtract at h
    by_cases hc : a.Currency = b.Currency
    · simp only [hc, ne_eq, not_true_eq_false, if_false, Except.ok.injEq] at h
      rw [← h, ← hc]
      exact ha
    · simp [hc] at h
  · intro a r factor ha h
    unfold Money.Multiply at h
    cases hm : a.Amount.Mul factor with
    | none => simp [hm] at h
    | some q =>
      simp only [hm, Option.some.injEq] at h
      rw [← h]
      exact ha
  · intro a r divisor ha h
    unfold Money.Divide at h
    cases hz : divisor.IsZero with
    | true => simp [hz] at h
    | false =>
      cases hd : a.Amount.Div divisor with
      | none => simp [hz, hd] at h
      | some q =>
        simp only [hz, hd, Bool.false_eq_true, if_false, Option.some.injEq,
          Except.ok.injEq] at h
        rw [← h]
        exact ha

/-- Witness of C19: the currencies of the Money built from "aud", of the Money
read from a document with currency "usd", and of the sum, the difference, the
double and the half of 100.50 AUD and 50.25 AUD. -/
theorem Money_currency_invariant_witness :
    (∀ m, NewMoney ⟨1005, -1⟩ "aud" = .ok m → m.Currency ∈ allowList) ∧
    NewMoney ⟨1005, -1⟩ "aud" = .ok ⟨⟨1005, -1⟩, "AUD"⟩ ∧
    (Money.UnmarshalJSON ⟨⟨0, 0⟩, ""⟩
      "\x7b\"amount\":\"1\",\"currency\":\"usd\"\x7d").1.Currency ∈ allowList ∧
    (∀ r, Money.Add ⟨⟨1005, -1⟩, "AUD"⟩ ⟨⟨5025, -2⟩, "AUD"⟩ = .ok r → r.Currency ∈ allowList) ∧
    (∀ r, Money.Subtract ⟨⟨1005, -1⟩, "AUD"⟩ ⟨⟨5025, -2⟩, "AUD"⟩ = .ok r →
      r.Currency ∈ allowList) ∧
    (∀ r, Money.Multiply ⟨⟨1005, -1⟩, "AUD"⟩ ⟨2, 0⟩ = some r → r.Currency ∈ allowList) ∧
    Money.Multiply ⟨⟨1005, -1⟩, "AUD"⟩ ⟨2, 0⟩ = some ⟨⟨2010, -1⟩, "AUD"⟩ ∧
    (∀ r, Money.Divide ⟨⟨1005, -1⟩, "AUD"⟩ ⟨2, 0⟩ = some (.ok r) → r.Currency ∈ allowList) ∧
    (∃ r, Money.Divide ⟨⟨1005, -1⟩, "AUD"⟩ ⟨2, 0⟩ = some (.ok r)) :=
  ⟨fun m h => Money_currency_invariant.1 _ _ m h, by decide,
   Money_currency_invariant.2.2.1 _ _ (by decide),
   fun r h => Money_currency_invariant.2.2.2.1 _ _ r (by decide) (by decide) h,
   fun r h => Money_currency_invariant.2.2.2.2.1 _ _ r (by decide) (by decide) h,
   fun r h => Money_currency_invariant.2.2.2.2.2.1 _ r _ (by decide) h, by decide,
   fun r h => Money_currency_invariant.2.2.2.2.2.2 _ r _ (by decide) h, ⟨_, rfl⟩⟩

/-- C20. Within one currency `Add` is commutative: `a.Add(b)` and `b.Add(a)`
both succeed and their results are `Equal`; across currencies both fail. -/
theorem Money_Add_comm (a b : Money) :
    (a.Currency = b.Currency →
      ∃ r1 r2, a.Add b = .ok r1 ∧ b.Add a = .ok r2 ∧ r1.Equal r2 = true) ∧
    (a.Currency ≠ b.Currency → (∃ e, a.Add b = .error e) ∧ (∃ e, b.Add a = .error e)) := by
  constructor
  · intro h
    refine ⟨⟨a.Amount.Add b.Amount, a.Currency⟩, ⟨b.Amount.Add a.Amount, b.Currency⟩, ?_, ?_, ?_⟩
    · simp [Money.Add, h]
    · simp [Money.Add, h]
    · simp only [Money.Equal, h, beq_self_eq_true, Bool.true_and]
      rw [Decimal.Equal_iff, Decimal.Add_toRat, Decimal.Add_toRat, add_comm]
  · intro h
    have h2 : b.Currency ≠ a.Currency := fun e => h e.symm
    exact ⟨⟨a.mismatch b, by simp [Money.Add, h]⟩, ⟨b.mismatch a, by simp [Money.Add, h2]⟩⟩

/-- Witness of C20: 100.50 AUD and 50.25 AUD add up to 150.75 AUD in both
orders, and 100.50 AUD and 100.00 USD add in neither. -/
theorem Money_Add_comm_witness :
    (∃ r1 r2, Money.Add ⟨⟨1005, -1⟩, "AUD"⟩ ⟨⟨5025, -2⟩, "AUD"⟩ = .ok r1 ∧
      Money.Add ⟨⟨5025, -2⟩, "AUD"⟩ ⟨⟨1005, -1⟩, "AUD"⟩ = .ok r2 ∧ r1.Equal r2 = true) ∧
    ((∃ e, Money.Add ⟨⟨1005, -1⟩, "AUD"⟩ ⟨⟨100, 0⟩, "USD"⟩ = .error e) ∧
      (∃ e, Money.Add ⟨⟨100, 0⟩, "USD"⟩ ⟨⟨1005, -1⟩, "AUD"⟩ = .error e)) :=
  ⟨(Money_Add_comm ⟨⟨1005, -1⟩, "AUD"⟩ ⟨⟨5025, -2⟩, "AUD"⟩).1 rfl,
   (Money_Add_comm ⟨⟨1005, -1⟩, "AUD"⟩ ⟨⟨100, 0⟩, "USD"⟩).2 (by decide)⟩

end models

/-! ## The transaction-history query: empty results and the bound of a page -/

namespace mock

open models domains

/-- One step of the filtering loop: the slice with the entry appended when the
specification keeps it, the slice itself otherwise. -/
theorem filterStep_eq (accountID : String) (opts : HistoryOptions)
    (acc : Slice Transaction) (tx : Transaction) :
    filterStep accountID opts acc tx =
      if specKeep accountID opts.FromDate opts.ToDate tx then Slice.append acc tx else acc := by
  unfold filterStep specKeep
  by_cases ha : tx.AccountID = accountID
  · cases hf : opts.FromDate <;> cases ht : opts.ToDate <;>
      simp only [ha, Option.any, time.Time.Before, time.Time.After,
        if_true, decide_True, Bool.true_and, Bool.and_true, Bool.false_eq_true, if_false,
        decide_eq_true_eq, Bool.and_eq_true, ge_iff_le, gt_iff_lt] <;>
      (try split_ifs) <;>
      first
      | rfl
      | (exfalso; dsimp only [time.Time] at *; omega)
  · simp [ha]

/-- The slice collected by the filtering loop is nil when nothing is kept, and
the kept entries otherwise. -/
theorem filterTransactions_eq (entries : List (String × Transaction)) (accountID : String)
    (opts : HistoryOptions) :
    filterTransactions entries accountID opts =
      if (entries.map Prod.snd).filter (specKeep accountID opts.FromDate opts.ToDate) = [] then none
      else some ((entries.map Prod.snd).filter (specKeep accountID opts.FromDate opts.ToDate)) := by
  have key : ∀ (es : List (String × Transaction)) (acc : Slice Transaction),
      es.foldl (fun acc kv => filterStep accountID opts acc kv.2) acc =
        if (es.map Prod.snd).filter (specKeep accountID opts.FromDate opts.ToDate) = [] then acc
        else some (Slice.toList acc ++
          (es.map Prod.snd).filter (specKeep accountID opts.FromDate opts.ToDate)) := by
    intro es
    induction es with
    | nil => intro acc; simp
    | cons kv rest ih =>
      intro acc
      rw [List.foldl_cons, ih, filterStep_eq]
      by_cases h : specKeep accountID opts.FromDate opts.ToDate kv.2
      · have hf : (List.map Prod.snd (kv :: rest)).filter
            (specKeep accountID opts.FromDate opts.ToDate) =
            kv.2 :: (rest.map Prod.snd).filter (specKeep accountID opts.FromDate opts.ToDate) := by
          rw [List.map_cons, List.filter_cons_of_pos h]
        rw [if_pos h, hf, if_neg (List.cons_ne_nil _ _)]
        by_cases hr : (rest.map Prod.snd).filter (specKeep accountID opts.FromDate opts.ToDate) = []
        · rw [if_pos hr, hr]
          rfl
        · rw [if_neg hr]
          simp [Slice.append, Slice.toList]
      · have hf : (List.map Prod.snd (kv :: rest)).filter
            (specKeep accountID opts.FromDate opts.ToDate) =
            (rest.map Prod.snd).filter (specKeep accountID opts.FromDate opts.ToDate) := by
          rw [List.map_cons, List.filter_cons_of_neg h]
        rw [if_neg h, hf]
  unfold filterTransactions
  rw [key]
  simp [Slice.toList]

/-- Number of elements of the sorted slice: the number of kept entries. -/
theorem sorted_slice_len (entries : List (String × Transaction)) (accountID : String)
    (opts : HistoryOptions) :
    Slice.len ((filterTransactions entries accountID opts).map sortByPostingDate) =
      (((entries.map Prod.snd).filter (specKeep accountID opts.FromDate opts.ToDate)).length :
        Int) := by
  unfold Slice.len
  rw [sorted_slice_toList, (sortByPostingDate_perm _).length_eq, filterTransactions_toList]

/-- C14. For a known account and an offset that is at least the number of
transactions that pass the account and date filter, the query returns no
error and a sequence without elements; when the offset is positive this is
the empty slice the code builds for that case. -/
theorem RetrieveHistory_offset_past_end (p : Provider) (accountID : String)
    (opts : HistoryOptions) (hacc : accountID ∈ p.accounts.map Prod.fst)
    (hoff : opts.Offset ≥
      (((p.transactions.map Prod.snd).filter
        (specKeep accountID opts.FromDate opts.ToDate)).length : Int)) :
    ∃ r, p.RetrievePaymentTransactionHistory accountID opts = .ok r ∧
      Slice.toList r = [] ∧ (opts.Offset > 0 → r = some []) := by
  refine ⟨_, history_of_known p accountID opts hacc, ?_⟩
  have hlen := sorted_slice_len p.transactions accountID opts
  unfold paginate
  dsimp only
  by_cases hpos : opts.Offset > 0
  · have hge : opts.Offset ≥
        Slice.len ((filterTransactions p.transactions accountID opts).map sortByPostingDate) := by
      rw [hlen]
      exact hoff
    rw [if_pos ⟨hpos, hge⟩]
    exact ⟨rfl, fun _ => rfl⟩
  · have hzero : Slice.len
        ((filterTransactions p.transactions accountID opts).map sortByPostingDate) = 0 := by
      rw [hlen]
      omega
    have hnolim : ¬(opts.Limit > 0 ∧ opts.Limit < Slice.len
        ((filterTransactions p.transactions accountID opts).map sortByPostingDate)) := by
      rw [hzero]
      omega
    rw [if_neg (fun h => hpos h.1), if_neg hpos, if_neg hnolim]
    refine ⟨?_, fun h => absurd h hpos⟩
    unfold Slice.len at hzero
    exact List.length_eq_zero.mp (by exact_mod_cast hzero)

/-- Witness of C14: acc-001 has 5 transactions; offset 10 with limit 2 returns
the empty slice and no error. -/
theorem RetrieveHistory_offset_past_end_witness :
    (∃ r, (NewProvider 1700000000000000000).RetrievePaymentTransactionHistory "acc-001"
        ⟨none, none, 2, 10⟩ = .ok r ∧ Slice.toList r = [] ∧ ((10 : Int) > 0 → r = some [])) ∧
    (((NewProvider 1700000000000000000).transactions.map Prod.snd).filter
      (specKeep "acc-001" none none)).length = 5 ∧
    (NewProvider 1700000000000000000).RetrievePaymentTransactionHistory "acc-001"
      ⟨none, none, 2, 10⟩ = .ok (some []) :=
  ⟨RetrieveHistory_offset_past_end (NewProvider 1700000000000000000) "acc-001"
    ⟨none, none, 2, 10⟩ (by decide) (by decide), by decide, by decide⟩

/-- A page with a positive limit holds at most that many elements. -/
theorem paginate_length_le (s : Slice Transaction) (opts : HistoryOptions)
    (hlim : 1 ≤ opts.Limit) :
    ((Slice.toList (paginate s opts)).length : Int) ≤ opts.Limit := by
  unfold paginate
  by_cases h1 : opts.Offset > 0 ∧ opts.Offset ≥ Slice.len s
  · simp only [h1, and_self, if_true, Slice.toList, Option.getD_some, List.length_nil]
    omega
  · simp only [h1, if_false]
    by_cases h2 : opts.Limit > 0 ∧ opts.Limit <
        Slice.len (if opts.Offset > 0 then Slice.sliceFrom s opts.Offset else s)
    · simp only [h2, and_self, if_true]
      cases hs : (if opts.Offset > 0 then Slice.sliceFrom s opts.Offset else s) with
      | none => simp [Slice.sliceTo, Slice.toList]; omega
      | some l =>
        simp only [Slice.sliceTo, Slice.toList, Option.map_some', Option.getD_some,
          List.length_take]
        omega
    · simp only [h2, if_false]
      have hgt : opts.Limit > 0 := by omega
      simp only [hgt, true_and, not_lt] at h2
      exact h2

/-- C15. For a known account and a limit of at least 1 (in particular a limit
between 1 and 500, with any offset and any date filter), the returned
sequence has at most `limit` elements. -/
theorem RetrieveHistory_limit_bound (p : Provider) (accountID : String) (opts : HistoryOptions)
    (hacc : accountID ∈ p.accounts.map Prod.fst) (hlim : 1 ≤ opts.Limit) :
    ∃ r, p.RetrievePaymentTransactionHistory accountID opts = .ok r ∧
      ((Slice.toList r).length : Int) ≤ opts.Limit :=
  ⟨_, history_of_known p accountID opts hacc, paginate_length_le _ opts hlim⟩

/-- Witness of C15: the sample history of acc-001 with limit 2 and with limit
500. -/
theorem RetrieveHistory_limit_bound_witness :
    (∃ r, (NewProvider 1700000000000000000).RetrievePaymentTransactionHistory "acc-001"
        ⟨none, none, 2, 1⟩ = .ok r ∧ ((Slice.toList r).length : Int) ≤ 2) ∧
    (∃ r, (NewProvider 1700000000000000000).RetrievePaymentTransactionHistory "acc-001"
        ⟨none, none, 500, 0⟩ = .ok r ∧ ((Slice.toList r).length : Int) ≤ 500) ∧
    (((NewProvider 1700000000000000000).RetrievePaymentTransactionHistory "acc-001"
        ⟨none, none, 2, 1⟩).toOption.map (fun r => (Slice.toList r).map (fun tx => tx.ID))) =
      some ["tx-002", "tx-003"] :=
  ⟨RetrieveHistory_limit_bound (NewProvider 1700000000000000000) "acc-001" ⟨none, none, 2, 1⟩
    (by decide) (by decide),
   RetrieveHistory_limit_bound (NewProvider 1700000000000000000) "acc-001" ⟨none, none, 500, 0⟩
    (by decide) (by decide), by decide⟩

/-! ## The transaction-history query: nil results, ties and enumeration order -/

/-- For a known account the result is the nil slice exactly when no
transaction passes the filter and the offset is not positive. -/
theorem history_nil_iff (p : Provider) (accountID : String) (opts : HistoryOptions)
    (hacc : accountID ∈ p.accounts.map Prod.fst) :
    p.RetrievePaymentTransactionHistory accountID opts = .ok none ↔
      (p.transactions.map Prod.snd).filter (specKeep accountID opts.FromDate opts.ToDate) = [] ∧
        opts.Offset ≤ 0 := by
  rw [history_of_known p accountID opts hacc, filterTransactions_eq]
  by_cases hk : (p.transactions.map Prod.snd).filter
      (specKeep accountID opts.FromDate opts.ToDate) = []
  · rw [if_pos hk]
    by_cases hpos : opts.Offset > 0
    · have hge : opts.Offset ≥ Slice.len (Option.map sortByPostingDate none) := by
        simp only [Option.map_none', Slice.len, Slice.toList, Option.getD_none, List.length_nil,
          Nat.cast_zero]
        omega
      simp only [paginate, hpos, hge, and_self, if_true, Except.ok.injEq, reduceCtorEq,
        false_iff, not_and, not_le]
      exact fun _ => trivial
    · have hno : ¬(opts.Limit > 0 ∧ opts.Limit < Slice.len (none : Slice Transaction)) := by
        simp only [Slice.len, Slice.toList, Option.getD_none, List.length_nil, Nat.cast_zero]
        omega
      simp only [paginate, Option.map_none', hpos, false_and, if_false, hno, hk, true_and,
        true_iff]
      omega
  · rw [if_neg hk]
    simp only [paginate, Option.map_some', Slice.sliceFrom, Slice.sliceTo, hk, false_and,
      iff_false, Except.ok.injEq]
    split_ifs <;> simp

/-- C16 (the code departs from the claim). For a known account the query
returns the nil slice, not an empty one, exactly when no transaction passes
the account and date filter and the offset is not positive; the empty,
non-nil slice is returned only on the path of a positive offset past the
end. -/
theorem RetrieveHistory_nil_when_nothing_matches (p : Provider) (accountID : String)
    (opts : HistoryOptions) (hacc : accountID ∈ p.accounts.map Prod.fst)
    (hnone : (p.transactions.map Prod.snd).filter
      (specKeep accountID opts.FromDate opts.ToDate) = [])
    (hoff : opts.Offset ≤ 0) :
    p.RetrievePaymentTransactionHistory accountID opts = .ok none :=
  (history_nil_iff p accountID opts hacc).mpr ⟨hnone, hoff⟩

/-- Witness of C16: on the sample store, the history of acc-001 from the
instant of loading on (all its transactions are older) is the nil slice with
offset 0, and the empty non-nil slice with offset 1. -/
theorem RetrieveHistory_nil_when_nothing_matches_witness :
    (NewProvider 1700000000000000000).RetrievePaymentTransactionHistory "acc-001"
      ⟨some 1700000000000000000, none, 0, 0⟩ = .ok none ∧
    (NewProvider 1700000000000000000).RetrievePaymentTransactionHistory "acc-001"
      ⟨some 1700000000000000000, none, 0, 1⟩ = .ok (some []) :=
  ⟨RetrieveHistory_nil_when_nothing_matches (NewProvider 1700000000000000000) "acc-001"
    ⟨some 1700000000000000000, none, 0, 0⟩ (by decide) (by decide) (by decide), by decide⟩

/-- On a slice that is already in descending order no exchange takes place. -/
theorem swapIfBefore_of_sorted (l : List Transaction)
    (hs : l.Pairwise (fun a b => a.PostingDate ≥ b.PostingDate)) (i j : Nat) (hij : i < j) :
    swapIfBefore l i j = l := by
  unfold swapIfBefore
  split
  · rename_i a b ha hb
    obtain ⟨hi, hai⟩ := List.getElem?_eq_some.mp ha
    obtain ⟨hj, hbj⟩ := List.getElem?_eq_some.mp hb
    have hge := (List.pairwise_iff_getElem.mp hs) i j hi hj hij
    rw [hai, hbj] at hge
    have hnb : a.PostingDate.Before b.PostingDate = false := by
      simp only [time.Time.Before, decide_eq_false_iff_not, not_lt]
      exact hge
    simp [hnb]
  · rfl

/-- A loop whose every step leaves the slice as it is leaves it as it is. -/
theorem foldl_fixed (f : List Transaction → Nat → List Transaction) (l : List Transaction) :
    ∀ (ks : List Nat), (∀ k ∈ ks, f l k = l) → ks.foldl f l = l := by
  intro ks
  induction ks with
  | nil => intro _; rfl
  | cons k rest ih =>
    intro h
    rw [List.foldl_cons, h k (List.mem_cons_self _ _)]
    exact ih (fun x hx => h x (List.mem_cons_of_mem _ hx))

/-- The sort leaves a slice that is already in descending order as it is. -/
theorem sortByPostingDate_of_sorted (l : List Transaction)
    (hs : l.Pairwise (fun a b => a.PostingDate ≥ b.PostingDate)) :
    sortByPostingDate l = l := by
  have hinner : ∀ i, sortInner l i = l := by
    intro i
    apply foldl_fixed
    intro k hk
    have := (List.mem_range'_1.mp hk).1
    exact swapIfBefore_of_sorted l hs i k (by omega)
  exact foldl_fixed _ l _ (fun i _ => hinner i)

/-- Counterexample to C17 as stated: the store enumerates t1 and t2, both
posted at instant 1, then t3 posted at instant 2; the result is t3, t2, t1,
so the two transactions posted at instant 1 come out in the reverse of the
order in which they were enumerated. -/
theorem RetrieveHistory_not_stable :
    (storeOf [txAt "t1" "acc" 1, txAt "t2" "acc" 1,
        txAt "t3" "acc" 2]).RetrievePaymentTransactionHistory "acc" ⟨none, none, 0, 0⟩ =
      .ok (some [txAt "t3" "acc" 2, txAt "t2" "acc" 1, txAt "t1" "acc" 1]) ∧
    ((storeOf [txAt "t1" "acc" 1, txAt "t2" "acc" 1, txAt "t3" "acc" 2]).transactions.map
        Prod.snd).filter (fun tx => decide (tx.PostingDate = 1)) =
      [txAt "t1" "acc" 1, txAt "t2" "acc" 1] ∧
    [txAt "t3" "acc" 2, txAt "t2" "acc" 1, txAt "t1" "acc" 1].filter
        (fun tx => decide (tx.PostingDate = 1)) =
      [txAt "t2" "acc" 1, txAt "t1" "acc" 1] ∧
    [txAt "t3" "acc" 2, txAt "t2" "acc" 1, txAt "t1" "acc" 1].filter
        (fun tx => decide (tx.PostingDate = 1)) ≠
      ((storeOf [txAt "t1" "acc" 1, txAt "t2" "acc" 1, txAt "t3" "acc" 2]).transactions.map
        Prod.snd).filter (fun tx => decide (tx.PostingDate = 1)) := by
  decide

/-- C17 as amended. The ordering step is a sort by posting date, newest
first, of the filtered transactions: the result (offset 0, limit 0) is a
permutation of them in descending order of posting date. It is not a stable
sort; what it keeps is an enumeration that is already in descending order:
then the result is that enumeration, ties included. -/
theorem RetrieveHistory_order_of_ties (p : Provider) (accountID : String)
    (fromDate toDate : Option time.Time) (hacc : accountID ∈ p.accounts.map Prod.fst) :
    ∃ r, p.RetrievePaymentTransactionHistory accountID ⟨fromDate, toDate, 0, 0⟩ = .ok r ∧
      (Slice.toList r).Perm
        ((p.transactions.map Prod.snd).filter (specKeep accountID fromDate toDate)) ∧
      (Slice.toList r).Pairwise (fun a b => a.PostingDate ≥ b.PostingDate) ∧
      (((p.transactions.map Prod.snd).filter (specKeep accountID fromDate toDate)).Pairwise
          (fun a b => a.PostingDate ≥ b.PostingDate) →
        Slice.toList r =
          (p.transactions.map Prod.snd).filter (specKeep accountID fromDate toDate)) := by
  refine ⟨_, history_of_known p accountID _ hacc, ?_⟩
  have e : Slice.toList (paginate
      ((filterTransactions p.transactions accountID ⟨fromDate, toDate, 0, 0⟩).map
        sortByPostingDate) ⟨fromDate, toDate, 0, 0⟩) =
      sortByPostingDate
        ((p.transactions.map Prod.snd).filter (specKeep accountID fromDate toDate)) := by
    have e0 : paginate
        ((filterTransactions p.transactions accountID ⟨fromDate, toDate, 0, 0⟩).map
          sortByPostingDate) ⟨fromDate, toDate, 0, 0⟩ =
        (filterTransactions p.transactions accountID ⟨fromDate, toDate, 0, 0⟩).map
          sortByPostingDate := by
      simp only [paginate, lt_self_iff_false, false_and, if_false]
    rw [e0, sorted_slice_toList, filterTransactions_toList]
  rw [e]
  exact ⟨sortByPostingDate_perm _, sortByPostingDate_sorted _, sortByPostingDate_of_sorted _⟩

/-- Witness of C17 as amended: the sample history of acc-001, enumerated in
the order in which the map was filled, which is newest first. -/
theorem RetrieveHistory_order_of_ties_witness :
    (∃ r, (NewProvider 1700000000000000000).RetrievePaymentTransactionHistory "acc-001"
        ⟨none, none, 0, 0⟩ = .ok r ∧
      (Slice.toList r).Perm
        (((NewProvider 1700000000000000000).transactions.map Prod.snd).filter
          (specKeep "acc-001" none none)) ∧
      (Slice.toList r).Pairwise (fun a b => a.PostingDate ≥ b.PostingDate) ∧
      ((((NewProvider 1700000000000000000).transactions.map Prod.snd).filter
          (specKeep "acc-001" none none)).Pairwise
          (fun a b => a.PostingDate ≥ b.PostingDate) →
        Slice.toList r =
          ((NewProvider 1700000000000000000).transactions.map Prod.snd).filter
            (specKeep "acc-001" none none))) ∧
    (((NewProvider 1700000000000000000).transactions.map Prod.snd).filter
      (specKeep "acc-001" none none)).Pairwise (fun a b => a.PostingDate ≥ b.PostingDate) :=
  ⟨RetrieveHistory_order_of_ties (NewProvider 1700000000000000000) "acc-001" none none
    (by decide), by decide⟩

/-- The posting dates of the sorted slice depend on the elements given to the
sort, not on their order. -/
theorem sorted_dates_of_perm (l1 l2 : List Transaction) (h : l1.Perm l2) :
    (sortByPostingDate l1).map (fun tx => tx.PostingDate) =
      (sortByPostingDate l2).map (fun tx => tx.PostingDate) := by
  have hp : ((sortByPostingDate l1).map (fun tx => tx.PostingDate)).Perm
      ((sortByPostingDate l2).map (fun tx => tx.PostingDate)) :=
    (((sortByPostingDate_perm l1).trans h).trans (sortByPostingDate_perm l2).symm).map _
  have hs : ∀ l : List Transaction,
      ((sortByPostingDate l).map (fun tx => tx.PostingDate)).Sorted (fun x y : Int => x ≥ y) := by
    intro l
    unfold List.Sorted
    rw [List.pairwise_map]
    exact (sortByPostingDate_sorted l).imp (fun hab => hab)
  exact List.eq_of_perm_of_sorted hp (hs l1) (hs l2)

/-- The posting dates of a page depend on the posting dates of the sorted
slice only. -/
theorem paginate_dates_congr (s1 s2 : Slice Transaction) (opts : HistoryOptions)
    (h : Slice.dates s1 = Slice.dates s2) :
    Slice.dates (paginate s1 opts) = Slice.dates (paginate s2 opts) := by
  cases s1 with
  | none =>
    cases s2 with
    | none => rfl
    | some l2 => simp [Slice.dates] at h
  | some l1 =>
    cases s2 with
    | none => simp [Slice.dates] at h
    | some l2 =>
      have hm : l1.map (fun tx => tx.PostingDate) = l2.map (fun tx => tx.PostingDate) := by
        simpa [Slice.dates] using h
      have hl : l1.length = l2.length := by
        have := congrArg List.length hm
        simpa using this
      simp only [paginate, Slice.len, Slice.toList, Slice.sliceFrom, Slice.sliceTo,
        Option.getD_some, Option.map_some', hl, List.length_drop]
      split_ifs <;>
        first
        | (simp only [Slice.dates, Option.map_some', List.map_take, List.map_drop, hm,
            List.map_nil]; done)
        | (exfalso; simp only [Option.getD_some, List.length_drop, hl] at *; omega)

/-- Counterexample to C18 as stated: the same two transactions, both posted at
instant 1, enumerated as t1, t2 and as t2, t1 give the results t1, t2 and
t2, t1. -/
theorem RetrieveHistory_depends_on_enumeration :
    (storeOf [txAt "t1" "acc" 1, txAt "t2" "acc" 1]).accounts =
      (storeOf [txAt "t2" "acc" 1, txAt "t1" "acc" 1]).accounts ∧
    (storeOf [txAt "t1" "acc" 1, txAt "t2" "acc" 1]).transactions.Perm
      (storeOf [txAt "t2" "acc" 1, txAt "t1" "acc" 1]).transactions ∧
    (storeOf [txAt "t1" "acc" 1, txAt "t2" "acc" 1]).RetrievePaymentTransactionHistory "acc"
      ⟨none, none, 0, 0⟩ = .ok (some [txAt "t1" "acc" 1, txAt "t2" "acc" 1]) ∧
    (storeOf [txAt "t2" "acc" 1, txAt "t1" "acc" 1]).RetrievePaymentTransactionHistory "acc"
      ⟨none, none, 0, 0⟩ = .ok (some [txAt "t2" "acc" 1, txAt "t1" "acc" 1]) ∧
    (storeOf [txAt "t1" "acc" 1, txAt "t2" "acc" 1]).RetrievePaymentTransactionHistory "acc"
      ⟨none, none, 0, 0⟩ ≠
    (storeOf [txAt "t2" "acc" 1, txAt "t1" "acc" 1]).RetrievePaymentTransactionHistory "acc"
      ⟨none, none, 0, 0⟩ :=
  ⟨rfl, List.Perm.swap _ _ _, by decide, by decide, by decide⟩

/-- C18 as amended. For fixed accounts, a fixed account id and fixed options,
two enumeration orders of the same transactions give the same outcome up to
the choice among transactions with equal posting date: the same error, or
results that are nil together and carry the same sequence of posting dates
(so the same length). -/
theorem RetrieveHistory_dates_independent_of_enumeration (accounts : List (String × Account))
    (e1 e2 : List (String × Transaction)) (hperm : e1.Perm e2) (accountID : String)
    (opts : HistoryOptions) :
    ((Provider.mk accounts e1).RetrievePaymentTransactionHistory accountID opts).map Slice.dates =
      ((Provider.mk accounts e2).RetrievePaymentTransactionHistory accountID opts).map
        Slice.dates := by
  by_cases hacc : accountID ∈ accounts.map Prod.fst
  · rw [history_of_known ⟨accounts, e1⟩ accountID opts hacc,
      history_of_known ⟨accounts, e2⟩ accountID opts hacc]
    simp only [Except.map]
    congr 1
    apply paginate_dates_congr
    have hk : ((e1.map Prod.snd).filter (specKeep accountID opts.FromDate opts.ToDate)).Perm
        ((e2.map Prod.snd).filter (specKeep accountID opts.FromDate opts.ToDate)) :=
      (hperm.map _).filter _
    rw [filterTransactions_eq, filterTransactions_eq]
    by_cases h1 : (e1.map Prod.snd).filter (specKeep accountID opts.FromDate opts.ToDate) = []
    · have h2 : (e2.map Prod.snd).filter (specKeep accountID opts.FromDate opts.ToDate) = [] := by
        rw [h1] at hk
        exact List.Perm.nil_eq hk |>.symm
      rw [if_pos h1, if_pos h2]
    · have h2 : (e2.map Prod.snd).filter (specKeep accountID opts.FromDate opts.ToDate) ≠ [] := by
        intro h2
        rw [h2] at hk
        exact h1 (List.Perm.eq_nil hk)
      rw [if_neg h1, if_neg h2]
      simp only [Slice.dates, Option.map_some', Option.some.injEq]
      exact sorted_dates_of_perm _ _ hk
  · rw [history_of_unknown ⟨accounts, e1⟩ accountID opts hacc,
      history_of_unknown ⟨accounts, e2⟩ accountID opts hacc]

/-- Witness of C18 as amended: the sample store enumerated in the order in
which it was filled and in the reverse order; the history of acc-001, second
page of two, carries the same posting dates. -/
theorem RetrieveHistory_dates_independent_of_enumeration_witness :
    ((Provider.mk (loadSampleAccounts 1700000000000000000)
        (loadSampleTransactions 1700000000000000000)).RetrievePaymentTransactionHistory
          "acc-001" ⟨none, none, 2, 2⟩).map Slice.dates =
      ((Provider.mk (loadSampleAccounts 1700000000000000000)
        (loadSampleTransactions 1700000000000000000).reverse).RetrievePaymentTransactionHistory
          "acc-001" ⟨none, none, 2, 2⟩).map Slice.dates ∧
    ((Provider.mk (loadSampleAccounts 1700000000000000000)
        (loadSampleTransactions 1700000000000000000).reverse).RetrievePaymentTransactionHistory
          "acc-001" ⟨none, none, 2, 2⟩).map Slice.dates =
      .ok (some [1700000000000000000 - 5 * time.day, 1700000000000000000 - 7 * time.day]) :=
  ⟨RetrieveHistory_dates_independent_of_enumeration _ _ _
    (List.reverse_perm (loadSampleTransactions 1700000000000000000)).symm "acc-001"
    ⟨none, none, 2, 2⟩, by decide⟩

end mock

/-! ## Money: associativity, multiplication and the atomicity of decoding -/

namespace models

open decimal

/-- C21. For three Money values of one currency, `(a.Add(b)).Add(c)` and
`a.Add(b.Add(c))` both succeed and their results are `Equal`. -/
theorem Money_Add_assoc (a b c : Money) (hab : a.Currency = b.Currency)
    (hbc : b.Currency = c.Currency) :
    ∃ ab r1 bc r2, a.Add b = .ok ab ∧ ab.Add c = .ok r1 ∧ b.Add c = .ok bc ∧
      a.Add bc = .ok r2 ∧ r1.Equal r2 = true := by
  refine ⟨⟨a.Amount.Add b.Amount, a.Currency⟩, ⟨(a.Amount.Add b.Amount).Add c.Amount, a.Currency⟩,
    ⟨b.Amount.Add c.Amount, b.Currency⟩, ⟨a.Amount.Add (b.Amount.Add c.Amount), a.Currency⟩,
    ?_, ?_, ?_, ?_, ?_⟩
  · simp [Money.Add, hab]
  · simp [Money.Add, hab, hbc]
  · simp [Money.Add, hbc]
  · simp [Money.Add, hab]
  · simp only [Money.Equal, beq_self_eq_true, Bool.true_and]
    rw [Decimal.Equal_iff]
    simp only [Decimal.Add_toRat]
    ring

/-- Witness of C21: 100.50, 50.25 and 0.005 AUD add up to 150.755 AUD in both
groupings. -/
theorem Money_Add_assoc_witness :
    (∃ ab r1 bc r2,
      Money.Add ⟨⟨1005, -1⟩, "AUD"⟩ ⟨⟨5025, -2⟩, "AUD"⟩ = .ok ab ∧
      ab.Add ⟨⟨5, -3⟩, "AUD"⟩ = .ok r1 ∧
      Money.Add ⟨⟨5025, -2⟩, "AUD"⟩ ⟨⟨5, -3⟩, "AUD"⟩ = .ok bc ∧
      Money.Add ⟨⟨1005, -1⟩, "AUD"⟩ bc = .ok r2 ∧ r1.Equal r2 = true) ∧
    (Money.Add ⟨⟨1005, -1⟩, "AUD"⟩ ⟨⟨5025, -2⟩, "AUD"⟩).bind
        (fun ab => ab.Add ⟨⟨5, -3⟩, "AUD"⟩) = .ok ⟨⟨150755, -3⟩, "AUD"⟩ :=
  ⟨Money_Add_assoc ⟨⟨1005, -1⟩, "AUD"⟩ ⟨⟨5025, -2⟩, "AUD"⟩ ⟨⟨5, -3⟩, "AUD"⟩ rfl rfl, by decide⟩

/-- Counterexample to C22 as stated: with 3, 2 and 1 AUD, `(a - b) - c` is
0 AUD and `a - (b - c)` is 2 AUD, which are not `Equal`. -/
theorem Money_Subtract_not_assoc :
    (Money.Subtract ⟨⟨3, 0⟩, "AUD"⟩ ⟨⟨2, 0⟩, "AUD"⟩).bind
        (fun ab => ab.Subtract ⟨⟨1, 0⟩, "AUD"⟩) = .ok ⟨⟨0, 0⟩, "AUD"⟩ ∧
    (Money.Subtract ⟨⟨2, 0⟩, "AUD"⟩ ⟨⟨1, 0⟩, "AUD"⟩).bind
        (fun bc => Money.Subtract ⟨⟨3, 0⟩, "AUD"⟩ bc) = .ok ⟨⟨2, 0⟩, "AUD"⟩ ∧
    Money.Equal ⟨⟨0, 0⟩, "AUD"⟩ ⟨⟨2, 0⟩, "AUD"⟩ = false := by
  decide

/-- C22 as amended. For three Money values of one currency,
`(a.Subtract(b)).Subtract(c)` and `a.Subtract(b.Subtract(c))` both succeed;
their results are `Equal` exactly when the amount of `c` is zero, and
`(a.Subtract(b)).Subtract(c)` is `Equal` to `a.Subtract(b.Add(c))`. -/
theorem Money_Subtract_grouping (a b c : Money) (hab : a.Currency = b.Currency)
    (hbc : b.Currency = c.Currency) :
    ∃ ab r1 bc r2 bpc r3, a.Subtract b = .ok ab ∧ ab.Subtract c = .ok r1 ∧
      b.Subtract c = .ok bc ∧ a.Subtract bc = .ok r2 ∧
      b.Add c = .ok bpc ∧ a.Subtract bpc = .ok r3 ∧
      (r1.Equal r2 = true ↔ c.Amount.toRat = 0) ∧ r1.Equal r3 = true := by
  refine ⟨⟨a.Amount.Sub b.Amount, a.Currency⟩, ⟨(a.Amount.Sub b.Amount).Sub c.Amount, a.Currency⟩,
    ⟨b.Amount.Sub c.Amount, b.Currency⟩, ⟨a.Amount.Sub (b.Amount.Sub c.Amount), a.Currency⟩,
    ⟨b.Amount.Add c.Amount, b.Currency⟩, ⟨a.Amount.Sub (b.Amount.Add c.Amount), a.Currency⟩,
    ?_, ?_, ?_, ?_, ?_, ?_, ?_, ?_⟩
  · simp [Money.Subtract, hab]
  · simp [Money.Subtract, hab, hbc]
  · simp [Money.Subtract, hbc]
  · simp [Money.Subtract, hab]
  · simp [Money.Add, hbc]
  · simp [Money.Subtract, hab]
  · simp only [Money.Equal, beq_self_eq_true, Bool.true_and]
    rw [Decimal.Equal_iff]
    simp only [Decimal.Sub_toRat]
    constructor
    · intro h
      linarith
    · intro h
      rw [h]
      ring
  · simp only [Money.Equal, beq_self_eq_true, Bool.true_and]
    rw [Decimal.Equal_iff]
    simp only [Decimal.Sub_toRat, Decimal.Add_toRat]
    ring

/-- Witness of C22 as amended: 3, 2 and 1 AUD. -/
theorem Money_Subtract_grouping_witness :
    ∃ ab r1 bc r2 bpc r3,
      Money.Subtract ⟨⟨3, 0⟩, "AUD"⟩ ⟨⟨2, 0⟩, "AUD"⟩ = .ok ab ∧
      ab.Subtract ⟨⟨1, 0⟩, "AUD"⟩ = .ok r1 ∧
      Money.Subtract ⟨⟨2, 0⟩, "AUD"⟩ ⟨⟨1, 0⟩, "AUD"⟩ = .ok bc ∧
      Money.Subtract ⟨⟨3, 0⟩, "AUD"⟩ bc = .ok r2 ∧
      Money.Add ⟨⟨2, 0⟩, "AUD"⟩ ⟨⟨1, 0⟩, "AUD"⟩ = .ok bpc ∧
      Money.Subtract ⟨⟨3, 0⟩, "AUD"⟩ bpc = .ok r3 ∧
      (r1.Equal r2 = true ↔ (Decimal.mk 1 0).toRat = 0) ∧ r1.Equal r3 = true :=
  Money_Subtract_grouping ⟨⟨3, 0⟩, "AUD"⟩ ⟨⟨2, 0⟩, "AUD"⟩ ⟨⟨1, 0⟩, "AUD"⟩ rfl rfl

/-- Counterexample to C24 as stated: `Multiply` of 1e-2000000000 AUD by the
factor 1e-2000000000 does not return a Money: the sum -4000000000 of the two
exponents is outside `int32` and the decimal library panics. -/
theorem Money_Multiply_panics :
    Money.Multiply ⟨⟨1, -2000000000⟩, "AUD"⟩ ⟨1, -2000000000⟩ = none ∧
    (¬∃ r, Money.Multiply ⟨⟨1, -2000000000⟩, "AUD"⟩ ⟨1, -2000000000⟩ = some r) := by
  have h : Money.Multiply ⟨⟨1, -2000000000⟩, "AUD"⟩ ⟨1, -2000000000⟩ = none := by decide
  refine ⟨h, ?_⟩
  rintro ⟨r, hr⟩
  rw [h] at hr
  cases hr

/-- C24 as amended. `Money.Multiply` has no error result: for every Money and
every factor, zero and negative factors included, whose exponents have a sum
in the range of `int32`, it returns a Money with the currency of the
receiver whose amount denotes the exact product; when the sum of the two
exponents is outside `int32` it panics (in the decimal library). -/
theorem Money_Multiply_contract (m : Money) (factor : Decimal) :
    (-2147483648 ≤ m.Amount.exp + factor.exp ∧ m.Amount.exp + factor.exp ≤ 2147483647 →
      ∃ r, m.Multiply factor = some r ∧ r.Currency = m.Currency ∧
        r.Amount.toRat = m.Amount.toRat * factor.toRat) ∧
    (¬(-2147483648 ≤ m.Amount.exp + factor.exp ∧ m.Amount.exp + factor.exp ≤ 2147483647) →
      m.Multiply factor = none) := by
  constructor
  · intro hr
    have hm := Decimal.Mul_of_inRange m.Amount factor hr.1 hr.2
    refine ⟨⟨⟨m.Amount.value * factor.value, m.Amount.exp + factor.exp⟩, m.Currency⟩, ?_, rfl,
      Decimal.Mul_toRat _ _ _ hm⟩
    simp only [Money.Multiply, hm]
  · intro hr
    have hm := Decimal.Mul_of_overflow m.Amount factor (by omega)
    simp only [Money.Multiply, hm]

/-- Witness of C24 as amended: 100.00 AUD times 1.5 is 150.00 AUD, times 0 is
zero, and times -2 is -200 AUD. -/
theorem Money_Multiply_contract_witness :
    (∃ r, Money.Multiply ⟨⟨100, 0⟩, "AUD"⟩ ⟨15, -1⟩ = some r ∧ r.Currency = "AUD" ∧
      r.Amount.toRat = (Decimal.mk 100 0).toRat * (Decimal.mk 15 (-1)).toRat) ∧
    (∃ r, Money.Multiply ⟨⟨100, 0⟩, "AUD"⟩ ⟨15, -1⟩ = some r ∧
      r.Equal ⟨⟨150, 0⟩, "AUD"⟩ = true) ∧
    (∃ r, Money.Multiply ⟨⟨100, 0⟩, "AUD"⟩ ⟨0, 0⟩ = some r ∧ r.IsZero = true) ∧
    (∃ r, Money.Multiply ⟨⟨100, 0⟩, "AUD"⟩ ⟨-2, 0⟩ = some r ∧
      r.Equal ⟨⟨-200, 0⟩, "AUD"⟩ = true) :=
  ⟨(Money_Multiply_contract ⟨⟨100, 0⟩, "AUD"⟩ ⟨15, -1⟩).1 (by decide),
   ⟨_, rfl, by decide⟩, ⟨_, rfl, by decide⟩, ⟨_, rfl, by decide⟩⟩

/-- C29. When `UnmarshalJSON` returns an error, the receiver is exactly as it
was before the call. -/
theorem UnmarshalJSON_atomic (m : Money) (data : String)
    (h : (m.UnmarshalJSON data).2 ≠ none) : (m.UnmarshalJSON data).1 = m := by
  unfold Money.UnmarshalJSON at h ⊢
  cases hu : (json.Unmarshal data { Amount := "", Currency := "" }).2 with
  | some e => simp only [hu]
  | none =>
    simp only [hu] at h ⊢
    cases hp : Decimal.NewFromString
        (json.Unmarshal data { Amount := "", Currency := "" }).1.Amount with
    | error e => simp only [hp]
    | ok d =>
      simp only [hp] at h ⊢
      cases hv : validateCurrency
          (json.Unmarshal data { Amount := "", Currency := "" }).1.Currency with
      | some e => simp only [hv]
      | none => simp [hv] at h

/-- Witness of C29: a valid amount with an invalid currency, an invalid
amount, and a malformed document all leave 7 GBP as it is. -/
theorem UnmarshalJSON_atomic_witness :
    (Money.UnmarshalJSON ⟨⟨7, 0⟩, "GBP"⟩ "\x7b\"amount\":\"1.50\",\"currency\":\"XXX\"\x7d").1 =
      ⟨⟨7, 0⟩, "GBP"⟩ ∧
    (Money.UnmarshalJSON ⟨⟨7, 0⟩, "GBP"⟩ "\x7b\"amount\":\"1.50\",\"currency\":\"XXX\"\x7d").2 =
      some "invalid currency code: XXX" ∧
    Money.UnmarshalJSON ⟨⟨7, 0⟩, "GBP"⟩ "\x7b\"amount\":\"abc\",\"currency\":\"AUD\"\x7d" =
      (⟨⟨7, 0⟩, "GBP"⟩, some "invalid amount: can't convert abc to decimal") ∧
    Money.UnmarshalJSON ⟨⟨7, 0⟩, "GBP"⟩ "\x7b\"amount\":" =
      (⟨⟨7, 0⟩, "GBP"⟩, some "json: syntax error") :=
  ⟨UnmarshalJSON_atomic ⟨⟨7, 0⟩, "GBP"⟩ _ (by decide), by decide, by decide, by decide⟩

end models

/-! ## The transaction-history query: pages, enumeration order and limits -/

namespace mock

open models domains

/-- Taking at most the length of a list is taking. -/
theorem take_min_length {α : Type} (l : List α) (a : Nat) :
    l.take (min a l.length) = l.take a := by
  rcases le_total a l.length with h | h
  · rw [min_eq_left h]
  · rw [min_eq_right h, List.take_length, List.take_of_length_le h]

/-- Two consecutive windows of a list make up the window that spans them. -/
theorem window_append {α : Type} (l : List α) (o a b : Nat) (hoa : o ≤ a) (hab : a ≤ b) :
    (l.take a).drop o ++ (l.take b).drop a = (l.take b).drop o := by
  have h1 : l.take a = (l.take b).take a := by
    rw [List.take_take, min_eq_left hab]
  rw [h1, List.drop_take]
  have h2 : (l.take b).drop a = ((l.take b).drop o).drop (a - o) := by
    rw [List.drop_drop]
    congr 1
    omega
  rw [h2, List.take_append_drop]

/-- C27. For one enumeration of the store, a known account, a date filter, an
offset `o ≥ 0` and limits `l1 > 0` and `l2 > 0`, the page (o, l1) followed by
the page (o + l1, l2) is, as a sequence, the page (o, l1 + l2). -/
theorem RetrieveHistory_pages_tile (p : Provider) (accountID : String)
    (fromDate toDate : Option time.Time) (o l1 l2 : Int)
    (hacc : accountID ∈ p.accounts.map Prod.fst) (ho : 0 ≤ o) (h1 : 0 < l1) (h2 : 0 < l2) :
    ∃ r1 r2 r12,
      p.RetrievePaymentTransactionHistory accountID ⟨fromDate, toDate, l1, o⟩ = .ok r1 ∧
      p.RetrievePaymentTransactionHistory accountID ⟨fromDate, toDate, l2, o + l1⟩ = .ok r2 ∧
      p.RetrievePaymentTransactionHistory accountID ⟨fromDate, toDate, l1 + l2, o⟩ = .ok r12 ∧
      Slice.toList r1 ++ Slice.toList r2 = Slice.toList r12 := by
  obtain ⟨k0, rfl⟩ := Int.eq_ofNat_of_zero_le ho
  obtain ⟨n1, rfl⟩ := Int.eq_ofNat_of_zero_le (le_of_lt h1)
  obtain ⟨n2, rfl⟩ := Int.eq_ofNat_of_zero_le (le_of_lt h2)
  have hn1 : 0 < n1 := by omega
  have hn2 : 0 < n2 := by omega
  refine ⟨_, _, _, history_of_known p accountID _ hacc, history_of_known p accountID _ hacc,
    history_of_known p accountID _ hacc, ?_⟩
  have e2 : ((k0 : Int) + (n1 : Int)) = ((k0 + n1 : Nat) : Int) := by push_cast; rfl
  have e12 : ((n1 : Int) + (n2 : Int)) = ((n1 + n2 : Nat) : Int) := by push_cast; rfl
  have hs : ∀ (l o : Int),
      (filterTransactions p.transactions accountID ⟨fromDate, toDate, l, o⟩).map
        sortByPostingDate =
      (filterTransactions p.transactions accountID ⟨fromDate, toDate, 0, 0⟩).map
        sortByPostingDate := fun _ _ => rfl
  rw [hs, hs ((n2 : Int)), hs ((n1 : Int) + (n2 : Int)), e2, e12, paginate_window, paginate_window,
    paginate_window]
  have g1 : n1 > 0 := hn1
  have g2 : n2 > 0 := hn2
  have g3 : n1 + n2 > 0 := by omega
  simp only [g1, g2, g3, if_true]
  generalize Slice.toList ((filterTransactions p.transactions accountID
    ⟨fromDate, toDate, 0, 0⟩).map sortByPostingDate) = l
  rw [take_min_length, take_min_length, take_min_length,
    show k0 + (n1 + n2) = k0 + n1 + n2 by omega]
  exact window_append l k0 (k0 + n1) (k0 + n1 + n2) (by omega) (by omega)

/-- Witness of C27: on the sample store, the first page of one transaction
of acc-001 (tx-001) followed by the second page of one (tx-002) is the first
page of two. -/
theorem RetrieveHistory_pages_tile_witness :
    (∃ r1 r2 r12,
      (NewProvider 1700000000000000000).RetrievePaymentTransactionHistory "acc-001"
        ⟨none, none, 1, 0⟩ = .ok r1 ∧
      (NewProvider 1700000000000000000).RetrievePaymentTransactionHistory "acc-001"
        ⟨none, none, 1, 0 + 1⟩ = .ok r2 ∧
      (NewProvider 1700000000000000000).RetrievePaymentTransactionHistory "acc-001"
        ⟨none, none, 1 + 1, 0⟩ = .ok r12 ∧
      Slice.toList r1 ++ Slice.toList r2 = Slice.toList r12) ∧
    (((NewProvider 1700000000000000000).RetrievePaymentTransactionHistory "acc-001"
        ⟨none, none, 1, 0⟩).toOption.map (fun r => (Slice.toList r).map (fun tx => tx.ID))) =
      some ["tx-001"] ∧
    (((NewProvider 1700000000000000000).RetrievePaymentTransactionHistory "acc-001"
        ⟨none, none, 1, 1⟩).toOption.map (fun r => (Slice.toList r).map (fun tx => tx.ID))) =
      some ["tx-002"] ∧
    (((NewProvider 1700000000000000000).RetrievePaymentTransactionHistory "acc-001"
        ⟨none, none, 2, 0⟩).toOption.map (fun r => (Slice.toList r).map (fun tx => tx.ID))) =
      some ["tx-001", "tx-002"] :=
  ⟨RetrieveHistory_pages_tile (NewProvider 1700000000000000000) "acc-001" none none 0 1 1
    (by decide) (by decide) (by decide) (by decide), by decide, by decide, by decide⟩

/-- Two lists with the same elements and the same images under a function
that takes no value twice on them are the same list. -/
theorem eq_of_perm_of_map_eq {α β : Type} (f : α → β) :
    ∀ (l1 l2 : List α), l1.Perm l2 → l1.map f = l2.map f → (l1.map f).Nodup → l1 = l2 := by
  intro l1
  induction l1 with
  | nil =>
    intro l2 hp _ _
    exact (List.Perm.nil_eq hp)
  | cons a t ih =>
    intro l2 hp hm hn
    cases l2 with
    | nil => exact absurd (List.Perm.eq_nil hp) (List.cons_ne_nil _ _)
    | cons b t2 =>
      simp only [List.map_cons, List.cons.injEq] at hm
      have hb : b ∈ a :: t := hp.symm.subset (List.mem_cons_self _ _)
      have hab : a = b := by
        rcases List.mem_cons.mp hb with h | h
        · exact h.symm
        · exfalso
          rw [List.map_cons, List.nodup_cons] at hn
          apply hn.1
          rw [hm.1]
          exact List.mem_map_of_mem f h
      subst hab
      rw [List.map_cons, List.nodup_cons] at hn
      rw [ih t2 (List.Perm.cons_inv hp) hm.2 hn.2]

/-- The transactions kept by the filter are among those of the account. -/
theorem specKeep_sublist (l : List Transaction) (accountID : String)
    (fromDate toDate : Option time.Time) :
    (l.filter (specKeep accountID fromDate toDate)).Sublist
      (l.filter (fun tx => decide (tx.AccountID = accountID))) := by
  apply List.monotone_filter_right
  intro a hk
  simp only [specKeep, Bool.and_eq_true] at hk
  exact hk.1.1

/-- C28. When the transactions of the requested account have pairwise
distinct posting dates, two enumeration orders of the same store give the
same outcome of the query, for every account id (known or not) and every
options value: the same error or the same sequence. -/
theorem RetrieveHistory_independent_of_enumeration (accounts : List (String × Account))
    (e1 e2 : List (String × Transaction)) (hperm : e1.Perm e2) (accountID : String)
    (opts : HistoryOptions)
    (hdistinct : (((e1.map Prod.snd).filter (fun tx => decide (tx.AccountID = accountID))).map
      (fun tx => tx.PostingDate)).Nodup) :
    (Provider.mk accounts e1).RetrievePaymentTransactionHistory accountID opts =
      (Provider.mk accounts e2).RetrievePaymentTransactionHistory accountID opts := by
  by_cases hacc : accountID ∈ accounts.map Prod.fst
  · rw [history_of_known ⟨accounts, e1⟩ accountID opts hacc,
      history_of_known ⟨accounts, e2⟩ accountID opts hacc]
    have hk : ((e1.map Prod.snd).filter (specKeep accountID opts.FromDate opts.ToDate)).Perm
        ((e2.map Prod.snd).filter (specKeep accountID opts.FromDate opts.ToDate)) :=
      (hperm.map _).filter _
    have hn : (((e1.map Prod.snd).filter (specKeep accountID opts.FromDate opts.ToDate)).map
        (fun tx => tx.PostingDate)).Nodup :=
      ((specKeep_sublist _ accountID opts.FromDate opts.ToDate).map _).nodup hdistinct
    have hsort : sortByPostingDate
          ((e1.map Prod.snd).filter (specKeep accountID opts.FromDate opts.ToDate)) =
        sortByPostingDate
          ((e2.map Prod.snd).filter (specKeep accountID opts.FromDate opts.ToDate)) := by
      apply eq_of_perm_of_map_eq (fun tx : Transaction => tx.PostingDate)
      · exact ((sortByPostingDate_perm _).trans hk).trans (sortByPostingDate_perm _).symm
      · exact sorted_dates_of_perm _ _ hk
      · exact (((sortByPostingDate_perm _).map _).nodup_iff).mpr hn
    congr 2
    rw [filterTransactions_eq, filterTransactions_eq]
    by_cases h1 : (e1.map Prod.snd).filter (specKeep accountID opts.FromDate opts.ToDate) = []
    · have h2 : (e2.map Prod.snd).filter (specKeep accountID opts.FromDate opts.ToDate) = [] := by
        rw [h1] at hk
        exact List.Perm.nil_eq hk |>.symm
      rw [if_pos h1, if_pos h2]
    · have h2 : (e2.map Prod.snd).filter (specKeep accountID opts.FromDate opts.ToDate) ≠ [] := by
        intro h2
        rw [h2] at hk
        exact h1 (List.Perm.eq_nil hk)
      rw [if_neg h1, if_neg h2]
      simp only [Option.map_some', hsort]
  · rw [history_of_unknown ⟨accounts, e1⟩ accountID opts hacc,
      history_of_unknown ⟨accounts, e2⟩ accountID opts hacc]

/-- Witness of C28: the sample store, whose transactions of acc-001 are
posted 1, 3, 5, 7 and 10 days before the instant of loading, enumerated in
the order in which it was filled and in the reverse order. -/
theorem RetrieveHistory_independent_of_enumeration_witness :
    (Provider.mk (loadSampleAccounts 1700000000000000000)
        (loadSampleTransactions 1700000000000000000)).RetrievePaymentTransactionHistory
          "acc-001" ⟨none, none, 2, 1⟩ =
      (Provider.mk (loadSampleAccounts 1700000000000000000)
        (loadSampleTransactions 1700000000000000000).reverse).RetrievePaymentTransactionHistory
          "acc-001" ⟨none, none, 2, 1⟩ ∧
    (((Provider.mk (loadSampleAccounts 1700000000000000000)
        (loadSampleTransactions 1700000000000000000).reverse).RetrievePaymentTransactionHistory
          "acc-001" ⟨none, none, 2, 1⟩).toOption.map
      (fun r => (Slice.toList r).map (fun tx => tx.ID))) = some ["tx-002", "tx-003"] :=
  ⟨RetrieveHistory_independent_of_enumeration _ _ _
    (List.reverse_perm (loadSampleTransactions 1700000000000000000)).symm "acc-001"
    ⟨none, none, 2, 1⟩ (by decide), by decide⟩

/-- With offset 0, the number of transactions returned for a known account is
the number of transactions that pass the filter, cut to the limit when the
limit is positive: no other bound applies. -/
theorem history_length_at_offset_zero (p : Provider) (accountID : String)
    (fromDate toDate : Option time.Time) (limit : Nat)
    (hacc : accountID ∈ p.accounts.map Prod.fst) :
    ∃ r, p.RetrievePaymentTransactionHistory accountID ⟨fromDate, toDate, (limit : Int), 0⟩ =
        .ok r ∧
      (Slice.toList r).length =
        if limit > 0 then
          min limit ((p.transactions.map Prod.snd).filter
            (specKeep accountID fromDate toDate)).length
        else ((p.transactions.map Prod.snd).filter (specKeep accountID fromDate toDate)).length := by
  refine ⟨_, history_of_known p accountID _ hacc, ?_⟩
  have hw := paginate_window
    ((filterTransactions p.transactions accountID ⟨fromDate, toDate, (limit : Int), 0⟩).map
      sortByPostingDate) fromDate toDate limit 0
  simp only [Nat.cast_zero, List.drop_zero, Nat.zero_add] at hw
  have hlen : (Slice.toList
      ((filterTransactions p.transactions accountID ⟨fromDate, toDate, (limit : Int), 0⟩).map
        sortByPostingDate)).length =
      ((p.transactions.map Prod.snd).filter (specKeep accountID fromDate toDate)).length := by
    rw [sorted_slice_toList, (sortByPostingDate_perm _).length_eq, filterTransactions_toList]
  rw [hw, List.length_take, hlen]
  split_ifs
  · rw [min_assoc, min_self]
  · rw [min_self]

/-- Every transaction of the store `storeOf (manyTx n)` passes the filter for
the account "acc" without date bounds, and there are `n` of them. -/
theorem manyTx_kept (n : Nat) :
    ((((storeOf (manyTx n)).transactions.map Prod.snd).filter
      (specKeep "acc" none none)).length = n) := by
  have h1 : (storeOf (manyTx n)).transactions.map Prod.snd = manyTx n := by
    simp only [storeOf, List.map_map]
    exact List.map_id _
  have h2 : (manyTx n).filter (specKeep "acc" none none) = manyTx n := by
    rw [List.filter_eq_self]
    intro tx htx
    obtain ⟨i, _, rfl⟩ := List.mem_map.mp htx
    rfl
  rw [h1, h2, manyTx, List.length_map, List.length_range]

/-- C26 (the code departs from the claim). The provider applies no default
and no maximum to the number of transactions returned: with the limit left
at 0, a store of 51 transactions of one account gives all 51 and a store of
501 gives all 501, and so does the store of 501 with a limit of 1000. -/
theorem RetrieveHistory_no_default_limit :
    (∃ r, (storeOf (manyTx 51)).RetrievePaymentTransactionHistory "acc" ⟨none, none, 0, 0⟩ =
        .ok r ∧ (Slice.toList r).length = 51 ∧ ¬ (Slice.toList r).length ≤ 50) ∧
    (∃ r, (storeOf (manyTx 501)).RetrievePaymentTransactionHistory "acc" ⟨none, none, 0, 0⟩ =
        .ok r ∧ (Slice.toList r).length = 501 ∧ ¬ (Slice.toList r).length ≤ 500) ∧
    (∃ r, (storeOf (manyTx 501)).RetrievePaymentTransactionHistory "acc" ⟨none, none, 1000, 0⟩ =
        .ok r ∧ (Slice.toList r).length = 501 ∧ ¬ (Slice.toList r).length ≤ 500) := by
  refine ⟨?_, ?_, ?_⟩
  · obtain ⟨r, hr, hl⟩ := history_length_at_offset_zero (storeOf (manyTx 51)) "acc" none none 0
      (List.mem_singleton.mpr rfl)
    rw [manyTx_kept] at hl
    exact ⟨r, hr, by simpa using hl, by rw [hl]; simp⟩
  · obtain ⟨r, hr, hl⟩ := history_length_at_offset_zero (storeOf (manyTx 501)) "acc" none none 0
      (List.mem_singleton.mpr rfl)
    rw [manyTx_kept] at hl
    exact ⟨r, hr, by simpa using hl, by rw [hl]; simp⟩
  · obtain ⟨r, hr, hl⟩ := history_length_at_offset_zero (storeOf (manyTx 501)) "acc" none none 1000
      (List.mem_singleton.mpr rfl)
    rw [manyTx_kept] at hl
    exact ⟨r, hr, by simpa using hl, by rw [hl]; simp⟩

end mock

/-! ## JSON: every string the encoder writes is read back -/

namespace json

/-- The decoder reads each hexadecimal digit of the encoder as its value. -/
theorem hexVal_hexDigit_lt : ∀ j, j < 16 → hexVal (hexDigit j) = some j := by decide

/-- The digit the encoder writes for `k` has the value `k % 16`. -/
theorem hexVal_hexDigit (k : Nat) : hexVal (hexDigit k) = some (k % 16) := by
  have h : hexDigit k = hexDigit (k % 16) := by
    simp only [hexDigit, Nat.mod_mod]
  rw [h]
  exact hexVal_hexDigit_lt _ (Nat.mod_lt _ (by decide))

/-- A code unit below the surrogates is the rune of that number, whatever
follows it. -/
theorem joinPieces_unit_low (u : Nat) (ps : List Piece) (h : u < 0xD800) :
    joinPieces (Piece.unit u :: ps) = Char.ofNat u :: joinPieces ps := by
  have hr : runeOfUnit u = Char.ofNat u := by
    have : ¬(0xD800 ≤ u ∧ u < 0xE000) := by omega
    simp only [runeOfUnit, this, if_false]
  cases ps with
  | nil => simp only [joinPieces, hr]
  | cons q rest =>
    cases q with
    | rune c => simp only [joinPieces, hr]
    | unit u2 =>
      have : ¬(0xD800 ≤ u ∧ u < 0xDC00 ∧ 0xDC00 ≤ u2 ∧ u2 < 0xE000) := by omega
      simp only [joinPieces, this, if_false, hr]

/-- A character that is neither a control character nor a quote nor a
backslash is a piece of the literal as it is. -/
theorem scanPieces_plain (c : Char) (tail : List Char) (h1 : 0x20 ≤ c.toNat) (h3 : c ≠ '"')
    (h4 : c ≠ '\\') :
    scanPieces (c :: tail) = (scanPieces tail).map (fun q => (Piece.rune c :: q.1, q.2)) := by
  conv_lhs => unfold scanPieces
  split
  · rename_i heq
    cases heq
  · rename_i heq
    exact absurd (List.cons.inj heq).1 h3
  · rename_i heq
    exact absurd (List.cons.inj heq).1 h4
  · rename_i heq
    exact absurd (List.cons.inj heq).1 h4
  · rename_i c2 r2 _ _ _ heq
    obtain ⟨hc, hr⟩ := List.cons.inj heq
    subst hc hr
    have : ¬ c.toNat < 0x20 := by omega
    simp only [this, if_false]

/-- The escape the encoder writes for a character below U+0080 is read as the
number of that character. -/
theorem getu4_low (n : Nat) (h : n < 0x80) :
    getu4 '0' '0' (hexDigit (n / 16)) (hexDigit n) = some n := by
  have h0 : hexVal '0' = some 0 := by decide
  simp only [getu4, h0, hexVal_hexDigit]
  congr 1
  omega

/-- What the encoder writes for one character is read by the decoder as one
piece, which stands for that character. -/
theorem scanPieces_encodeChar (c : Char) (tail : List Char) :
    ∃ p, scanPieces (encodeChar c ++ tail) =
        (scanPieces tail).map (fun q => (p :: q.1, q.2)) ∧
      ∀ ps, joinPieces (p :: ps) = c :: joinPieces ps := by
  unfold encodeChar
  split_ifs with h80 hs hq hb hf hn hr ht hls
  · obtain ⟨h1, -, h3, h4⟩ := htmlSafe_spec c hs
    exact ⟨Piece.rune c, scanPieces_plain c tail h1 h3 h4, fun _ => rfl⟩
  · rcases hq with rfl | rfl
    · exact ⟨Piece.rune '\\', rfl, fun _ => rfl⟩
    · exact ⟨Piece.rune '"', rfl, fun _ => rfl⟩
  · subst hb
    exact ⟨Piece.rune (Char.ofNat 8), rfl, fun _ => rfl⟩
  · subst hf
    exact ⟨Piece.rune (Char.ofNat 12), rfl, fun _ => rfl⟩
  · subst hn
    exact ⟨Piece.rune '\n', rfl, fun _ => rfl⟩
  · subst hr
    exact ⟨Piece.rune '\r', rfl, fun _ => rfl⟩
  · subst ht
    exact ⟨Piece.rune '\t', rfl, fun _ => rfl⟩
  · refine ⟨Piece.unit c.toNat, ?_, fun ps => ?_⟩
    · have e : scanPieces (['\\', 'u', '0', '0', hexDigit (c.toNat / 16), hexDigit c.toNat] ++ tail) =
          match getu4 '0' '0' (hexDigit (c.toNat / 16)) (hexDigit c.toNat) with
          | none => none
          | some u => (scanPieces tail).map (fun p => (Piece.unit u :: p.1, p.2)) := rfl
      rw [e, getu4_low _ h80]
    · rw [joinPieces_unit_low _ _ (by omega), Char.ofNat_toNat]
  · rcases hls with rfl | rfl
    · exact ⟨Piece.unit 0x2028, rfl, fun ps => joinPieces_unit_low _ ps (by decide)⟩
    · exact ⟨Piece.unit 0x2029, rfl, fun ps => joinPieces_unit_low _ ps (by decide)⟩
  · have hge : 0x80 ≤ c.toNat := by omega
    refine ⟨Piece.rune c, scanPieces_plain c tail (by omega) ?_ ?_, fun _ => rfl⟩
    · rintro rfl
      exact absurd hge (by decide)
    · rintro rfl
      exact absurd hge (by decide)

/-- The body the encoder writes for a string, closed by a quote, is read back
as that string. -/
theorem scanString_encode (s rest : List Char) :
    scanString (s.flatMap encodeChar ++ '"' :: rest) = some (s, rest) := by
  have key : ∀ l : List Char, ∃ ps,
      scanPieces (l.flatMap encodeChar ++ '"' :: rest) = some (ps, rest) ∧ joinPieces ps = l := by
    intro l
    induction l with
    | nil => exact ⟨[], rfl, rfl⟩
    | cons c l ih =>
      obtain ⟨ps, hps, hj⟩ := ih
      obtain ⟨q, hq, hjq⟩ := scanPieces_encodeChar c (l.flatMap encodeChar ++ '"' :: rest)
      refine ⟨q :: ps, ?_, ?_⟩
      · rw [List.flatMap_cons, List.append_assoc, hq, hps]
        rfl
      · rw [hjq, hj]
  obtain ⟨ps, hps, hj⟩ := key s
  unfold scanString
  rw [hps, Option.map_some', hj]

/-- A string literal of the encoder read as a value. -/
theorem parseValue_encoded (f : Nat) (s rest : List Char) :
    parseValue (f + 1) ('"' :: (s.flatMap encodeChar ++ '"' :: rest)) =
      some (Value.str s, rest) := by
  simp only [parseValue, if_true, scanString_encode s rest, Option.map_some']

/-- An object of two members whose keys are strings of safe characters and
whose values are string literals of the encoder, read as a value. -/
theorem parseValue_object_encoded (f : Nat) (k1 s1 k2 s2 : List Char)
    (hk1 : ∀ c ∈ k1, htmlSafe c = true) (hk2 : ∀ c ∈ k2, htmlSafe c = true) :
    parseValue (f + 1 + 1 + 1) ('{' :: '"' :: (k1 ++ '"' :: ':' :: '"' ::
        (s1.flatMap encodeChar ++ '"' :: ',' :: '"' ::
          (k2 ++ '"' :: ':' :: '"' :: (s2.flatMap encodeChar ++ ['"', '}']))))) =
      some (Value.object [(k1, Value.str s1), (k2, Value.str s2)], []) := by
  have hne : ¬('}' = ',') := by decide
  have hmem : parseMembers (parseValue (f + 1 + 1)) (f + 1 + 1)
      ('"' :: (k1 ++ '"' :: ':' :: '"' :: (s1.flatMap encodeChar ++ '"' :: ',' :: '"' ::
        (k2 ++ '"' :: ':' :: '"' :: (s2.flatMap encodeChar ++ ['"', '}']))))) =
      some ([(k1, Value.str s1), (k2, Value.str s2)], []) := by
    simp only [parseMembers, ne_eq, not_true_eq_false, if_false, scanString_safe k1 _ hk1,
      scanString_safe k2 _ hk2, skipSpace_of_not_space ':' _ (by decide),
      skipSpace_of_not_space '"' _ (by decide), skipSpace_of_not_space ',' _ (by decide),
      skipSpace_of_not_space '}' _ (by decide), parseValue_encoded, if_true, hne,
      Option.map_some']
  have h1 : ¬('{' = '"') := by decide
  have h2 : ¬('"' = '}') := by decide
  simp only [parseValue, h1, h2, if_false, if_true, skipSpace_of_not_space '"' _ (by decide),
    hmem, Option.map_some']

/-- The text of such an object is read as that object. -/
theorem parse_object_encoded (k1 s1 k2 s2 : List Char)
    (hk1 : ∀ c ∈ k1, htmlSafe c = true) (hk2 : ∀ c ∈ k2, htmlSafe c = true) :
    parse (['{'] ++ ('"' :: (k1 ++ ['"'])) ++ [':'] ++ ('"' :: (s1.flatMap encodeChar ++ ['"'])) ++
        [','] ++ ('"' :: (k2 ++ ['"'])) ++ [':'] ++ ('"' :: (s2.flatMap encodeChar ++ ['"'])) ++
        ['}']) =
      some (Value.object [(k1, Value.str s1), (k2, Value.str s2)]) := by
  simp only [List.append_assoc, List.cons_append, List.nil_append, List.singleton_append]
  unfold parse
  rw [skipSpace_of_not_space '{' _ (by decide), List.length_cons, List.length_cons,
    parseValue_object_encoded _ k1 s1 k2 s2 hk1 hk2]
  rfl

/-- The object the encoder writes for the struct is read by the decoder as
the object of the members `amount` and `currency`, in that order, each a
string: the two strings of the struct. -/
theorem parse_Marshal (v : MoneyFields) :
    parse (Marshal v).data =
      some (Value.object [(("amount" : String).data, Value.str v.Amount.data),
        (("currency" : String).data, Value.str v.Currency.data)]) := by
  have hka : ∀ c ∈ ("amount" : String).data, htmlSafe c = true := by decide
  have hkc : ∀ c ∈ ("currency" : String).data, htmlSafe c = true := by decide
  unfold Marshal
  rw [encodeString_safe _ hka, encodeString_safe _ hkc]
  unfold encodeString
  exact parse_object_encoded _ _ _ _ hka hkc

end json

/-! ## Money: the form of the serialized value -/

namespace decimal

namespace Decimal

open strconv

/-- The text `String()` writes holds only characters that the JSON encoder
writes as they are: digits, the minus sign and the point. -/
theorem string_htmlSafe (d : Decimal) :
    ∀ c ∈ (d.string true).data, json.htmlSafe c = true := by
  obtain ⟨ip, fp, v, hstr, hip, -, hfp, -, -, -⟩ := string_shape d
  rw [hstr]
  intro c hc
  simp only [List.mem_append] at hc
  rcases hc with (hc | hc) | hc
  · by_cases hs : d.value < 0
    · simp only [hs, decide_True, if_true, List.mem_singleton] at hc
      rw [hc]
      decide
    · simp [hs] at hc
  · obtain ⟨k, hk, rfl⟩ := hip c hc
    exact digitChar_htmlSafe k hk
  · by_cases hpos : fp.length > 0
    · rw [if_pos hpos] at hc
      rcases List.mem_cons.mp hc with hc | hc
      · rw [hc]
        decide
      · obtain ⟨k, hk, rfl⟩ := hfp c hc
        exact digitChar_htmlSafe k hk
    · rw [if_neg hpos] at hc
      simp at hc

end Decimal

end decimal

namespace models

open decimal

/-- C23. For every Money `m`, `MarshalJSON` succeeds and writes the object
whose first member `amount` is a string literal holding the decimal text of
the amount as it is, and whose second member `currency` is the string literal
of the currency: the decoder reads the output as the object of these two
string members, in this order, the amount never as a number; the decimal text
is a sign, digits and a point whose digits denote the amount exactly; and for
a currency of characters the encoder does not escape the output is literally
the text with the currency between quotes. -/
theorem Money_MarshalJSON_form (m : Money) :
    ∃ data, m.MarshalJSON = .ok data ∧
      data = String.mk ("\x7b\"amount\":\"".data ++ (m.Amount.string true).data ++
        "\",\"currency\":".data ++ json.encodeString m.Currency ++ "\x7d".data) ∧
      json.parse data.data =
        some (json.Value.object
          [("amount".data, json.Value.str (m.Amount.string true).data),
           ("currency".data, json.Value.str m.Currency.data)]) ∧
      ((∀ c ∈ m.Currency.data, json.htmlSafe c = true) →
        data = String.mk ("\x7b\"amount\":\"".data ++ (m.Amount.string true).data ++
          "\",\"currency\":\"".data ++ m.Currency.data ++ "\"\x7d".data)) ∧
      (∃ (ip fp : List Char) (v : Nat),
        m.Amount.string true =
          String.mk ((if decide (m.Amount.value < 0) then ['-'] else []) ++ ip ++
            (if fp.length > 0 then '.' :: fp else [])) ∧
        strconv.IsDigits ip ∧ ip ≠ [] ∧ strconv.IsDigits fp ∧
        strconv.parseDigits (ip ++ fp) 0 = some v ∧
        (Decimal.mk (if decide (m.Amount.value < 0) then -(v : Int) else (v : Int))
          (-(fp.length : Int))).toRat = m.Amount.toRat) := by
  have hka : ∀ c ∈ ("amount" : String).data, json.htmlSafe c = true := by decide
  have hkc : ∀ c ∈ ("currency" : String).data, json.htmlSafe c = true := by decide
  have htext : json.Marshal { Amount := m.Amount.string true, Currency := m.Currency } =
      String.mk ("\x7b\"amount\":\"".data ++ (m.Amount.string true).data ++
        "\",\"currency\":".data ++ json.encodeString m.Currency ++ "\x7d".data) := by
    unfold json.Marshal
    rw [json.encodeString_safe _ hka, json.encodeString_safe _ hkc,
      json.encodeString_safe _ (Decimal.string_htmlSafe m.Amount)]
    simp only [List.append_assoc, List.cons_append, List.nil_append, List.singleton_append]
  refine ⟨_, rfl, htext, json.parse_Marshal _, ?_, ?_⟩
  · intro hsafe
    rw [htext, json.encodeString_safe _ hsafe]
    simp only [List.append_assoc, List.cons_append, List.nil_append, List.singleton_append]
  · obtain ⟨ip, fp, v, hstr, hip, hne, hfp, -, hv, hrat⟩ := Decimal.string_shape m.Amount
    exact ⟨ip, fp, v, hstr, hip, hne, hfp, hv, hrat⟩

/-- Witness of C23: 123.45 AUD is written as the object with the amount
"123.45" and the currency "AUD"; a currency that holds a quote is written
with the quote escaped, and read back as it was. -/
theorem Money_MarshalJSON_form_witness :
    (∃ data, Money.MarshalJSON ⟨⟨12345, -2⟩, "AUD"⟩ = .ok data ∧
      data = String.mk ("\x7b\"amount\":\"".data ++ (Decimal.string ⟨12345, -2⟩ true).data ++
        "\",\"currency\":".data ++ json.encodeString "AUD" ++ "\x7d".data) ∧
      json.parse data.data =
        some (json.Value.object
          [("amount".data, json.Value.str (Decimal.string ⟨12345, -2⟩ true).data),
           ("currency".data, json.Value.str "AUD".data)]) ∧
      ((∀ c ∈ "AUD".data, json.htmlSafe c = true) →
        data = String.mk ("\x7b\"amount\":\"".data ++ (Decimal.string ⟨12345, -2⟩ true).data ++
          "\",\"currency\":\"".data ++ "AUD".data ++ "\"\x7d".data)) ∧
      (∃ (ip fp : List Char) (v : Nat),
        Decimal.string ⟨12345, -2⟩ true =
          String.mk ((if decide ((12345 : Int) < 0) then ['-'] else []) ++ ip ++
            (if fp.length > 0 then '.' :: fp else [])) ∧
        strconv.IsDigits ip ∧ ip ≠ [] ∧ strconv.IsDigits fp ∧
        strconv.parseDigits (ip ++ fp) 0 = some v ∧
        (Decimal.mk (if decide ((12345 : Int) < 0) then -(v : Int) else (v : Int))
          (-(fp.length : Int))).toRat = (Decimal.mk 12345 (-2)).toRat)) ∧
    Money.MarshalJSON ⟨⟨12345, -2⟩, "AUD"⟩ =
      .ok "\x7b\"amount\":\"123.45\",\"currency\":\"AUD\"\x7d" ∧
    Money.MarshalJSON ⟨⟨-5, 0⟩, "A\"B"⟩ =
      .ok "\x7b\"amount\":\"-5\",\"currency\":\"A\\\"B\"\x7d" :=
  ⟨Money_MarshalJSON_form ⟨⟨12345, -2⟩, "AUD"⟩, by decide, by decide⟩

end models

/-! ## The REST routes of accounts -/

namespace rest

open models domains mock

/-- C30 (the code departs from the claim). A GET request for
`/accounts/balance`, `/accounts/balances` or `/accounts/transactions` is not
dispatched to `GetAccount`: the path ends in the suffix of a sub-resource and
is longer than the guard asks, so the handler of the sub-resource gets it and
answers 400 "Account ID is required", whatever the services hold, while
`GetAccount` on the same request looks up the id `balance`. A request for
`/accounts/acc-001` is dispatched to `GetAccount`, which looks up `acc-001`. -/
theorem routeAccountRequests_reserved_ids {B BS : Type} (h : Handlers B BS)
    (query : List (String × String)) :
    routeAccountRequests h ⟨"GET", "/accounts/balance", query⟩ =
      WriteInvalidInputError "Account ID is required" ∧
    routeAccountRequests h ⟨"GET", "/accounts/balances", query⟩ =
      WriteInvalidInputError "Account ID is required" ∧
    routeAccountRequests h ⟨"GET", "/accounts/transactions", query⟩ =
      WriteInvalidInputError "Account ID is required" ∧
    h.GetAccount ⟨"GET", "/accounts/balance", query⟩ =
      (match h.RetrieveCurrentAccount "balance" with
       | .error err =>
         if strings.Contains err "not found" then WriteNotFoundError "account" "balance"
         else WriteInternalError err
       | .ok account => .account account) ∧
    routeAccountRequests h ⟨"GET", "/accounts/acc-001", query⟩ =
      (match h.RetrieveCurrentAccount "acc-001" with
       | .error err =>
         if strings.Contains err "not found" then WriteNotFoundError "account" "acc-001"
         else WriteInternalError err
       | .ok account => .account account) := by
  have hm : ¬(("GET" : String) ≠ "GET") := by decide
  refine ⟨?_, ?_, ?_, ?_, ?_⟩
  · have c1 : strings.len "/accounts/balance" > 10 ∧
        strings.sliceFromEq "/accounts/balance" (strings.len "/accounts/balance" - 8)
          "/balance" = true := by decide
    have c2 : (strings.Split (strings.TrimPrefix "/accounts/balance" "/accounts/") '/').length < 2 ∨
        (strings.Split (strings.TrimPrefix "/accounts/balance" "/accounts/") '/').head? =
          some "" := by decide
    simp only [routeAccountRequests, Handlers.GetAccountBalance]
    rw [if_neg hm, if_pos c1, if_pos c2]
  · have c1 : ¬(strings.len "/accounts/balances" > 10 ∧
        strings.sliceFromEq "/accounts/balances" (strings.len "/accounts/balances" - 8)
          "/balance" = true) := by decide
    have c2 : strings.len "/accounts/balances" > 11 ∧
        strings.sliceFromEq "/accounts/balances" (strings.len "/accounts/balances" - 9)
          "/balances" = true := by decide
    have c3 : (strings.Split (strings.TrimPrefix "/accounts/balances" "/accounts/") '/').length < 2 ∨
        (strings.Split (strings.TrimPrefix "/accounts/balances" "/accounts/") '/').head? =
          some "" := by decide
    simp only [routeAccountRequests, Handlers.GetBalances]
    rw [if_neg hm, if_neg c1, if_pos c2, if_pos c3]
  · have c1 : ¬(strings.len "/accounts/transactions" > 10 ∧
        strings.sliceFromEq "/accounts/transactions" (strings.len "/accounts/transactions" - 8)
          "/balance" = true) := by decide
    have c2 : ¬(strings.len "/accounts/transactions" > 11 ∧
        strings.sliceFromEq "/accounts/transactions" (strings.len "/accounts/transactions" - 9)
          "/balances" = true) := by decide
    have c3 : strings.len "/accounts/transactions" > 15 ∧
        strings.sliceFromEq "/accounts/transactions" (strings.len "/accounts/transactions" - 13)
          "/transactions" = true := by decide
    have c4 :
        (strings.Split (strings.TrimPrefix "/accounts/transactions" "/accounts/") '/').length < 2 ∨
        (strings.Split (strings.TrimPrefix "/accounts/transactions" "/accounts/") '/').head? =
          some "" := by decide
    simp only [routeAccountRequests, Handlers.GetAccountTransactions]
    rw [if_neg hm, if_neg c1, if_neg c2, if_pos c3, if_pos c4]
  · have e : strings.TrimPrefix "/accounts/balance" "/accounts/" = "balance" := by decide
    have c : ¬(("balance" : String) = "" ∨ ("balance" : String) = "/accounts/") := by decide
    simp only [Handlers.GetAccount, e]
    rw [if_neg c]
  · have c1 : ¬(strings.len "/accounts/acc-001" > 10 ∧
        strings.sliceFromEq "/accounts/acc-001" (strings.len "/accounts/acc-001" - 8)
          "/balance" = true) := by decide
    have c2 : ¬(strings.len "/accounts/acc-001" > 11 ∧
        strings.sliceFromEq "/accounts/acc-001" (strings.len "/accounts/acc-001" - 9)
          "/balances" = true) := by decide
    have c3 : ¬(strings.len "/accounts/acc-001" > 15 ∧
        strings.sliceFromEq "/accounts/acc-001" (strings.len "/accounts/acc-001" - 13)
          "/transactions" = true) := by decide
    have e : strings.TrimPrefix "/accounts/acc-001" "/accounts/" = "acc-001" := by decide
    have c : ¬(("acc-001" : String) = "" ∨ ("acc-001" : String) = "/accounts/") := by decide
    simp only [routeAccountRequests, Handlers.GetAccount, e]
    rw [if_neg hm, if_neg c1, if_neg c2, if_neg c3, if_neg c]

end rest

/-! ## The limit at the boundary: REST handler and GraphQL resolver -/

namespace rest

open models domains mock

/-- The empty text is not an integer. -/
theorem Atoi_empty : strconv.Atoi "" = .error strconv.NumError.ErrSyntax := by decide

/-- The block that reads `limit`, on a text that is an integer. -/
theorem limitParam_of_int (text : String) (n : Int) (h : strconv.Atoi text = .ok n) :
    limitParam text =
      if n ≤ 0 then .error "Invalid limit, must be a positive integer"
      else if n > 500 then .error "Limit cannot exceed 500"
      else .ok n := by
  have hne : text ≠ "" := by
    intro he
    rw [he, Atoi_empty] at h
    cases h
  unfold limitParam
  rw [if_pos hne]
  simp only [h]

/-- When the block that reads `limit` rejects, the handler answers with an
invalid-input response that does not depend on the transaction service. -/
theorem GetAccountTransactions_of_limit_error {B BS : Type} (h : Handlers B BS) (r : Request)
    (msg0 : String) (hl : limitParam (r.QueryGet "limit") = .error msg0) :
    ∃ msg, ∀ svc, Handlers.GetAccountTransactions
      { h with RetrievePaymentTransactionHistory := svc } r = WriteInvalidInputError msg := by
  by_cases hp : (strings.Split (strings.TrimPrefix r.Path "/accounts/") '/').length < 2 ∨
      (strings.Split (strings.TrimPrefix r.Path "/accounts/") '/').head? = some ""
  · refine ⟨"Account ID is required", fun svc => ?_⟩
    simp only [Handlers.GetAccountTransactions]
    rw [if_pos hp]
  · cases hF : dateParam h.parseDate (r.QueryGet "fromDate") with
    | error e =>
      refine ⟨"Invalid fromDate format, use YYYY-MM-DD", fun svc => ?_⟩
      simp only [Handlers.GetAccountTransactions, hF]
      rw [if_neg hp]
    | ok fd =>
      cases hT : dateParam h.parseDate (r.QueryGet "toDate") with
      | error e =>
        refine ⟨"Invalid toDate format, use YYYY-MM-DD", fun svc => ?_⟩
        simp only [Handlers.GetAccountTransactions, hF, hT]
        rw [if_neg hp]
      | ok td =>
        refine ⟨msg0, fun svc => ?_⟩
        simp only [Handlers.GetAccountTransactions, hF, hT, hl]
        rw [if_neg hp]

/-- When every block accepts, the handler queries the service with the
options the blocks give and writes its outcome. -/
theorem GetAccountTransactions_of_valid {B BS : Type} (h : Handlers B BS) (r : Request)
    (fd td : Option time.Time) (lim off : Int)
    (hp : ¬((strings.Split (strings.TrimPrefix r.Path "/accounts/") '/').length < 2 ∨
      (strings.Split (strings.TrimPrefix r.Path "/accounts/") '/').head? = some ""))
    (hF : dateParam h.parseDate (r.QueryGet "fromDate") = .ok fd)
    (hT : dateParam h.parseDate (r.QueryGet "toDate") = .ok td)
    (hL : limitParam (r.QueryGet "limit") = .ok lim)
    (hO : offsetParam (r.QueryGet "offset") = .ok off) :
    h.GetAccountTransactions r =
      writeHistory ((strings.Split (strings.TrimPrefix r.Path "/accounts/") '/').headD "")
        (h.RetrievePaymentTransactionHistory
          ((strings.Split (strings.TrimPrefix r.Path "/accounts/") '/').headD "")
          ⟨fd, td, lim, off⟩) := by
  simp only [Handlers.GetAccountTransactions, hF, hT, hL, hO]
  rw [if_neg hp]

end rest

namespace graphql

open models domains mock

/-- When the block that reads the limit rejects, the resolver returns an
error that does not depend on the transaction service. -/
theorem Transactions_of_limit_error {T : Type} (parseDate : String → Except String time.Time)
    (mapTransaction : Transaction → T) (accountID : String) (input : TransactionHistoryInput)
    (msg0 : String) (hl : limitInput input.Limit = .error msg0) :
    ∃ msg, ∀ svc, Transactions parseDate svc mapTransaction accountID (some input) =
      .error msg := by
  cases hF : dateInput parseDate "fromDate" input.FromDate with
  | error e => exact ⟨e, fun svc => by simp only [Transactions, optionsOfInput, hF]⟩
  | ok fd =>
    cases hT : dateInput parseDate "toDate" input.ToDate with
    | error e => exact ⟨e, fun svc => by simp only [Transactions, optionsOfInput, hF, hT]⟩
    | ok td => exact ⟨msg0, fun svc => by simp only [Transactions, optionsOfInput, hF, hT, hl]⟩

/-- When every block accepts, the resolver queries the service with the
options the blocks give and maps its outcome. -/
theorem Transactions_of_valid {T : Type} (parseDate : String → Except String time.Time)
    (svc : String → HistoryOptions → Except String (Slice Transaction))
    (mapTransaction : Transaction → T) (accountID : String) (input : TransactionHistoryInput)
    (fd td : Option time.Time) (lim off : Int)
    (hF : dateInput parseDate "fromDate" input.FromDate = .ok fd)
    (hT : dateInput parseDate "toDate" input.ToDate = .ok td)
    (hL : limitInput input.Limit = .ok lim)
    (hO : offsetInput input.Offset = .ok off) :
    Transactions parseDate svc mapTransaction accountID (some input) =
      mapHistory mapTransaction accountID (svc accountID ⟨fd, td, lim, off⟩) := by
  simp only [Transactions, optionsOfInput, hF, hT, hL, hO]

end graphql

namespace rest

open models domains mock

/-- Counterexample to C25 as stated: a provided limit of 0 is not accepted.
The REST request for the transactions of acc-001 with `limit=0` is answered
400 "Invalid limit, must be a positive integer", while the same request
without a limit returns the five transactions; the GraphQL query with the
limit 0 returns the error "limit must be between 1 and 500", while the same
query without a limit returns the five transactions. -/
theorem limit_zero_rejected :
    strconv.Atoi (Request.QueryGet ⟨"GET", "/accounts/acc-001/transactions", [("limit", "0")]⟩
      "limit") = .ok 0 ∧
    Handlers.GetAccountTransactions (handlersOf (NewProvider 1700000000000000000))
        ⟨"GET", "/accounts/acc-001/transactions", [("limit", "0")]⟩ =
      WriteInvalidInputError "Invalid limit, must be a positive integer" ∧
    (Handlers.GetAccountTransactions (handlersOf (NewProvider 1700000000000000000))
        ⟨"GET", "/accounts/acc-001/transactions", [("limit", "0")]⟩).status = 400 ∧
    (Handlers.GetAccountTransactions (handlersOf (NewProvider 1700000000000000000))
        ⟨"GET", "/accounts/acc-001/transactions", []⟩).count = some 5 ∧
    graphql.Transactions (fun _ => .error "parsing time: cannot parse")
        (NewProvider 1700000000000000000).RetrievePaymentTransactionHistory
        (fun tx => tx.ID) "acc-001" (some ⟨none, none, some 0, none⟩) =
      .error "limit must be between 1 and 500" ∧
    graphql.Transactions (fun _ => .error "parsing time: cannot parse")
        (NewProvider 1700000000000000000).RetrievePaymentTransactionHistory
        (fun tx => tx.ID) "acc-001" (some ⟨none, none, none, none⟩) =
      .ok (some ["tx-001", "tx-002", "tx-003", "tx-004", "tx-005"]) := by
  refine ⟨by decide, by decide, by decide, by decide, by decide, by decide⟩

/-- C25 as amended. In the REST handler `GetAccountTransactions` and in the
GraphQL resolver `Transactions`, a provided integer limit `n` is rejected,
with a response that does not depend on the transaction service, when it is
outside the range 1..500, the limit 0 included; a provided limit in 1..500 is
accepted by the block that reads it and, when the path, the dates and the
offset are accepted too, is passed unchanged as `HistoryOptions.Limit` to the
query; the query receives the limit 0, which means unbounded, only when no
limit is provided. -/
theorem limit_validation_at_boundary {B BS T : Type} (h : Handlers B BS) (r : Request)
    (parseDate : String → Except String time.Time)
    (svc : String → HistoryOptions → Except String (Slice Transaction))
    (mapTransaction : Transaction → T) (accountID : String)
    (input : graphql.TransactionHistoryInput) (n : Int) :
    (strconv.Atoi (r.QueryGet "limit") = .ok n →
      ((n ≤ 0 ∨ n > 500) →
        ∃ msg, ∀ svc', Handlers.GetAccountTransactions
          { h with RetrievePaymentTransactionHistory := svc' } r = WriteInvalidInputError msg) ∧
      ((1 ≤ n ∧ n ≤ 500) → limitParam (r.QueryGet "limit") = .ok n ∧
        ∀ fd td off,
          ¬((strings.Split (strings.TrimPrefix r.Path "/accounts/") '/').length < 2 ∨
            (strings.Split (strings.TrimPrefix r.Path "/accounts/") '/').head? = some "") →
          dateParam h.parseDate (r.QueryGet "fromDate") = .ok fd →
          dateParam h.parseDate (r.QueryGet "toDate") = .ok td →
          offsetParam (r.QueryGet "offset") = .ok off →
          h.GetAccountTransactions r =
            writeHistory ((strings.Split (strings.TrimPrefix r.Path "/accounts/") '/').headD "")
              (h.RetrievePaymentTransactionHistory
                ((strings.Split (strings.TrimPrefix r.Path "/accounts/") '/').headD "")
                ⟨fd, td, n, off⟩))) ∧
    (r.QueryGet "limit" = "" →
      ∀ fd td off,
        ¬((strings.Split (strings.TrimPrefix r.Path "/accounts/") '/').length < 2 ∨
          (strings.Split (strings.TrimPrefix r.Path "/accounts/") '/').head? = some "") →
        dateParam h.parseDate (r.QueryGet "fromDate") = .ok fd →
        dateParam h.parseDate (r.QueryGet "toDate") = .ok td →
        offsetParam (r.QueryGet "offset") = .ok off →
        h.GetAccountTransactions r =
          writeHistory ((strings.Split (strings.TrimPrefix r.Path "/accounts/") '/').headD "")
            (h.RetrievePaymentTransactionHistory
              ((strings.Split (strings.TrimPrefix r.Path "/accounts/") '/').headD "")
              ⟨fd, td, 0, off⟩)) ∧
    (input.Limit = some n →
      ((n ≤ 0 ∨ n > 500) →
        ∃ msg, ∀ svc', graphql.Transactions parseDate svc' mapTransaction accountID
          (some input) = .error msg) ∧
      ((1 ≤ n ∧ n ≤ 500) → graphql.limitInput input.Limit = .ok n ∧
        ∀ fd td off,
          graphql.dateInput parseDate "fromDate" input.FromDate = .ok fd →
          graphql.dateInput parseDate "toDate" input.ToDate = .ok td →
          graphql.offsetInput input.Offset = .ok off →
          graphql.Transactions parseDate svc mapTransaction accountID (some input) =
            graphql.mapHistory mapTransaction accountID (svc accountID ⟨fd, td, n, off⟩))) ∧
    (input.Limit = none →
      ∀ fd td off,
        graphql.dateInput parseDate "fromDate" input.FromDate = .ok fd →
        graphql.dateInput parseDate "toDate" input.ToDate = .ok td →
        graphql.offsetInput input.Offset = .ok off →
        graphql.Transactions parseDate svc mapTransaction accountID (some input) =
          graphql.mapHistory mapTransaction accountID (svc accountID ⟨fd, td, 0, off⟩)) ∧
    graphql.Transactions parseDate svc mapTransaction accountID none =
      graphql.mapHistory mapTransaction accountID (svc accountID ⟨none, none, 0, 0⟩) := by
  refine ⟨fun hlim => ⟨fun hout => ?_, fun hin => ?_⟩, fun hno fd td off hp hF hT hO => ?_,
    fun hlim => ⟨fun hout => ?_, fun hin => ?_⟩, fun hno fd td off hF hT hO => ?_, ?_⟩
  · have hl := limitParam_of_int _ n hlim
    by_cases h0 : n ≤ 0
    · rw [if_pos h0] at hl
      exact GetAccountTransactions_of_limit_error h r _ hl
    · have h5 : n > 500 := by omega
      rw [if_neg h0, if_pos h5] at hl
      exact GetAccountTransactions_of_limit_error h r _ hl
  · have hl := limitParam_of_int _ n hlim
    rw [if_neg (by omega), if_neg (by omega)] at hl
    exact ⟨hl, fun fd td off hp hF hT hO =>
      GetAccountTransactions_of_valid h r fd td n off hp hF hT hl hO⟩
  · have hl : limitParam (r.QueryGet "limit") = .ok 0 := by
      rw [hno]
      decide
    exact GetAccountTransactions_of_valid h r fd td 0 off hp hF hT hl hO
  · have hl : graphql.limitInput input.Limit = .error "limit must be between 1 and 500" := by
      rw [hlim]
      simp only [graphql.limitInput]
      rw [if_pos hout]
    exact graphql.Transactions_of_limit_error parseDate mapTransaction accountID input _ hl
  · have hl : graphql.limitInput input.Limit = .ok n := by
      rw [hlim]
      simp only [graphql.limitInput]
      rw [if_neg (by omega)]
    exact ⟨hl, fun fd td off hF hT hO =>
      graphql.Transactions_of_valid parseDate svc mapTransaction accountID input fd td n off
        hF hT hl hO⟩
  · have hl : graphql.limitInput input.Limit = .ok 0 := by
      rw [hno]
      rfl
    exact graphql.Transactions_of_valid parseDate svc mapTransaction accountID input fd td 0 off
      hF hT hl hO
  · rfl

/-- Witness of C25 as amended: on the sample store, the REST request for the
transactions of acc-001 with `limit=2` reaches the query with Limit 2 and
returns two transactions, the request with `limit=501` is rejected whatever
the service; the GraphQL query with the limit 2 reaches the query with
Limit 2 and the one with the limit 501 is rejected. -/
theorem limit_validation_at_boundary_witness :
    (Handlers.GetAccountTransactions (handlersOf (NewProvider 1700000000000000000))
        ⟨"GET", "/accounts/acc-001/transactions", [("limit", "2")]⟩ =
      writeHistory
        ((strings.Split (strings.TrimPrefix
          (Request.Path ⟨"GET", "/accounts/acc-001/transactions", [("limit", "2")]⟩)
          "/accounts/") '/').headD "")
        ((handlersOf (NewProvider 1700000000000000000)).RetrievePaymentTransactionHistory
          ((strings.Split (strings.TrimPrefix
            (Request.Path ⟨"GET", "/accounts/acc-001/transactions", [("limit", "2")]⟩)
            "/accounts/") '/').headD "")
          ⟨none, none, 2, 0⟩)) ∧
    (Handlers.GetAccountTransactions (handlersOf (NewProvider 1700000000000000000))
        ⟨"GET", "/accounts/acc-001/transactions", [("limit", "2")]⟩).count = some 2 ∧
    (∃ msg, ∀ svc, Handlers.GetAccountTransactions
        { handlersOf (NewProvider 1700000000000000000) with
          RetrievePaymentTransactionHistory := svc }
        ⟨"GET", "/accounts/acc-001/transactions", [("limit", "501")]⟩ =
      WriteInvalidInputError msg) ∧
    (graphql.Transactions (fun _ => .error "parsing time: cannot parse")
        (NewProvider 1700000000000000000).RetrievePaymentTransactionHistory
        (fun tx => tx.ID) "acc-001" (some ⟨none, none, some 2, none⟩) =
      graphql.mapHistory (fun tx => tx.ID) "acc-001"
        ((NewProvider 1700000000000000000).RetrievePaymentTransactionHistory "acc-001"
          ⟨none, none, 2, 0⟩)) ∧
    graphql.Transactions (fun _ => .error "parsing time: cannot parse")
        (NewProvider 1700000000000000000).RetrievePaymentTransactionHistory
        (fun tx => tx.ID) "acc-001" (some ⟨none, none, some 2, none⟩) =
      .ok (some ["tx-001", "tx-002"]) ∧
    (∃ msg, ∀ svc, graphql.Transactions (fun _ => .error "parsing time: cannot parse") svc
        (fun tx => tx.ID) "acc-001" (some ⟨none, none, some 501, none⟩) = .error msg) :=
  ⟨(((limit_validation_at_boundary (handlersOf (NewProvider 1700000000000000000))
      ⟨"GET", "/accounts/acc-001/transactions", [("limit", "2")]⟩
      (fun _ => .error "parsing time: cannot parse")
      (NewProvider 1700000000000000000).RetrievePaymentTransactionHistory
      (fun tx => tx.ID) "acc-001" ⟨none, none, some 2, none⟩ 2).1 (by decide)).2
        ⟨by decide, by decide⟩).2 none none 0 (by decide) (by decide) (by decide) (by decide),
   by decide,
   ((limit_validation_at_boundary (handlersOf (NewProvider 1700000000000000000))
      ⟨"GET", "/accounts/acc-001/transactions", [("limit", "501")]⟩
      (fun _ => .error "parsing time: cannot parse")
      (NewProvider 1700000000000000000).RetrievePaymentTransactionHistory
      (fun tx => tx.ID) "acc-001" ⟨none, none, some 501, none⟩ 501).1 (by decide)).1
        (Or.inr (by decide)),
   (((limit_validation_at_boundary (handlersOf (NewProvider 1700000000000000000))
      ⟨"GET", "/accounts/acc-001/transactions", [("limit", "2")]⟩
      (fun _ => .error "parsing time: cannot parse")
      (NewProvider 1700000000000000000).RetrievePaymentTransactionHistory
      (fun tx => tx.ID) "acc-001" ⟨none, none, some 2, none⟩ 2).2.2.1 rfl).2
        ⟨by decide, by decide⟩).2 none none 0 (by decide) (by decide) (by decide),
   by decide,
   ((limit_validation_at_boundary (handlersOf (NewProvider 1700000000000000000))
      ⟨"GET", "/accounts/acc-001/transactions", [("limit", "501")]⟩
      (fun _ => .error "parsing time: cannot parse")
      (NewProvider 1700000000000000000).RetrievePaymentTransactionHistory
      (fun tx => tx.ID) "acc-001" ⟨none, none, some 501, none⟩ 501).2.2.1 rfl).1
        (Or.inr (by decide))⟩

end rest

/-! ## The REST routes of accounts: the ids that are dispatched to `GetAccount` -/

namespace strings

/-- The encoding of a character other than the slash holds no byte 47. -/
theorem slash_not_mem_utf8Bytes (c : Char) (hc : c ≠ '/') : 47 ∉ utf8Bytes c := by
  have hn : c.toNat ≠ 47 := by
    intro h
    apply hc
    have := congrArg Char.ofNat h
    rwa [Char.ofNat_toNat] at this
  unfold utf8Bytes
  split_ifs <;> simp only [List.mem_cons, List.mem_singleton, List.not_mem_nil, or_false,
    not_or] <;> omega

/-- The bytes of a text without a slash hold no byte 47. -/
theorem slash_not_mem_bytes (l : List Char) (hl : '/' ∉ l) : 47 ∉ l.flatMap utf8Bytes := by
  intro hmem
  obtain ⟨c, hc, hb⟩ := List.mem_flatMap.mp hmem
  exact slash_not_mem_utf8Bytes c (fun h => hl (h ▸ hc)) hb

/-- A text whose bytes are those of a text in ASCII is that text. -/
theorem eq_of_bytes_eq_ascii (a : List Char) (ha : ∀ c ∈ a, c.toNat < 0x80) :
    ∀ l : List Char, l.flatMap utf8Bytes = a.flatMap utf8Bytes → l = a := by
  induction a with
  | nil =>
    intro l hl
    cases l with
    | nil => rfl
    | cons c cs =>
      exfalso
      have hlen := congrArg List.length hl
      simp only [List.flatMap_cons, List.length_append, List.flatMap_nil, List.length_nil] at hlen
      have : 0 < (utf8Bytes c).length := by
        unfold utf8Bytes
        split_ifs <;> simp
      omega
  | cons x xs ih =>
    intro l hl
    have hx : x.toNat < 0x80 := ha x (List.mem_cons_self _ _)
    have ex : utf8Bytes x = [x.toNat] := by simp only [utf8Bytes, hx, if_true]
    cases l with
    | nil =>
      exfalso
      rw [List.flatMap_cons, ex] at hl
      simp at hl
    | cons c cs =>
      rw [List.flatMap_cons, List.flatMap_cons, ex] at hl
      by_cases hc : c.toNat < 0x80
      · have ec : utf8Bytes c = [c.toNat] := by simp only [utf8Bytes, hc, if_true]
        rw [ec] at hl
        simp only [List.singleton_append, List.cons.injEq] at hl
        have hcx : c = x := by
          have := congrArg Char.ofNat hl.1
          rwa [Char.ofNat_toNat, Char.ofNat_toNat] at this
        rw [hcx, ih (fun y hy => ha y (List.mem_cons_of_mem _ hy)) cs hl.2]
      · exfalso
        have hhead : ((utf8Bytes c ++ cs.flatMap utf8Bytes).head?) = some x.toNat := by
          rw [hl]
          rfl
        unfold utf8Bytes at hhead
        split_ifs at hhead <;>
          simp only [List.cons_append, List.head?_cons, Option.some.injEq] at hhead <;> omega

/-- Two texts that end in a separator followed by a part without the
separator have the same last part. -/
theorem last_part_unique {α : Type} (a : α) (S T : List α) (hS : a ∉ S) (hT : a ∉ T) :
    ∀ X Y : List α, X ++ a :: S = Y ++ a :: T → S = T := by
  intro X
  induction X with
  | nil =>
    intro Y h
    cases Y with
    | nil => exact (List.cons.inj h).2
    | cons y Y1 =>
      exfalso
      have h2 := (List.cons.inj h).2
      apply hS
      rw [h2]
      simp
  | cons x X1 ih =>
    intro Y h
    cases Y with
    | nil =>
      exfalso
      have h2 := (List.cons.inj h).2
      apply hT
      rw [← h2]
      simp
    | cons y Y1 => exact ih Y1 (List.cons.inj h).2

/-- The comparison of the end of the path `/accounts/` followed by an id
without a slash with a slash followed by a name in ASCII holds only when the
id is that name. -/
theorem sliceFromEq_accounts (id name : String) (lo : Nat) (hslash : '/' ∉ id.data)
    (hascii : ∀ c ∈ name.data, c.toNat < 0x80) (hname : '/' ∉ name.data)
    (h : sliceFromEq ("/accounts/" ++ id) lo ("/" ++ name) = true) : id = name := by
  simp only [sliceFromEq, decide_eq_true_eq, bytes, String.data_append, List.flatMap_append] at h
  have e1 : ("/accounts/" : String).data.flatMap utf8Bytes =
      [47, 97, 99, 99, 111, 117, 110, 116, 115] ++ [47] := by decide
  have e2 : ("/" : String).data.flatMap utf8Bytes = [47] := by decide
  rw [e1, e2] at h
  have hsplit := List.take_append_drop lo
    ([47, 97, 99, 99, 111, 117, 110, 116, 115] ++ [47] ++ id.data.flatMap utf8Bytes)
  rw [h] at hsplit
  simp only [List.append_assoc, List.singleton_append] at hsplit
  have hb := last_part_unique 47 _ _ (slash_not_mem_bytes _ hname) (slash_not_mem_bytes _ hslash)
    _ _ hsplit
  have hd := eq_of_bytes_eq_ascii name.data hascii id.data hb.symm
  exact String.ext hd

end strings

namespace rest

open models domains mock

/-- For every non-empty account id without a slash that is none of `balance`,
`balances` and `transactions`, the GET request for `/accounts/` followed by
the id is dispatched to `GetAccount`, which looks up exactly that id. -/
theorem routeAccountRequests_of_plain_id {B BS : Type} (h : Handlers B BS) (id : String)
    (query : List (String × String)) (hne : id ≠ "") (hslash : '/' ∉ id.data)
    (h1 : id ≠ "balance") (h2 : id ≠ "balances") (h3 : id ≠ "transactions") :
    routeAccountRequests h ⟨"GET", "/accounts/" ++ id, query⟩ =
        h.GetAccount ⟨"GET", "/accounts/" ++ id, query⟩ ∧
      h.GetAccount ⟨"GET", "/accounts/" ++ id, query⟩ =
        (match h.RetrieveCurrentAccount id with
         | .error err =>
           if strings.Contains err "not found" then WriteNotFoundError "account" id
           else WriteInternalError err
         | .ok account => .account account) := by
  have hm : ¬(("GET" : String) ≠ "GET") := by decide
  have c1 : ¬(strings.len ("/accounts/" ++ id) > 10 ∧
      strings.sliceFromEq ("/accounts/" ++ id) (strings.len ("/accounts/" ++ id) - 8)
        "/balance" = true) := fun hc =>
    h1 (strings.sliceFromEq_accounts id "balance" _ hslash (by decide) (by decide) hc.2)
  have c2 : ¬(strings.len ("/accounts/" ++ id) > 11 ∧
      strings.sliceFromEq ("/accounts/" ++ id) (strings.len ("/accounts/" ++ id) - 9)
        "/balances" = true) := fun hc =>
    h2 (strings.sliceFromEq_accounts id "balances" _ hslash (by decide) (by decide) hc.2)
  have c3 : ¬(strings.len ("/accounts/" ++ id) > 15 ∧
      strings.sliceFromEq ("/accounts/" ++ id) (strings.len ("/accounts/" ++ id) - 13)
        "/transactions" = true) := fun hc =>
    h3 (strings.sliceFromEq_accounts id "transactions" _ hslash (by decide) (by decide) hc.2)
  have e : strings.TrimPrefix ("/accounts/" ++ id) "/accounts/" = id := by
    have hp : strings.HasPrefix ("/accounts/" ++ id) "/accounts/" = true := by
      simp [strings.HasPrefix, String.data_append]
    simp only [strings.TrimPrefix, hp, if_true, String.data_append, List.drop_left]
  have c : ¬(id = "" ∨ id = "/accounts/") := by
    rintro (hc | hc)
    · exact hne hc
    · apply hslash
      rw [hc]
      decide
  constructor
  · simp only [routeAccountRequests]
    rw [if_neg hm, if_neg c1, if_neg c2, if_neg c3]
  · simp only [Handlers.GetAccount, e]
    rw [if_neg c]

end rest

/-! ## The transaction-history query: a page and the full result of another call -/

namespace mock

open models domains

/-- The posting dates of the outcome do not depend on the order in which the
store is enumerated. -/
theorem history_dates_of_perm (accounts : List (String × Account))
    (e1 e2 : List (String × Transaction)) (hperm : e1.Perm e2) (accountID : String)
    (opts : HistoryOptions) :
    ((Provider.mk accounts e1).RetrievePaymentTransactionHistory accountID opts).map Slice.dates =
      ((Provider.mk accounts e2).RetrievePaymentTransactionHistory accountID opts).map
        Slice.dates := by
  by_cases hacc : accountID ∈ accounts.map Prod.fst
  · rw [history_of_known ⟨accounts, e1⟩ accountID opts hacc,
      history_of_known ⟨accounts, e2⟩ accountID opts hacc]
    simp only [Except.map]
    congr 1
    apply paginate_dates_congr
    have hk : ((e1.map Prod.snd).filter (specKeep accountID opts.FromDate opts.ToDate)).Perm
        ((e2.map Prod.snd).filter (specKeep accountID opts.FromDate opts.ToDate)) :=
      (hperm.map _).filter _
    rw [filterTransactions_eq, filterTransactions_eq]
    by_cases h1 : (e1.map Prod.snd).filter (specKeep accountID opts.FromDate opts.ToDate) = []
    · have h2 : (e2.map Prod.snd).filter (specKeep accountID opts.FromDate opts.ToDate) = [] := by
        rw [h1] at hk
        exact List.Perm.nil_eq hk |>.symm
      rw [if_pos h1, if_pos h2]
    · have h2 : (e2.map Prod.snd).filter (specKeep accountID opts.FromDate opts.ToDate) ≠ [] := by
        intro h2
        rw [h2] at hk
        exact h1 (List.Perm.eq_nil hk)
      rw [if_neg h1, if_neg h2]
      simp only [Slice.dates, Option.map_some', Option.some.injEq]
      exact sorted_dates_of_perm _ _ hk
  · rw [history_of_unknown ⟨accounts, e1⟩ accountID opts hacc,
      history_of_unknown ⟨accounts, e2⟩ accountID opts hacc]

/-- When the transactions of the account have pairwise distinct posting
dates, the outcome does not depend on the order in which the store is
enumerated. -/
theorem history_eq_of_perm_of_distinct (accounts : List (String × Account))
    (e1 e2 : List (String × Transaction)) (hperm : e1.Perm e2) (accountID : String)
    (opts : HistoryOptions)
    (hdistinct : (((e1.map Prod.snd).filter (fun tx => decide (tx.AccountID = accountID))).map
      (fun tx => tx.PostingDate)).Nodup) :
    (Provider.mk accounts e1).RetrievePaymentTransactionHistory accountID opts =
      (Provider.mk accounts e2).RetrievePaymentTransactionHistory accountID opts := by
  by_cases hacc : accountID ∈ accounts.map Prod.fst
  · rw [history_of_known ⟨accounts, e1⟩ accountID opts hacc,
      history_of_known ⟨accounts, e2⟩ accountID opts hacc]
    have hk : ((e1.map Prod.snd).filter (specKeep accountID opts.FromDate opts.ToDate)).Perm
        ((e2.map Prod.snd).filter (specKeep accountID opts.FromDate opts.ToDate)) :=
      (hperm.map _).filter _
    have hn : (((e1.map Prod.snd).filter (specKeep accountID opts.FromDate opts.ToDate)).map
        (fun tx => tx.PostingDate)).Nodup :=
      ((specKeep_sublist _ accountID opts.FromDate opts.ToDate).map _).nodup hdistinct
    have hsort : sortByPostingDate
          ((e1.map Prod.snd).filter (specKeep accountID opts.FromDate opts.ToDate)) =
        sortByPostingDate
          ((e2.map Prod.snd).filter (specKeep accountID opts.FromDate opts.ToDate)) := by
      apply eq_of_perm_of_map_eq (fun tx : Transaction => tx.PostingDate)
      · exact ((sortByPostingDate_perm _).trans hk).trans (sortByPostingDate_perm _).symm
      · exact sorted_dates_of_perm _ _ hk
      · exact (((sortByPostingDate_perm _).map _).nodup_iff).mpr hn
    congr 2
    rw [filterTransactions_eq, filterTransactions_eq]
    by_cases h1 : (e1.map Prod.snd).filter (specKeep accountID opts.FromDate opts.ToDate) = []
    · have h2 : (e2.map Prod.snd).filter (specKeep accountID opts.FromDate opts.ToDate) = [] := by
        rw [h1] at hk
        exact List.Perm.nil_eq hk |>.symm
      rw [if_pos h1, if_pos h2]
    · have h2 : (e2.map Prod.snd).filter (specKeep accountID opts.FromDate opts.ToDate) ≠ [] := by
        intro h2
        rw [h2] at hk
        exact h1 (List.Perm.eq_nil hk)
      rw [if_neg h1, if_neg h2]
      simp only [Option.map_some', hsort]
  · rw [history_of_unknown ⟨accounts, e1⟩ accountID opts hacc,
      history_of_unknown ⟨accounts, e2⟩ accountID opts hacc]

/-- Counterexample to C3 as stated: the store holds t1 and t2 of one account,
both posted at instant 1. A call that enumerates the store as t1, t2 gives
the full result t1, t2; a call that enumerates the same store as t2, t1 gives
with limit 1 the page t2, which is not the window t1 of that full result. -/
theorem RetrieveHistory_page_not_window :
    (storeOf [txAt "t1" "acc" 1, txAt "t2" "acc" 1]).accounts =
      (storeOf [txAt "t2" "acc" 1, txAt "t1" "acc" 1]).accounts ∧
    (storeOf [txAt "t1" "acc" 1, txAt "t2" "acc" 1]).transactions.Perm
      (storeOf [txAt "t2" "acc" 1, txAt "t1" "acc" 1]).transactions ∧
    (storeOf [txAt "t1" "acc" 1, txAt "t2" "acc" 1]).RetrievePaymentTransactionHistory "acc"
      ⟨none, none, 0, 0⟩ = .ok (some [txAt "t1" "acc" 1, txAt "t2" "acc" 1]) ∧
    (storeOf [txAt "t2" "acc" 1, txAt "t1" "acc" 1]).RetrievePaymentTransactionHistory "acc"
      ⟨none, none, 1, 0⟩ = .ok (some [txAt "t2" "acc" 1]) ∧
    ([txAt "t1" "acc" 1, txAt "t2" "acc" 1].take
      (min (0 + 1) [txAt "t1" "acc" 1, txAt "t2" "acc" 1].length)).drop 0 =
        [txAt "t1" "acc" 1] ∧
    [txAt "t2" "acc" 1] ≠
      ([txAt "t1" "acc" 1, txAt "t2" "acc" 1].take
        (min (0 + 1) [txAt "t1" "acc" 1, txAt "t2" "acc" 1].length)).drop 0 :=
  ⟨rfl, List.Perm.swap _ _ _, by decide, by decide, by decide, by decide⟩

/-- C3 as amended. For a known account, a date filter, an offset >= 0 and a
limit >= 0, take the full result (offset 0, limit 0) of a call that enumerates
the store as `e1` and the result of a call that enumerates the same store as
`e2`. When the two enumerations are the same, and also when the transactions
of the account have pairwise distinct posting dates, the result is the
contiguous window of the full result from index `offset` to index
`min (offset + limit) length` when the limit is positive, and to the end when
the limit is 0; in every case the posting dates of the result are that window
of the posting dates of the full result. -/
theorem RetrieveHistory_pagination (accounts : List (String × Account))
    (e1 e2 : List (String × Transaction)) (hperm : e1.Perm e2) (accountID : String)
    (opts : HistoryOptions) (hacc : accountID ∈ accounts.map Prod.fst)
    (hoff : 0 ≤ opts.Offset) (hlim : 0 ≤ opts.Limit) :
    ∃ full r,
      (Provider.mk accounts e1).RetrievePaymentTransactionHistory accountID
        { opts with Offset := 0, Limit := 0 } = .ok full ∧
      (Provider.mk accounts e2).RetrievePaymentTransactionHistory accountID opts = .ok r ∧
      (e1 = e2 →
        Slice.toList r =
          ((Slice.toList full).take
            (if opts.Limit > 0 then
              min (opts.Offset + opts.Limit).toNat (Slice.toList full).length
             else (Slice.toList full).length)).drop opts.Offset.toNat) ∧
      ((((e1.map Prod.snd).filter (fun tx => decide (tx.AccountID = accountID))).map
          (fun tx => tx.PostingDate)).Nodup →
        Slice.toList r =
          ((Slice.toList full).take
            (if opts.Limit > 0 then
              min (opts.Offset + opts.Limit).toNat (Slice.toList full).length
             else (Slice.toList full).length)).drop opts.Offset.toNat) ∧
      (Slice.toList r).map (fun tx => tx.PostingDate) =
        (((Slice.toList full).map (fun tx => tx.PostingDate)).take
          (if opts.Limit > 0 then
            min (opts.Offset + opts.Limit).toNat (Slice.toList full).length
           else (Slice.toList full).length)).drop opts.Offset.toNat := by
  obtain ⟨full2, r, hfull2, hr, hwin⟩ :=
    history_window ⟨accounts, e2⟩ accountID opts hacc hoff hlim
  obtain ⟨full1, hfull1⟩ : ∃ full1,
      (Provider.mk accounts e1).RetrievePaymentTransactionHistory accountID
        { opts with Offset := 0, Limit := 0 } = .ok full1 :=
    ⟨_, history_of_known ⟨accounts, e1⟩ accountID _ hacc⟩
  refine ⟨full1, r, hfull1, hr, ?_, ?_, ?_⟩
  · intro he
    subst he
    have : full1 = full2 := by
      rw [hfull1] at hfull2
      exact Except.ok.inj hfull2
    rw [this]
    exact hwin
  · intro hd
    have heq := history_eq_of_perm_of_distinct accounts e1 e2 hperm accountID
      { opts with Offset := 0, Limit := 0 } hd
    rw [hfull1, hfull2] at heq
    rw [Except.ok.inj heq]
    exact hwin
  · have hdates := history_dates_of_perm accounts e1 e2 hperm accountID
      { opts with Offset := 0, Limit := 0 }
    rw [hfull1, hfull2] at hdates
    simp only [Except.map, Except.ok.injEq] at hdates
    have hm : (Slice.toList full1).map (fun tx => tx.PostingDate) =
        (Slice.toList full2).map (fun tx => tx.PostingDate) := by
      cases full1 <;> cases full2 <;> simp [Slice.dates] at hdates <;>
        simp [Slice.toList, hdates]
    have hl : (Slice.toList full1).length = (Slice.toList full2).length := by
      have := congrArg List.length hm
      simpa using this
    rw [hwin, List.map_drop, List.map_take, hm, hl]

/-- Witness of C3 as amended: the sample store enumerated in the order in
which it was filled and in the reverse order, the account acc-001, limit 2:
the page of the second call is tx-001 then tx-002, the transactions posted 1
and 3 days before now, the first two of the full result of the first call. -/
theorem RetrieveHistory_pagination_witness :
    (∃ full r,
      (Provider.mk (loadSampleAccounts 1700000000000000000)
        (loadSampleTransactions 1700000000000000000)).RetrievePaymentTransactionHistory
          "acc-001" ⟨none, none, 0, 0⟩ = .ok full ∧
      (Provider.mk (loadSampleAccounts 1700000000000000000)
        (loadSampleTransactions 1700000000000000000).reverse).RetrievePaymentTransactionHistory
          "acc-001" ⟨none, none, 2, 0⟩ = .ok r ∧
      Slice.toList r = ((Slice.toList full).take (min 2 (Slice.toList full).length)).drop 0) ∧
    (((Provider.mk (loadSampleAccounts 1700000000000000000)
        (loadSampleTransactions 1700000000000000000).reverse).RetrievePaymentTransactionHistory
          "acc-001" ⟨none, none, 2, 0⟩).toOption.map
      (fun r => (Slice.toList r).map (fun tx => (tx.ID, tx.PostingDate)))) =
      some [("tx-001", 1700000000000000000 - 1 * time.day),
            ("tx-002", 1700000000000000000 - 3 * time.day)] ∧
    (((NewProvider 1700000000000000000).RetrievePaymentTransactionHistory "acc-001"
        ⟨none, none, 0, 0⟩).toOption.map
      (fun r => (Slice.toList r).map (fun tx => tx.ID))) =
      some ["tx-001", "tx-002", "tx-003", "tx-004", "tx-005"] := by
  obtain ⟨full, r, hf, hr, -, hd, -⟩ :=
    RetrieveHistory_pagination (loadSampleAccounts 1700000000000000000)
      (loadSampleTransactions 1700000000000000000)
      (loadSampleTransactions 1700000000000000000).reverse
      (List.reverse_perm (loadSampleTransactions 1700000000000000000)).symm "acc-001"
      ⟨none, none, 2, 0⟩ (by decide) (by decide) (by decide)
  exact ⟨⟨full, r, hf, hr, hd (by decide)⟩, by decide, by decide⟩

end mock
